import Mathlib

/-!
# STM32 PWM driver (`hw/drivers/pwm/pwm_stm32/src/pwm_stm32.c`)

A shallow embedding of the channel state machine, the commit step, the
period-elapsed interrupt handler and the frequency divisor computation of the
driver, followed by the properties proved about them.

Conventions of the embedding.

* Machine integers are natural numbers; the width of a value is made explicit
  where the C code truncates (bit-field stores, `uint32_t` arithmetic).
* The channel configuration word is the 32-bit `config` member of the union;
  the bit-fields are read and written in place inside that word, allocated
  from the least significant bit upwards (the ARM EABI layout, the one under
  which `STM32_PWM_CH_DISABLED = 0x0FFFFFFF` means "no pin, no alternate
  function, all flags clear").
* The driver state of one timer is a record `stm32_pwm_dev_t` holding the
  timer registers, the channel array and the trace of the calls made to the
  outside world (low-level timer calls, pin-mux calls, user callbacks).
* The pin-mux function `hal_gpio_init_af` is external; its return value is
  given by an arbitrary function of the trace so far and of its arguments.
* User callbacks are external code: an invocation is recorded in the trace and
  has no other effect on the driver state.
-/

namespace PwmStm32

/-! ## Constants -/

def STM32_PWM_CH_MAX : Nat := 4
def STM32_PWM_CH_DISABLED : Nat := 0x0FFFFFFF
def STM32_PWM_CH_NOPIN : Nat := 0xFF
def STM32_PWM_CH_NOAF : Nat := 0x0F

/-- Modelled from the spec: the update-interrupt flag of the timer status
register (`TIM_SR_UIF`, bit 0), declared in the vendor header. -/
def TIM_SR_UIF : Nat := 1

/-- Modelled from the spec: output-compare mode "PWM mode 1"
(`LL_TIM_OCMODE_PWM1`), declared in the vendor header. -/
def LL_TIM_OCMODE_PWM1 : Nat := 0x60

/-- Modelled from the spec: active-high output polarity
(`LL_TIM_OCPOLARITY_HIGH`), declared in the vendor header. -/
def LL_TIM_OCPOLARITY_HIGH : Nat := 0

/-- Modelled from the spec: active-low output polarity
(`LL_TIM_OCPOLARITY_LOW`), declared in the vendor header. -/
def LL_TIM_OCPOLARITY_LOW : Nat := 2

/-- Modelled from the spec: the result codes of the driver (`STM32_PWM_ERR_OK`,
`_NODEV`, `_NOTIM`, `_CHAN`, `_FREQ`, `_GPIO`), declared in the driver header;
`pinmux` stands for `STM32_PWM_ERR_GPIO`, the PinAssignment error. -/
inductive Rc
  | ok
  | nodev
  | notim
  | chan
  | freq
  | pinmux
  deriving DecidableEq, Repr

/-! ## Bit-fields of the configuration word -/

/-- Read the bit-field of `width` bits at bit offset `off` of the word `w`. -/
def getBits (w off width : Nat) : Nat := (w / 2 ^ off) % 2 ^ width

/-- Store `v`, truncated to `width` bits, into the bit-field at offset `off`. -/
def setBits (w off width v : Nat) : Nat :=
  w - getBits w off width * 2 ^ off + (v % 2 ^ width) * 2 ^ off

/-- The channel record `stm32_pwm_ch_t`.  Function pointers and data pointers
are addresses; the null pointer is `0`. -/
structure stm32_pwm_ch_t where
  config : Nat
  cycle_count : Nat
  cycle : Nat
  cycle_callback : Nat
  sequence_callback : Nat
  cycle_data : Nat
  sequence_data : Nat
  deriving DecidableEq, Repr

namespace stm32_pwm_ch_t

def duty (c : stm32_pwm_ch_t) : Nat := getBits c.config 0 16
def pin (c : stm32_pwm_ch_t) : Nat := getBits c.config 16 8
def af (c : stm32_pwm_ch_t) : Nat := getBits c.config 24 4
def invert (c : stm32_pwm_ch_t) : Nat := getBits c.config 28 1
def enabled (c : stm32_pwm_ch_t) : Nat := getBits c.config 29 1
def update (c : stm32_pwm_ch_t) : Nat := getBits c.config 30 1
def configure (c : stm32_pwm_ch_t) : Nat := getBits c.config 31 1

def set_config (c : stm32_pwm_ch_t) (v : Nat) : stm32_pwm_ch_t :=
  { c with config := v % 2 ^ 32 }
def set_duty (c : stm32_pwm_ch_t) (v : Nat) : stm32_pwm_ch_t :=
  { c with config := setBits c.config 0 16 v }
def set_pin (c : stm32_pwm_ch_t) (v : Nat) : stm32_pwm_ch_t :=
  { c with config := setBits c.config 16 8 v }
def set_af (c : stm32_pwm_ch_t) (v : Nat) : stm32_pwm_ch_t :=
  { c with config := setBits c.config 24 4 v }
def set_invert (c : stm32_pwm_ch_t) (v : Nat) : stm32_pwm_ch_t :=
  { c with config := setBits c.config 28 1 v }
def set_enabled (c : stm32_pwm_ch_t) (v : Nat) : stm32_pwm_ch_t :=
  { c with config := setBits c.config 29 1 v }
def set_update (c : stm32_pwm_ch_t) (v : Nat) : stm32_pwm_ch_t :=
  { c with config := setBits c.config 30 1 v }
def set_configure (c : stm32_pwm_ch_t) (v : Nat) : stm32_pwm_ch_t :=
  { c with config := setBits c.config 31 1 v }

end stm32_pwm_ch_t

/-! ## Timer registers, trace of external calls, device state -/

/-- The registers of `TIM_TypeDef` the driver touches.  `CR1_CEN` is the
counter-enable bit of `CR1`. -/
structure TIM_TypeDef where
  CR1_CEN : Bool
  SR : Nat
  CNT : Nat
  PSC : Nat
  ARR : Nat
  CCER : Nat
  CCR1 : Nat
  CCR2 : Nat
  CCR3 : Nat
  CCR4 : Nat
  deriving DecidableEq, Repr

/-- The calls the driver makes to the outside world, in program order. -/
inductive Ev
  | CC_DisableChannel (channels : Nat)
  | CC_EnableChannel (channels : Nat)
  | OC_SetMode (channel mode : Nat)
  | OC_SetPolarity (channel polarity : Nat)
  | OC_EnablePreload (channel : Nat)
  | OC_SetCompare (ch value : Nat)
  | DisableCounter
  | EnableCounter
  | SetCounter (value : Nat)
  | GenerateEvent_UPDATE
  | SetPrescaler (value : Nat)
  | SetAutoReload (value : Nat)
  | gpio_init_af (pin af : Nat)
  | cycle_callback (ch fn data : Nat)
  | sequence_callback (ch fn data : Nat)
  deriving DecidableEq, Repr

/-- The state of one PWM device: `stm32_pwm_dev_t` (timer and the array
`ch[STM32_PWM_CH_MAX]`, slots `0..3`) together with the trace of external
calls. -/
structure stm32_pwm_dev_t where
  timx : TIM_TypeDef
  ch : Nat → stm32_pwm_ch_t
  trace : List Ev

/-- The environment's answer to `hal_gpio_init_af(pin, af, ...)`: a result code
(`0` is success) depending on everything that happened before. -/
abbrev Hal := List Ev → Nat → Nat → Nat

namespace stm32_pwm_dev_t

/-- Array store `pwm->ch[i] = c`. -/
def setCh (s : stm32_pwm_dev_t) (i : Nat) (c : stm32_pwm_ch_t) : stm32_pwm_dev_t :=
  { s with ch := fun k => if k = i then c else s.ch k }

/-- Record an external call. -/
def emit (s : stm32_pwm_dev_t) (e : Ev) : stm32_pwm_dev_t :=
  { s with trace := s.trace ++ [e] }

end stm32_pwm_dev_t

/-! ## Low-level timer calls (vendor LL driver) -/

/-- Modelled from the spec: `LL_TIM_CC_DisableChannel` clears the
capture/compare enable bits `channels` of `CCER`. -/
def LL_TIM_CC_DisableChannel (s : stm32_pwm_dev_t) (channels : Nat) : stm32_pwm_dev_t :=
  ({ s with timx := { s.timx with CCER := s.timx.CCER &&& (0xFFFFFFFF ^^^ channels) } }).emit
    (Ev.CC_DisableChannel channels)

/-- Modelled from the spec: `LL_TIM_CC_EnableChannel` sets the capture/compare
enable bits `channels` of `CCER`. -/
def LL_TIM_CC_EnableChannel (s : stm32_pwm_dev_t) (channels : Nat) : stm32_pwm_dev_t :=
  ({ s with timx := { s.timx with CCER := s.timx.CCER ||| channels } }).emit
    (Ev.CC_EnableChannel channels)

/-- Modelled from the spec: `LL_TIM_OC_SetMode`; the mode bits are kept in the
trace only. -/
def LL_TIM_OC_SetMode (s : stm32_pwm_dev_t) (channel mode : Nat) : stm32_pwm_dev_t :=
  s.emit (Ev.OC_SetMode channel mode)

/-- Modelled from the spec: `LL_TIM_OC_SetPolarity`; the polarity bit is kept
in the trace only. -/
def LL_TIM_OC_SetPolarity (s : stm32_pwm_dev_t) (channel polarity : Nat) : stm32_pwm_dev_t :=
  s.emit (Ev.OC_SetPolarity channel polarity)

/-- Modelled from the spec: `LL_TIM_OC_EnablePreload`; the preload bit is kept
in the trace only. -/
def LL_TIM_OC_EnablePreload (s : stm32_pwm_dev_t) (channel : Nat) : stm32_pwm_dev_t :=
  s.emit (Ev.OC_EnablePreload channel)

/-- Modelled from the spec: `LL_TIM_DisableCounter` clears `CR1.CEN`. -/
def LL_TIM_DisableCounter (s : stm32_pwm_dev_t) : stm32_pwm_dev_t :=
  ({ s with timx := { s.timx with CR1_CEN := false } }).emit Ev.DisableCounter

/-- Modelled from the spec: `LL_TIM_EnableCounter` sets `CR1.CEN`. -/
def LL_TIM_EnableCounter (s : stm32_pwm_dev_t) : stm32_pwm_dev_t :=
  ({ s with timx := { s.timx with CR1_CEN := true } }).emit Ev.EnableCounter

/-- Modelled from the spec: `LL_TIM_SetCounter` writes `CNT`. -/
def LL_TIM_SetCounter (s : stm32_pwm_dev_t) (value : Nat) : stm32_pwm_dev_t :=
  ({ s with timx := { s.timx with CNT := value } }).emit (Ev.SetCounter value)

/-- Modelled from the spec: `LL_TIM_GenerateEvent_UPDATE` requests a software
update event (write-only `EGR.UG`); recorded in the trace. -/
def LL_TIM_GenerateEvent_UPDATE (s : stm32_pwm_dev_t) : stm32_pwm_dev_t :=
  s.emit Ev.GenerateEvent_UPDATE

/-- Modelled from the spec: `LL_TIM_SetPrescaler` writes `PSC`. -/
def LL_TIM_SetPrescaler (s : stm32_pwm_dev_t) (value : Nat) : stm32_pwm_dev_t :=
  ({ s with timx := { s.timx with PSC := value } }).emit (Ev.SetPrescaler value)

/-- Modelled from the spec: `LL_TIM_SetAutoReload` writes `ARR`. -/
def LL_TIM_SetAutoReload (s : stm32_pwm_dev_t) (value : Nat) : stm32_pwm_dev_t :=
  ({ s with timx := { s.timx with ARR := value } }).emit (Ev.SetAutoReload value)

/-- Modelled from the spec: `LL_TIM_GetPrescaler` reads `PSC`. -/
def LL_TIM_GetPrescaler (s : stm32_pwm_dev_t) : Nat := s.timx.PSC

/-- Modelled from the spec: `LL_TIM_GetAutoReload` reads `ARR`. -/
def LL_TIM_GetAutoReload (s : stm32_pwm_dev_t) : Nat := s.timx.ARR

/-- Modelled from the spec: the pin-mux call `hal_gpio_init_af(pin, af, pull, 0)`
of the platform; the call is recorded and its result code is the environment's
answer. -/
def hal_gpio_init_af (hal : Hal) (pin af : Nat) (s : stm32_pwm_dev_t) : Nat × stm32_pwm_dev_t :=
  (hal s.trace pin af, s.emit (Ev.gpio_init_af pin af))

/-! ## The driver -/

def stm32_pwm_ch (ch : Nat) : Nat :=
  match ch with
  | 0 => 0x1
  | 1 => 0x10
  | 2 => 0x100
  | 3 => 0x1000
  | _ => 0

def stm32_pwm_ch_set_compare (s : stm32_pwm_dev_t) (ch value : Nat) : stm32_pwm_dev_t :=
  match ch with
  | 0 => ({ s with timx := { s.timx with CCR1 := value } }).emit (Ev.OC_SetCompare 0 value)
  | 1 => ({ s with timx := { s.timx with CCR2 := value } }).emit (Ev.OC_SetCompare 1 value)
  | 2 => ({ s with timx := { s.timx with CCR3 := value } }).emit (Ev.OC_SetCompare 2 value)
  | 3 => ({ s with timx := { s.timx with CCR4 := value } }).emit (Ev.OC_SetCompare 3 value)
  | _ => s

def stm32_pwm_has_assigned_pin (ch : stm32_pwm_ch_t) : Bool :=
  decide (STM32_PWM_CH_NOPIN ≠ ch.pin) && decide (STM32_PWM_CH_NOAF ≠ ch.af)

def stm32_pwm_disable_ch (hal : Hal) (pwm : stm32_pwm_dev_t) (cnum : Nat) :
    Rc × stm32_pwm_dev_t :=
  let pwm1 := LL_TIM_CC_DisableChannel pwm (stm32_pwm_ch cnum)
  if stm32_pwm_has_assigned_pin (pwm1.ch cnum) then
    let r := hal_gpio_init_af hal (pwm1.ch cnum).pin 0 pwm1
    if r.1 ≠ 0 then
      (Rc.pinmux, r.2)
    else
      (Rc.ok, r.2.setCh cnum ((r.2.ch cnum).set_config STM32_PWM_CH_DISABLED))
  else
    (Rc.ok, pwm1.setCh cnum ((pwm1.ch cnum).set_config STM32_PWM_CH_DISABLED))

/-- The body of the channel loop of `stm32_pwm_isr` for slot `j`. -/
def stm32_pwm_isr_ch (hal : Hal) (j : Nat) (pwm : stm32_pwm_dev_t) : stm32_pwm_dev_t :=
  let ch := pwm.ch j
  if ch.enabled ≠ 0 then
    if 1 = ch.cycle then
      let pwm1 := pwm.setCh j { ch with cycle := ch.cycle_count }
      if ch.sequence_callback ≠ 0 then
        pwm1.emit (Ev.sequence_callback j ch.sequence_callback ch.sequence_data)
      else
        (stm32_pwm_disable_ch hal pwm1 j).2
    else
      let pwm1 := if ch.cycle ≠ 0 then pwm.setCh j { ch with cycle := ch.cycle - 1 } else pwm
      if ch.cycle_callback ≠ 0 then
        pwm1.emit (Ev.cycle_callback j ch.cycle_callback ch.cycle_data)
      else
        pwm1
  else
    pwm

/-- The body of the device loop of `stm32_pwm_isr` for one device: read the
status register, clear the flags that were read (the flags are cleared by
writing zero), and serve the channels when the update flag was pending. -/
def stm32_pwm_isr_dev (hal : Hal) (pwm : stm32_pwm_dev_t) : stm32_pwm_dev_t :=
  let sr := pwm.timx.SR
  let pwm1 := { pwm with timx := { pwm.timx with SR := pwm.timx.SR &&& (0xFFFFFFFF ^^^ sr) } }
  if sr &&& TIM_SR_UIF ≠ 0 then
    (List.range STM32_PWM_CH_MAX).foldl (fun st j => stm32_pwm_isr_ch hal j st) pwm1
  else
    pwm1

/-- The interrupt handler `stm32_pwm_isr`: every device of `stm32_pwm_dev[]` is
served in turn. -/
def stm32_pwm_isr (hal : Hal) (devs : List stm32_pwm_dev_t) : List stm32_pwm_dev_t :=
  devs.map (stm32_pwm_isr_dev hal)

/-- The hardware raises the update flag at the end of a period. -/
def raise_UIF (pwm : stm32_pwm_dev_t) : stm32_pwm_dev_t :=
  { pwm with timx := { pwm.timx with SR := pwm.timx.SR ||| TIM_SR_UIF } }

/-- One period-elapsed event: the hardware raises the update flag and the
handler runs. -/
def period_elapsed (hal : Hal) (pwm : stm32_pwm_dev_t) : stm32_pwm_dev_t :=
  stm32_pwm_isr_dev hal (raise_UIF pwm)

/-- The loop state of `stm32_pwm_update_channels`: the device and the two local
counters. -/
structure UpdateLoop where
  pwm : stm32_pwm_dev_t
  configured : Nat
  enabled : Nat

/-- The body of the channel loop of `stm32_pwm_update_channels` for slot `i`. -/
def stm32_pwm_update_channels_ch (update_all : Bool) (i : Nat) (st : UpdateLoop) : UpdateLoop :=
  if STM32_PWM_CH_DISABLED ≠ (st.pwm.ch i).config then
    let enabled := st.enabled + 1
    if (st.pwm.ch i).enabled ≠ 0 ∧ (update_all = true ∨ (st.pwm.ch i).update ≠ 0) then
      if (st.pwm.ch i).configure ≠ 0 then
        let configured := st.configured + 1
        let channelID := stm32_pwm_ch i
        let p1 := LL_TIM_OC_SetMode st.pwm channelID LL_TIM_OCMODE_PWM1
        let p2 := LL_TIM_OC_SetPolarity p1 channelID
          (if (p1.ch i).invert ≠ 0 then LL_TIM_OCPOLARITY_HIGH else LL_TIM_OCPOLARITY_LOW)
        let p3 := LL_TIM_OC_EnablePreload p2 channelID
        let p4 := stm32_pwm_ch_set_compare p3 i (p3.ch i).duty
        let p5 := LL_TIM_CC_EnableChannel p4 channelID
        let p6 := p5.setCh i ((p5.ch i).set_configure 0)
        let p7 := p6.setCh i ((p6.ch i).set_update 0)
        { pwm := p7, configured := configured, enabled := enabled }
      else
        let p1 := stm32_pwm_ch_set_compare st.pwm i (st.pwm.ch i).duty
        let p2 := p1.setCh i ((p1.ch i).set_update 0)
        { pwm := p2, configured := st.configured, enabled := enabled }
    else
      { pwm := st.pwm, configured := st.configured, enabled := enabled }
  else
    st

/-- The channel loop of `stm32_pwm_update_channels`. -/
def stm32_pwm_update_channels_loop (pwm : stm32_pwm_dev_t) (update_all : Bool) : UpdateLoop :=
  (List.range STM32_PWM_CH_MAX).foldl (fun st i => stm32_pwm_update_channels_ch update_all i st)
    { pwm := pwm, configured := 0, enabled := 0 }

/-- The commit step. -/
def stm32_pwm_update_channels (pwm : stm32_pwm_dev_t) (update_all : Bool) :
    Rc × stm32_pwm_dev_t :=
  let st := stm32_pwm_update_channels_loop pwm update_all
  if 0 = st.enabled then
    (Rc.ok, LL_TIM_DisableCounter st.pwm)
  else
    if st.enabled = st.configured then
      (Rc.ok, LL_TIM_EnableCounter (LL_TIM_GenerateEvent_UPDATE (LL_TIM_SetCounter st.pwm 0)))
    else
      (Rc.ok, st.pwm)

/-- The fields of `struct pwm_dev` the driver reads. -/
structure pwm_dev where
  pwm_instance_id : Nat
  pwm_chan_count : Nat
  deriving DecidableEq, Repr

/-- The channel configuration `struct pwm_chan_cfg`; when `interrupts_cfg` is
set the structure is the head of a `struct pwm_dev_interrupt_cfg`, whose
handler fields follow. -/
structure pwm_chan_cfg where
  pin : Nat
  inverted : Bool
  n_cycles : Nat
  interrupts_cfg : Bool
  data : Nat
  cycle_handler : Nat
  seq_end_handler : Nat
  cycle_data : Nat
  seq_end_data : Nat
  deriving DecidableEq, Repr

/-- The stores of `stm32_pwm_configure_channel` into the channel record, after
the pin-mux steps have succeeded. -/
def stm32_pwm_configure_record (ch : stm32_pwm_ch_t) (cfg : pwm_chan_cfg) (af : Nat) :
    stm32_pwm_ch_t :=
  let c1 := ch.set_pin cfg.pin
  let c2 := c1.set_af af
  let c3 := c2.set_invert (if cfg.inverted then 1 else 0)
  let c4 := c3.set_update c3.enabled
  let c5 := c4.set_configure 1
  let c6 := { c5 with cycle_count := cfg.n_cycles % 2 ^ 32, cycle := cfg.n_cycles % 2 ^ 32 }
  if cfg.interrupts_cfg then
    { c6 with cycle_callback := cfg.cycle_handler, cycle_data := cfg.cycle_data,
              sequence_callback := cfg.seq_end_handler, sequence_data := cfg.seq_end_data }
  else
    { c6 with cycle_callback := 0, cycle_data := 0, sequence_callback := 0, sequence_data := 0 }

def stm32_pwm_configure_channel (hal : Hal) (dev : pwm_dev) (pwm : stm32_pwm_dev_t)
    (cnum : Nat) (cfg : pwm_chan_cfg) : Rc × stm32_pwm_dev_t :=
  if cnum ≥ dev.pwm_chan_count then
    (Rc.chan, pwm)
  else
    let ch := pwm.ch cnum
    let af := (cfg.data % 256) &&& 0x0F
    let store := fun (p : stm32_pwm_dev_t) =>
      stm32_pwm_update_channels (p.setCh cnum (stm32_pwm_configure_record (p.ch cnum) cfg af)) false
    if cfg.pin ≠ ch.pin ∨ af ≠ ch.af then
      let r1 := if stm32_pwm_has_assigned_pin ch then hal_gpio_init_af hal ch.pin 0 pwm else (0, pwm)
      if r1.1 ≠ 0 then
        (Rc.pinmux, r1.2)
      else
        if STM32_PWM_CH_NOPIN ≠ cfg.pin ∧ STM32_PWM_CH_NOAF ≠ af then
          let r2 := hal_gpio_init_af hal cfg.pin af r1.2
          if r2.1 ≠ 0 then
            (Rc.pinmux, r2.2)
          else
            store r2.2
        else
          store r1.2
    else
      store pwm

def stm32_pwm_enable_duty_cycle (dev : pwm_dev) (pwm : stm32_pwm_dev_t)
    (cnum : Nat) (fraction : Nat) : Rc × stm32_pwm_dev_t :=
  if cnum ≥ dev.pwm_chan_count then
    (Rc.chan, pwm)
  else
    let p1 := pwm.setCh cnum ((pwm.ch cnum).set_duty fraction)
    let p2 := p1.setCh cnum ((p1.ch cnum).set_update 1)
    let p3 := p2.setCh cnum ((p2.ch cnum).set_enabled 1)
    stm32_pwm_update_channels p3 false

def stm32_pwm_disable (hal : Hal) (dev : pwm_dev) (pwm : stm32_pwm_dev_t) (cnum : Nat) :
    Rc × stm32_pwm_dev_t :=
  if cnum ≥ dev.pwm_chan_count then
    (Rc.chan, pwm)
  else
    stm32_pwm_disable_ch hal pwm cnum

/-- The divisor pair `(div1, div2)` that `stm32_pwm_set_frequency` hands to
`LL_TIM_SetPrescaler` and `LL_TIM_SetAutoReload`, for a non-zero quotient
`div = timer_clock / freq_hz`; the arithmetic is `uint32_t`. -/
def stm32_pwm_divisors (div : Nat) : Nat × Nat :=
  let div1 := div >>> 16
  let div2 := div / (div1 + 1)
  let p := if div1 > div2 then (div2, div1) else (div1, div2)
  (p.1, (p.2 + 2 ^ 32 - 1) % 2 ^ 32)

/-- The function `stm32_pwm_set_frequency`; `timer_clock` is the value returned by
`stm32_hal_timer_get_freq` (asserted non-zero by the code). -/
def stm32_pwm_set_frequency (timer_clock : Nat) (pwm : stm32_pwm_dev_t) (freq_hz : Nat) :
    Rc × stm32_pwm_dev_t :=
  if freq_hz = 0 then
    (Rc.freq, pwm)
  else
    let div := timer_clock / freq_hz
    if div = 0 then
      (Rc.freq, pwm)
    else
      let d := stm32_pwm_divisors div
      let p1 := LL_TIM_SetPrescaler pwm d.1
      let p2 := LL_TIM_SetAutoReload p1 d.2
      stm32_pwm_update_channels p2 true

/-- Conversion of a `uint32_t` value to `int` (two's complement). -/
def toInt32 (x : Nat) : Int :=
  if x % 2 ^ 32 < 2 ^ 31 then ((x % 2 ^ 32 : Nat) : Int) else ((x % 2 ^ 32 : Nat) : Int) - 2 ^ 32

def stm32_pwm_get_clock_freq (timer_clock : Nat) (pwm : stm32_pwm_dev_t) : Int :=
  toInt32 (timer_clock / ((LL_TIM_GetPrescaler pwm + 1) % 2 ^ 32))

def stm32_pwm_get_top_value (pwm : stm32_pwm_dev_t) : Int :=
  toInt32 ((LL_TIM_GetAutoReload pwm + 1) % 2 ^ 32)

/-- The scan of `stm32_pwm_get_resolution_bits`, entered with loop variable
`bit`: the loop runs while `bit` is non-zero, then `period ? 1 : 0`. -/
def stm32_pwm_resolution_scan (period : Nat) : Nat → Int
  | 0 => if period ≠ 0 then 1 else 0
  | bit + 1 =>
    if period &&& (0x01 <<< (bit + 1)) ≠ 0 then ((bit + 1 + 1 : Nat) : Int)
    else stm32_pwm_resolution_scan period bit

def stm32_pwm_get_resolution_bits (pwm : stm32_pwm_dev_t) : Int :=
  let period := ((stm32_pwm_get_top_value pwm - 1) % 2 ^ 32).toNat
  stm32_pwm_resolution_scan period 15

/-- The part of `stm32_pwm_dev_init` that touches the device state: prescaler
and reload are preset and every channel slot is set to the disabled word. -/
def stm32_pwm_dev_init (pwm : stm32_pwm_dev_t) : stm32_pwm_dev_t :=
  let p1 := LL_TIM_SetPrescaler pwm 0xffff
  let p2 := LL_TIM_SetAutoReload p1 0
  (List.range STM32_PWM_CH_MAX).foldl
    (fun st i => st.setCh i ((st.ch i).set_config STM32_PWM_CH_DISABLED)) p2

/-- The static storage before initialisation: zeroed channel array, timer in
its stopped state, nothing called yet. -/
def stm32_pwm_dev_zero : stm32_pwm_dev_t :=
  { timx := { CR1_CEN := false, SR := 0, CNT := 0, PSC := 0, ARR := 0, CCER := 0,
              CCR1 := 0, CCR2 := 0, CCR3 := 0, CCR4 := 0 },
    ch := fun _ => { config := 0, cycle_count := 0, cycle := 0, cycle_callback := 0,
                     sequence_callback := 0, cycle_data := 0, sequence_data := 0 },
    trace := [] }

/-- A freshly initialised device. -/
def stm32_pwm_dev_fresh : stm32_pwm_dev_t := stm32_pwm_dev_init stm32_pwm_dev_zero

/-- Number of invocations of the sequence callback of slot `j` in a trace. -/
def seq_calls (j : Nat) (t : List Ev) : Nat :=
  t.countP (fun e => match e with
    | Ev.sequence_callback k _ _ => decide (k = j)
    | _ => false)

/-- Number of invocations of the per-cycle callback of slot `j` in a trace. -/
def cycle_calls (j : Nat) (t : List Ev) : Nat :=
  t.countP (fun e => match e with
    | Ev.cycle_callback k _ _ => decide (k = j)
    | _ => false)

/-- The compare register of slot `i`. -/
def compare_reg (t : TIM_TypeDef) (i : Nat) : Nat :=
  match i with
  | 0 => t.CCR1
  | 1 => t.CCR2
  | 2 => t.CCR3
  | 3 => t.CCR4
  | _ => 0

/-- A call that belongs to the reset-and-start branch of the commit step. -/
def is_restart_call : Ev → Bool
  | Ev.SetCounter _ => true
  | Ev.GenerateEvent_UPDATE => true
  | Ev.EnableCounter => true
  | _ => false

/-- Number of reset-and-start calls (`LL_TIM_SetCounter`,
`LL_TIM_GenerateEvent_UPDATE`, `LL_TIM_EnableCounter`) in a trace. -/
def restart_calls (t : List Ev) : Nat := t.countP is_restart_call

/-- The test of the commit loop under which slot contents `c` are counted in
`enabled`. -/
def counts_enabled (c : stm32_pwm_ch_t) : Bool :=
  decide (STM32_PWM_CH_DISABLED ≠ c.config)

/-- The tests of the commit loop under which slot contents `c` go through the
configure branch and are counted in `configured`. -/
def counts_configured (update_all : Bool) (c : stm32_pwm_ch_t) : Bool :=
  decide (STM32_PWM_CH_DISABLED ≠ c.config) &&
    (decide (c.enabled ≠ 0) && (update_all || decide (c.update ≠ 0)) && decide (c.configure ≠ 0))

/-! ## The effect of the operations on one channel record -/

/-- What the commit loop does to the contents `c` of a slot: the stores of
`stm32_pwm_update_channels_ch` into the record. -/
def commit_record (update_all : Bool) (c : stm32_pwm_ch_t) : stm32_pwm_ch_t :=
  if STM32_PWM_CH_DISABLED ≠ c.config ∧ c.enabled ≠ 0 ∧ (update_all = true ∨ c.update ≠ 0) then
    if c.configure ≠ 0 then (c.set_configure 0).set_update 0 else c.set_update 0
  else
    c

/-- The three stores of `stm32_pwm_enable_duty_cycle` into the record. -/
def enable_record (c : stm32_pwm_ch_t) (fraction : Nat) : stm32_pwm_ch_t :=
  ((c.set_duty fraction).set_update 1).set_enabled 1

/-- What the loop body of the handler does to the contents `c` of its slot;
`released` tells whether `stm32_pwm_disable_ch` got past the pin release (no pin
assigned, or the pin-mux call succeeded). -/
def isr_record (c : stm32_pwm_ch_t) (released : Bool) : stm32_pwm_ch_t :=
  if c.enabled ≠ 0 then
    if 1 = c.cycle then
      if c.sequence_callback ≠ 0 then
        { c with cycle := c.cycle_count }
      else
        if released then
          ({ c with cycle := c.cycle_count } : stm32_pwm_ch_t).set_config STM32_PWM_CH_DISABLED
        else
          { c with cycle := c.cycle_count }
    else
      if c.cycle ≠ 0 then { c with cycle := c.cycle - 1 } else c
  else
    c

/-! ## Reachable states -/

/-- A zeroed channel record, as in static storage before initialisation. -/
def stm32_pwm_ch_zero : stm32_pwm_ch_t :=
  { config := 0, cycle_count := 0, cycle := 0, cycle_callback := 0,
    sequence_callback := 0, cycle_data := 0, sequence_data := 0 }

/-- One step of a device: one of the public calls, one run of the interrupt
handler body for the device, or the hardware raising the update flag.  The
predicate `P` restricts the configurations handed to
`stm32_pwm_configure_channel`; `timer_clock` is asserted non-zero by the code. -/
inductive Step (dev : pwm_dev) (P : pwm_chan_cfg → Prop) :
    stm32_pwm_dev_t → stm32_pwm_dev_t → Prop
  | configure (hal : Hal) (s : stm32_pwm_dev_t) (cnum : Nat) (cfg : pwm_chan_cfg) :
      P cfg → Step dev P s (stm32_pwm_configure_channel hal dev s cnum cfg).2
  | enable (s : stm32_pwm_dev_t) (cnum fraction : Nat) :
      Step dev P s (stm32_pwm_enable_duty_cycle dev s cnum fraction).2
  | disable (hal : Hal) (s : stm32_pwm_dev_t) (cnum : Nat) :
      Step dev P s (stm32_pwm_disable hal dev s cnum).2
  | set_frequency (timer_clock : Nat) (s : stm32_pwm_dev_t) (freq_hz : Nat) :
      0 < timer_clock → Step dev P s (stm32_pwm_set_frequency timer_clock s freq_hz).2
  | isr (hal : Hal) (s : stm32_pwm_dev_t) :
      Step dev P s (stm32_pwm_isr_dev hal s)
  | update_flag (s : stm32_pwm_dev_t) :
      Step dev P s (raise_UIF s)

/-- The states a device goes through: `stm32_pwm_dev_init` on zeroed static
storage with the counter stopped, followed by any number of steps. -/
inductive Reachable (dev : pwm_dev) (P : pwm_chan_cfg → Prop) : stm32_pwm_dev_t → Prop
  | init (z : stm32_pwm_dev_t) :
      (∀ i, z.ch i = stm32_pwm_ch_zero) → z.timx.CR1_CEN = false →
      Reachable dev P (stm32_pwm_dev_init z)
  | step (s s1 : stm32_pwm_dev_t) :
      Reachable dev P s → Step dev P s s1 → Reachable dev P s1

/-- No restriction on the configurations. -/
def any_cfg : pwm_chan_cfg → Prop := fun _ => True

/-- The pin and alternate-function fields of a record are both the sentinel
or both assigned. -/
def pin_af_consistent (c : stm32_pwm_ch_t) : Prop :=
  c.pin = STM32_PWM_CH_NOPIN ↔ c.af = STM32_PWM_CH_NOAF

/-- A configuration whose pin is a `uint8_t` and whose pin and alternate
function are both the sentinel or both assigned. -/
def cfg_consistent (cfg : pwm_chan_cfg) : Prop :=
  cfg.pin < 256 ∧ (cfg.pin = STM32_PWM_CH_NOPIN ↔ (cfg.data % 256) &&& 0x0F = STM32_PWM_CH_NOAF)

/-! ## Concrete inputs used to exercise the statements -/

/-- A pin-mux environment in which every call succeeds. -/
def hal_ok : Hal := fun _ _ _ => 0

/-- A pin-mux environment in which every call fails. -/
def hal_fail : Hal := fun _ _ _ => 1

/-- A four-channel device (`TIM1`). -/
def dev4 : pwm_dev := { pwm_instance_id := 0, pwm_chan_count := 4 }

/-- Pin 5 on alternate function 2, three-pulse sequence, no callbacks. -/
def demo_cfg : pwm_chan_cfg :=
  { pin := 5, inverted := false, n_cycles := 3, interrupts_cfg := false, data := 2,
    cycle_handler := 0, seq_end_handler := 0, cycle_data := 0, seq_end_data := 0 }

/-- Channel 0 configured with `demo_cfg` on a fresh device. -/
def demo_configured : stm32_pwm_dev_t :=
  (stm32_pwm_configure_channel hal_ok dev4 stm32_pwm_dev_fresh 0 demo_cfg).2

/-- Channel 0 configured with `demo_cfg` and then enabled. -/
def demo_running : stm32_pwm_dev_t :=
  (stm32_pwm_enable_duty_cycle dev4 demo_configured 0 32768).2

/-- Pin 5 on alternate function 2, three-pulse sequence, with a per-cycle and
a sequence callback. -/
def demo_cfg_cb : pwm_chan_cfg :=
  { pin := 5, inverted := false, n_cycles := 3, interrupts_cfg := true, data := 2,
    cycle_handler := 0x08001000, seq_end_handler := 0x08002000,
    cycle_data := 0x20000010, seq_end_data := 0x20000020 }

/-- Channel 0 configured with `demo_cfg_cb` on a fresh device and then enabled. -/
def demo_running_cb : stm32_pwm_dev_t :=
  (stm32_pwm_enable_duty_cycle dev4
    (stm32_pwm_configure_channel hal_ok dev4 stm32_pwm_dev_fresh 0 demo_cfg_cb).2 0 32768).2

/-- Pin 5 with the no-alternate-function value `0x0F`, no callbacks, unbounded. -/
def demo_cfg_mixed : pwm_chan_cfg :=
  { pin := 5, inverted := false, n_cycles := 0, interrupts_cfg := false, data := 0x0F,
    cycle_handler := 0, seq_end_handler := 0, cycle_data := 0, seq_end_data := 0 }

/-- Pin 5 on alternate function 2, unbounded sequence, with a per-cycle callback. -/
def demo_cfg_unbounded : pwm_chan_cfg :=
  { pin := 5, inverted := false, n_cycles := 0, interrupts_cfg := true, data := 2,
    cycle_handler := 0x08001000, seq_end_handler := 0,
    cycle_data := 0x20000010, seq_end_data := 0 }

/-- Channel 0 configured with `demo_cfg_unbounded` on a fresh device and then
enabled. -/
def demo_running_unbounded : stm32_pwm_dev_t :=
  (stm32_pwm_enable_duty_cycle dev4
    (stm32_pwm_configure_channel hal_ok dev4 stm32_pwm_dev_fresh 0 demo_cfg_unbounded).2
    0 32768).2

/-! ## Frequency divisor computation -/

theorem range_ch_max : List.range STM32_PWM_CH_MAX = [0, 1, 2, 3] := by decide

theorem set_compare_PSC_ARR (s : stm32_pwm_dev_t) (i v : Nat) :
    (stm32_pwm_ch_set_compare s i v).timx.PSC = s.timx.PSC ∧
    (stm32_pwm_ch_set_compare s i v).timx.ARR = s.timx.ARR := by
  unfold stm32_pwm_ch_set_compare
  split <;> exact ⟨rfl, rfl⟩

theorem update_channels_ch_PSC_ARR (ua : Bool) (i : Nat) (st : UpdateLoop) :
    (stm32_pwm_update_channels_ch ua i st).pwm.timx.PSC = st.pwm.timx.PSC ∧
    (stm32_pwm_update_channels_ch ua i st).pwm.timx.ARR = st.pwm.timx.ARR := by
  unfold stm32_pwm_update_channels_ch
  split_ifs
  · simp only [stm32_pwm_dev_t.setCh, LL_TIM_CC_EnableChannel, stm32_pwm_dev_t.emit]
    exact set_compare_PSC_ARR _ _ _
  · simp only [stm32_pwm_dev_t.setCh]
    exact set_compare_PSC_ARR _ _ _
  · exact ⟨rfl, rfl⟩
  · exact ⟨rfl, rfl⟩

theorem update_channels_PSC_ARR (pwm : stm32_pwm_dev_t) (ua : Bool) :
    (stm32_pwm_update_channels pwm ua).2.timx.PSC = pwm.timx.PSC ∧
    (stm32_pwm_update_channels pwm ua).2.timx.ARR = pwm.timx.ARR := by
  have h : (stm32_pwm_update_channels_loop pwm ua).pwm.timx.PSC = pwm.timx.PSC ∧
      (stm32_pwm_update_channels_loop pwm ua).pwm.timx.ARR = pwm.timx.ARR := by
    unfold stm32_pwm_update_channels_loop
    rw [range_ch_max]
    simp only [List.foldl]
    constructor
    · rw [(update_channels_ch_PSC_ARR _ _ _).1, (update_channels_ch_PSC_ARR _ _ _).1,
        (update_channels_ch_PSC_ARR _ _ _).1, (update_channels_ch_PSC_ARR _ _ _).1]
    · rw [(update_channels_ch_PSC_ARR _ _ _).2, (update_channels_ch_PSC_ARR _ _ _).2,
        (update_channels_ch_PSC_ARR _ _ _).2, (update_channels_ch_PSC_ARR _ _ _).2]
  unfold stm32_pwm_update_channels
  simp only []
  split_ifs
  · exact h
  · exact h
  · exact h

theorem update_channels_rc (pwm : stm32_pwm_dev_t) (ua : Bool) :
    (stm32_pwm_update_channels pwm ua).1 = Rc.ok := by
  unfold stm32_pwm_update_channels
  simp only []
  split_ifs <;> rfl

/-- The swap is never taken on a 32-bit quotient. -/
theorem divisors_no_swap (div : Nat) (h32 : div < 2 ^ 32) :
    div / 65536 ≤ div / (div / 65536 + 1) := by
  have hd : div / 65536 < 65536 := by omega
  have h1 : div / 65536 * 65536 ≤ div := Nat.div_mul_le_self div 65536
  have h2 : div / 65536 * (div / 65536 + 1) ≤ div / 65536 * 65536 :=
    Nat.mul_le_mul_left _ (by omega)
  exact (Nat.le_div_iff_mul_le (by omega)).2 (le_trans h2 h1)

theorem divisors_eq (div : Nat) (h1 : 1 ≤ div) (h32 : div < 2 ^ 32) :
    stm32_pwm_divisors div = (div / 65536, div / (div / 65536 + 1) - 1) := by
  have hns := divisors_no_swap div h32
  have hd : div / 65536 < 65536 := by omega
  have hpos : 1 ≤ div / (div / 65536 + 1) := by
    exact (Nat.le_div_iff_mul_le (by omega)).2 (by omega)
  have hlt : div / (div / 65536 + 1) ≤ div := Nat.div_le_self _ _
  unfold stm32_pwm_divisors
  simp only [Nat.shiftRight_eq_div_pow]
  norm_num
  rw [if_neg (by omega)]
  simp only [Prod.mk.injEq, true_and]
  omega

/-- The registers after a successful `stm32_pwm_set_frequency` on a 32-bit clock. -/
theorem set_frequency_regs (clock freq : Nat) (pwm : stm32_pwm_dev_t)
    (h32 : clock < 2 ^ 32) (h1 : 1 ≤ freq) (h2 : freq ≤ clock) :
    (stm32_pwm_set_frequency clock pwm freq).1 = Rc.ok ∧
    (stm32_pwm_set_frequency clock pwm freq).2.timx.PSC = clock / freq / 65536 ∧
    (stm32_pwm_set_frequency clock pwm freq).2.timx.ARR =
      clock / freq / (clock / freq / 65536 + 1) - 1 := by
  have hdiv1 : 1 ≤ clock / freq := (Nat.le_div_iff_mul_le (by omega)).2 (by omega)
  have hdiv32 : clock / freq < 2 ^ 32 := lt_of_le_of_lt (Nat.div_le_self _ _) h32
  unfold stm32_pwm_set_frequency
  rw [if_neg (by omega)]
  simp only []
  rw [if_neg (by omega), divisors_eq _ hdiv1 hdiv32]
  refine ⟨update_channels_rc _ _, ?_, ?_⟩
  · rw [(update_channels_PSC_ARR _ _).1]
    rfl
  · rw [(update_channels_PSC_ARR _ _).2]
    rfl

/-- C2: for a 32-bit timer clock and a requested frequency between 1 and the
clock, `stm32_pwm_set_frequency` succeeds and the prescaler and reload values
it leaves in the timer are both at most 65535. -/
theorem C2_prescale_reload_fit_16_bits (clock freq : Nat) (pwm : stm32_pwm_dev_t)
    (h32 : clock < 2 ^ 32) (h1 : 1 ≤ freq) (h2 : freq ≤ clock) :
    (stm32_pwm_set_frequency clock pwm freq).1 = Rc.ok ∧
    (stm32_pwm_set_frequency clock pwm freq).2.timx.PSC ≤ 65535 ∧
    (stm32_pwm_set_frequency clock pwm freq).2.timx.ARR ≤ 65535 := by
  obtain ⟨hrc, hp, ha⟩ := set_frequency_regs clock freq pwm h32 h1 h2
  have hdiv32 : clock / freq < 2 ^ 32 := lt_of_le_of_lt (Nat.div_le_self _ _) h32
  have hd : clock / freq / 65536 < 65536 := by omega
  have hq : clock / freq / (clock / freq / 65536 + 1) < 65536 + 1 := by
    apply (Nat.div_lt_iff_lt_mul (by omega)).2
    have hm := Nat.div_add_mod (clock / freq) 65536
    have hr := Nat.mod_lt (clock / freq) (by norm_num : 0 < 65536)
    nlinarith
  refine ⟨hrc, ?_, ?_⟩
  · omega
  · omega

theorem C2_witness :
    (72000000 < 2 ^ 32 ∧ 1 ≤ 1000 ∧ 1000 ≤ 72000000) ∧
    ((stm32_pwm_set_frequency 72000000 stm32_pwm_dev_fresh 1000).1 = Rc.ok ∧
     (stm32_pwm_set_frequency 72000000 stm32_pwm_dev_fresh 1000).2.timx.PSC ≤ 65535 ∧
     (stm32_pwm_set_frequency 72000000 stm32_pwm_dev_fresh 1000).2.timx.ARR ≤ 65535) :=
  ⟨by decide, C2_prescale_reload_fit_16_bits 72000000 1000 stm32_pwm_dev_fresh
    (by decide) (by decide) (by decide)⟩

/-- C3 fails as stated: with a timer clock of 4294967295 Hz and a requested
frequency of 1 Hz, `stm32_pwm_set_frequency` leaves prescaler 65535 and reload
65534 in the timer, so the prescaler exceeds the reload value. -/
theorem C3_counterexample :
    (4294967295 < 2 ^ 32 ∧ 1 ≤ 1 ∧ 1 ≤ 4294967295) ∧
    (stm32_pwm_set_frequency 4294967295 stm32_pwm_dev_fresh 1).2.timx.PSC = 65535 ∧
    (stm32_pwm_set_frequency 4294967295 stm32_pwm_dev_fresh 1).2.timx.ARR = 65534 ∧
    ¬ ((stm32_pwm_set_frequency 4294967295 stm32_pwm_dev_fresh 1).2.timx.PSC ≤
       (stm32_pwm_set_frequency 4294967295 stm32_pwm_dev_fresh 1).2.timx.ARR) := by
  obtain ⟨_, hp, ha⟩ := set_frequency_regs 4294967295 1 stm32_pwm_dev_fresh
    (by decide) (by decide) (by decide)
  rw [hp, ha]
  decide

/-- C3, amended: for a 32-bit timer clock and a requested frequency between 1
and the clock, the prescaler left in the timer is at most the reload value plus
one, and it is at most the reload value whenever the quotient
`clock / freq` is below 4294836224 (65534 * 65536). -/
theorem C3_prescale_le_reload_succ (clock freq : Nat) (pwm : stm32_pwm_dev_t)
    (h32 : clock < 2 ^ 32) (h1 : 1 ≤ freq) (h2 : freq ≤ clock) :
    (stm32_pwm_set_frequency clock pwm freq).2.timx.PSC ≤
      (stm32_pwm_set_frequency clock pwm freq).2.timx.ARR + 1 ∧
    (clock / freq < 4294836224 →
      (stm32_pwm_set_frequency clock pwm freq).2.timx.PSC ≤
        (stm32_pwm_set_frequency clock pwm freq).2.timx.ARR) := by
  obtain ⟨_, hp, ha⟩ := set_frequency_regs clock freq pwm h32 h1 h2
  have hdiv1 : 1 ≤ clock / freq := (Nat.le_div_iff_mul_le (by omega)).2 (by omega)
  have hdiv32 : clock / freq < 2 ^ 32 := lt_of_le_of_lt (Nat.div_le_self _ _) h32
  have hns := divisors_no_swap (clock / freq) hdiv32
  rw [hp, ha]
  refine ⟨by omega, fun hlt => ?_⟩
  have hd : clock / freq / 65536 ≤ 65533 := by omega
  have hq : clock / freq / 65536 + 1 ≤ clock / freq / (clock / freq / 65536 + 1) := by
    apply (Nat.le_div_iff_mul_le (by omega)).2
    have hm := Nat.div_add_mod (clock / freq) 65536
    rcases Nat.eq_zero_or_pos (clock / freq / 65536) with h0 | hpos
    · rw [h0]
      omega
    · have hsq : clock / freq / 65536 * (clock / freq / 65536) ≤ clock / freq / 65536 * 65533 :=
        Nat.mul_le_mul_left _ hd
      have hexp : (clock / freq / 65536 + 1) * (clock / freq / 65536 + 1) =
          clock / freq / 65536 * (clock / freq / 65536) + 2 * (clock / freq / 65536) + 1 := by
        ring
      omega
  omega

theorem C3_witness :
    (72000000 < 2 ^ 32 ∧ 1 ≤ 1000 ∧ 1000 ≤ 72000000) ∧
    ((stm32_pwm_set_frequency 72000000 stm32_pwm_dev_fresh 1000).2.timx.PSC ≤
      (stm32_pwm_set_frequency 72000000 stm32_pwm_dev_fresh 1000).2.timx.ARR + 1 ∧
    (72000000 / 1000 < 4294836224 →
      (stm32_pwm_set_frequency 72000000 stm32_pwm_dev_fresh 1000).2.timx.PSC ≤
        (stm32_pwm_set_frequency 72000000 stm32_pwm_dev_fresh 1000).2.timx.ARR)) :=
  ⟨by decide, C3_prescale_le_reload_succ 72000000 1000 stm32_pwm_dev_fresh
    (by decide) (by decide) (by decide)⟩

/-- C4: `stm32_pwm_set_frequency` returns the Frequency error exactly when the
requested frequency is zero or above the timer clock; when it does, the whole
device state (prescaler, reload value, every channel record) is unchanged; in
every other case it returns OK. -/
theorem C4_set_frequency_error_iff (clock freq : Nat) (pwm : stm32_pwm_dev_t) :
    ((stm32_pwm_set_frequency clock pwm freq).1 = Rc.freq ↔ (freq = 0 ∨ freq > clock)) ∧
    ((stm32_pwm_set_frequency clock pwm freq).1 = Rc.freq →
      (stm32_pwm_set_frequency clock pwm freq).2 = pwm) ∧
    ((stm32_pwm_set_frequency clock pwm freq).1 ≠ Rc.freq →
      (stm32_pwm_set_frequency clock pwm freq).1 = Rc.ok) := by
  unfold stm32_pwm_set_frequency
  by_cases hf : freq = 0
  · simp [hf]
  · rw [if_neg hf]
    by_cases hd : clock / freq = 0
    · have hlt : clock < freq := (Nat.div_eq_zero_iff (Nat.pos_of_ne_zero hf)).1 hd
      simp [hd, hf, hlt]
    · have hge : ¬ clock < freq := fun h => hd (Nat.div_eq_of_lt h)
      simp only [hd, if_false, update_channels_rc]
      simp [hf, hge]

/-- C5: for a 32-bit timer clock and a requested frequency between 1 and the
clock, the programmed pair approximates the request within integer-division
rounding: `freq * (PSC+1) * (ARR+1) ≤ clock` and
`clock / freq - (PSC+1) * (ARR+1) ≤ PSC`; and for a 72 MHz clock and a request of
1000 Hz the prescaler is 1, the reload value 35999, the period 36000 ticks and
the output frequency exactly 1000 Hz. -/
theorem C5_divisor_approximation (clock freq : Nat) (pwm : stm32_pwm_dev_t)
    (h32 : clock < 2 ^ 32) (h1 : 1 ≤ freq) (h2 : freq ≤ clock) :
    (freq * ((stm32_pwm_set_frequency clock pwm freq).2.timx.PSC + 1) *
        ((stm32_pwm_set_frequency clock pwm freq).2.timx.ARR + 1) ≤ clock ∧
      clock / freq - ((stm32_pwm_set_frequency clock pwm freq).2.timx.PSC + 1) *
        ((stm32_pwm_set_frequency clock pwm freq).2.timx.ARR + 1) ≤
        (stm32_pwm_set_frequency clock pwm freq).2.timx.PSC) ∧
    ((stm32_pwm_set_frequency 72000000 pwm 1000).2.timx.PSC = 1 ∧
      (stm32_pwm_set_frequency 72000000 pwm 1000).2.timx.ARR = 35999 ∧
      stm32_pwm_get_top_value (stm32_pwm_set_frequency 72000000 pwm 1000).2 = 36000 ∧
      stm32_pwm_get_clock_freq 72000000 (stm32_pwm_set_frequency 72000000 pwm 1000).2 =
        1000 * stm32_pwm_get_top_value (stm32_pwm_set_frequency 72000000 pwm 1000).2) := by
  constructor
  · obtain ⟨_, hp, ha⟩ := set_frequency_regs clock freq pwm h32 h1 h2
    have hdiv1 : 1 ≤ clock / freq := (Nat.le_div_iff_mul_le (by omega)).2 (by omega)
    have hq1 : 1 ≤ clock / freq / (clock / freq / 65536 + 1) :=
      (Nat.le_div_iff_mul_le (by omega)).2 (by omega)
    have hR : clock / freq / (clock / freq / 65536 + 1) - 1 + 1 =
        clock / freq / (clock / freq / 65536 + 1) := by omega
    rw [hp, ha, hR]
    have hm := Nat.div_add_mod (clock / freq) (clock / freq / 65536 + 1)
    have hr := Nat.mod_lt (clock / freq) (by omega : 0 < clock / freq / 65536 + 1)
    have hc := Nat.mul_div_le clock freq
    constructor
    · calc freq * (clock / freq / 65536 + 1) * (clock / freq / (clock / freq / 65536 + 1))
          = freq * ((clock / freq / 65536 + 1) * (clock / freq / (clock / freq / 65536 + 1))) := by
            ring
        _ ≤ freq * (clock / freq) := Nat.mul_le_mul_left _ (by omega)
        _ ≤ clock := hc
    · omega
  · obtain ⟨_, hp, ha⟩ := set_frequency_regs 72000000 1000 pwm (by decide) (by decide) (by decide)
    have hp1 : (stm32_pwm_set_frequency 72000000 pwm 1000).2.timx.PSC = 1 := by
      rw [hp]
    have ha1 : (stm32_pwm_set_frequency 72000000 pwm 1000).2.timx.ARR = 35999 := by
      rw [ha]
    refine ⟨hp1, ha1, ?_, ?_⟩
    · unfold stm32_pwm_get_top_value LL_TIM_GetAutoReload
      rw [ha1]
      decide
    · unfold stm32_pwm_get_top_value stm32_pwm_get_clock_freq LL_TIM_GetAutoReload
        LL_TIM_GetPrescaler
      rw [ha1, hp1]
      decide

theorem C5_witness :
    (48000000 < 2 ^ 32 ∧ 1 ≤ 7 ∧ 7 ≤ 48000000) ∧
    ((7 * ((stm32_pwm_set_frequency 48000000 stm32_pwm_dev_fresh 7).2.timx.PSC + 1) *
        ((stm32_pwm_set_frequency 48000000 stm32_pwm_dev_fresh 7).2.timx.ARR + 1) ≤ 48000000 ∧
      48000000 / 7 - ((stm32_pwm_set_frequency 48000000 stm32_pwm_dev_fresh 7).2.timx.PSC + 1) *
        ((stm32_pwm_set_frequency 48000000 stm32_pwm_dev_fresh 7).2.timx.ARR + 1) ≤
        (stm32_pwm_set_frequency 48000000 stm32_pwm_dev_fresh 7).2.timx.PSC) ∧
    ((stm32_pwm_set_frequency 72000000 stm32_pwm_dev_fresh 1000).2.timx.PSC = 1 ∧
      (stm32_pwm_set_frequency 72000000 stm32_pwm_dev_fresh 1000).2.timx.ARR = 35999 ∧
      stm32_pwm_get_top_value (stm32_pwm_set_frequency 72000000 stm32_pwm_dev_fresh 1000).2 = 36000 ∧
      stm32_pwm_get_clock_freq 72000000 (stm32_pwm_set_frequency 72000000 stm32_pwm_dev_fresh 1000).2 =
        1000 * stm32_pwm_get_top_value (stm32_pwm_set_frequency 72000000 stm32_pwm_dev_fresh 1000).2)) :=
  ⟨by decide, C5_divisor_approximation 48000000 7 stm32_pwm_dev_fresh
    (by decide) (by decide) (by decide)⟩


/-! ## Bit-field lemmas -/

open stm32_pwm_ch_t

theorem setBits_eq (w o n v : Nat) :
    setBits w o n v = w / (2 ^ o * 2 ^ n) * (2 ^ o * 2 ^ n) + (v % 2 ^ n) * 2 ^ o + w % 2 ^ o := by
  unfold setBits getBits
  have h1 := Nat.div_add_mod w (2 ^ o)
  have h2 := Nat.div_add_mod (w / 2 ^ o) (2 ^ n)
  rw [Nat.div_div_eq_div_mul] at h2
  have h3 : w = w / (2 ^ o * 2 ^ n) * (2 ^ o * 2 ^ n) + w / 2 ^ o % 2 ^ n * 2 ^ o + w % 2 ^ o := by
    calc w = 2 ^ o * (w / 2 ^ o) + w % 2 ^ o := h1.symm
      _ = 2 ^ o * (2 ^ n * (w / (2 ^ o * 2 ^ n)) + w / 2 ^ o % 2 ^ n) + w % 2 ^ o := by rw [h2]
      _ = _ := by ring
  generalize w / (2 ^ o * 2 ^ n) * (2 ^ o * 2 ^ n) = A at h3 ⊢
  generalize w / 2 ^ o % 2 ^ n * 2 ^ o = F at h3 ⊢
  omega

theorem getBits_setBits_same (w o n v : Nat) :
    getBits (setBits w o n v) o n = v % 2 ^ n := by
  rw [setBits_eq]
  unfold getBits
  have hP : 0 < 2 ^ o := Nat.pow_pos (by decide)
  have hQ : 0 < 2 ^ n := Nat.pow_pos (by decide)
  have hr : w % 2 ^ o < 2 ^ o := Nat.mod_lt _ hP
  have e : w / (2 ^ o * 2 ^ n) * (2 ^ o * 2 ^ n) + v % 2 ^ n * 2 ^ o + w % 2 ^ o =
      w % 2 ^ o + 2 ^ o * (v % 2 ^ n + 2 ^ n * (w / (2 ^ o * 2 ^ n))) := by ring
  rw [e, Nat.add_mul_div_left _ _ hP, Nat.div_eq_of_lt hr, Nat.zero_add, Nat.add_mul_mod_self_left,
    Nat.mod_mod]

theorem getBits_setBits_lo (w o n v o1 n1 : Nat) (h : o1 + n1 ≤ o) :
    getBits (setBits w o n v) o1 n1 = getBits w o1 n1 := by
  have key : ∀ x : Nat, getBits x o1 n1 = getBits (x % 2 ^ o) o1 n1 := by
    intro x
    unfold getBits
    have hd : 2 ^ o1 * 2 ^ n1 ∣ 2 ^ o := by
      rw [← pow_add]
      exact pow_dvd_pow 2 h
    rw [← Nat.mod_mul_right_div_self, ← Nat.mod_mul_right_div_self (x % 2 ^ o),
      Nat.mod_mod_of_dvd _ hd]
  rw [key (setBits w o n v), key w, setBits_eq]
  have e : w / (2 ^ o * 2 ^ n) * (2 ^ o * 2 ^ n) + v % 2 ^ n * 2 ^ o + w % 2 ^ o =
      w % 2 ^ o + 2 ^ o * (v % 2 ^ n + 2 ^ n * (w / (2 ^ o * 2 ^ n))) := by ring
  rw [e, Nat.add_mul_mod_self_left, Nat.mod_mod]

theorem getBits_setBits_hi (w o n v o1 n1 : Nat) (h : o + n ≤ o1) :
    getBits (setBits w o n v) o1 n1 = getBits w o1 n1 := by
  have key : ∀ x : Nat, getBits x o1 n1 = getBits (x / (2 ^ o * 2 ^ n)) (o1 - (o + n)) n1 := by
    intro x
    unfold getBits
    rw [Nat.div_div_eq_div_mul, ← pow_add, ← pow_add]
    congr 3
    omega
  rw [key (setBits w o n v), key w, setBits_eq]
  have hP : 0 < 2 ^ o := Nat.pow_pos (by decide)
  have hQ : 0 < 2 ^ n := Nat.pow_pos (by decide)
  have hr : w % 2 ^ o < 2 ^ o := Nat.mod_lt _ hP
  have hv : v % 2 ^ n < 2 ^ n := Nat.mod_lt _ hQ
  have hlt : v % 2 ^ n * 2 ^ o + w % 2 ^ o < 2 ^ o * 2 ^ n := by
    calc v % 2 ^ n * 2 ^ o + w % 2 ^ o < v % 2 ^ n * 2 ^ o + 2 ^ o := by omega
      _ = (v % 2 ^ n + 1) * 2 ^ o := by ring
      _ ≤ 2 ^ n * 2 ^ o := Nat.mul_le_mul_right _ hv
      _ = 2 ^ o * 2 ^ n := Nat.mul_comm _ _
  have e : w / (2 ^ o * 2 ^ n) * (2 ^ o * 2 ^ n) + v % 2 ^ n * 2 ^ o + w % 2 ^ o =
      (v % 2 ^ n * 2 ^ o + w % 2 ^ o) + 2 ^ o * 2 ^ n * (w / (2 ^ o * 2 ^ n)) := by ring
  rw [e, Nat.add_mul_div_left _ _ (Nat.mul_pos hP hQ), Nat.div_eq_of_lt hlt, Nat.zero_add]

theorem configure_record_fields (ch : stm32_pwm_ch_t) (cfg : pwm_chan_cfg) (a : Nat) :
    (stm32_pwm_configure_record ch cfg a).configure = 1 ∧
    (stm32_pwm_configure_record ch cfg a).enabled = ch.enabled ∧
    (stm32_pwm_configure_record ch cfg a).update = ch.enabled % 2 ∧
    (stm32_pwm_configure_record ch cfg a).duty = ch.duty ∧
    (stm32_pwm_configure_record ch cfg a).pin = cfg.pin % 256 ∧
    (stm32_pwm_configure_record ch cfg a).af = a % 16 := by
  unfold stm32_pwm_configure_record
  split_ifs <;>
    simp [duty, pin, af, invert, enabled, update, configure, set_update, set_pin, set_af,
      set_invert, set_configure, getBits_setBits_same, getBits_setBits_lo, getBits_setBits_hi]

theorem enable_record_fields (c : stm32_pwm_ch_t) (f : Nat) :
    (((c.set_duty f).set_update 1).set_enabled 1).enabled = 1 ∧
    (((c.set_duty f).set_update 1).set_enabled 1).update = 1 ∧
    (((c.set_duty f).set_update 1).set_enabled 1).duty = f % 65536 ∧
    (((c.set_duty f).set_update 1).set_enabled 1).configure = c.configure := by
  simp [duty, enabled, update, configure, set_update, set_duty, set_enabled,
    getBits_setBits_same, getBits_setBits_lo, getBits_setBits_hi]

theorem commit_record_fields (c : stm32_pwm_ch_t) :
    ((c.set_configure 0).set_update 0).duty = c.duty ∧
    ((c.set_configure 0).set_update 0).enabled = c.enabled ∧
    ((c.set_configure 0).set_update 0).update = 0 ∧
    ((c.set_configure 0).set_update 0).configure = 0 ∧
    (c.set_update 0).duty = c.duty ∧
    (c.set_update 0).enabled = c.enabled ∧
    (c.set_update 0).update = 0 ∧
    (c.set_update 0).configure = c.configure := by
  simp [duty, enabled, update, configure, set_update, set_configure,
    getBits_setBits_same, getBits_setBits_lo, getBits_setBits_hi]

theorem configure_ne_disabled (c : stm32_pwm_ch_t) (h : c.configure ≠ 0) :
    c.config ≠ STM32_PWM_CH_DISABLED := by
  intro hc
  apply h
  unfold stm32_pwm_ch_t.configure getBits
  rw [hc]
  decide

theorem disabled_fields (c : stm32_pwm_ch_t) (h : c.config = STM32_PWM_CH_DISABLED) :
    c.enabled = 0 ∧ c.update = 0 ∧ c.configure = 0 ∧ c.invert = 0 ∧
    c.pin = STM32_PWM_CH_NOPIN ∧ c.af = STM32_PWM_CH_NOAF ∧ c.duty = 0xFFFF := by
  unfold enabled update configure invert pin af duty getBits
  rw [h]
  decide


/-! ## Interrupt handler -/

@[simp] theorem emit_ch (s : stm32_pwm_dev_t) (e : Ev) : (s.emit e).ch = s.ch := rfl

@[simp] theorem emit_timx (s : stm32_pwm_dev_t) (e : Ev) : (s.emit e).timx = s.timx := rfl

@[simp] theorem emit_trace (s : stm32_pwm_dev_t) (e : Ev) :
    (s.emit e).trace = s.trace ++ [e] := rfl

@[simp] theorem setCh_timx (s : stm32_pwm_dev_t) (i : Nat) (c : stm32_pwm_ch_t) :
    (s.setCh i c).timx = s.timx := rfl

@[simp] theorem setCh_trace (s : stm32_pwm_dev_t) (i : Nat) (c : stm32_pwm_ch_t) :
    (s.setCh i c).trace = s.trace := rfl

@[simp] theorem setCh_ch_same (s : stm32_pwm_dev_t) (i : Nat) (c : stm32_pwm_ch_t) :
    (s.setCh i c).ch i = c := by
  simp [stm32_pwm_dev_t.setCh]

theorem setCh_ch_other (s : stm32_pwm_dev_t) (i j : Nat) (c : stm32_pwm_ch_t) (h : j ≠ i) :
    (s.setCh i c).ch j = s.ch j := by
  simp [stm32_pwm_dev_t.setCh, h]

@[simp] theorem CC_DisableChannel_ch (s : stm32_pwm_dev_t) (m : Nat) :
    (LL_TIM_CC_DisableChannel s m).ch = s.ch := rfl

@[simp] theorem CC_DisableChannel_trace (s : stm32_pwm_dev_t) (m : Nat) :
    (LL_TIM_CC_DisableChannel s m).trace = s.trace ++ [Ev.CC_DisableChannel m] := rfl

theorem seq_calls_append (j : Nat) (t u : List Ev) :
    seq_calls j (t ++ u) = seq_calls j t + seq_calls j u := by
  unfold seq_calls
  exact List.countP_append _ _ _

theorem enabled_ne_disabled (c : stm32_pwm_ch_t) (h : c.enabled ≠ 0) :
    c.config ≠ STM32_PWM_CH_DISABLED := by
  intro hc
  apply h
  unfold stm32_pwm_ch_t.enabled getBits
  rw [hc]
  decide

theorem disable_ch_other (hal : Hal) (s : stm32_pwm_dev_t) (i j : Nat) (hij : j ≠ i) :
    (stm32_pwm_disable_ch hal s i).2.ch j = s.ch j := by
  unfold stm32_pwm_disable_ch hal_gpio_init_af
  simp only []
  split_ifs <;> simp [setCh_ch_other _ _ _ _ hij]

theorem disable_ch_seq_calls (hal : Hal) (s : stm32_pwm_dev_t) (i j : Nat) :
    seq_calls j (stm32_pwm_disable_ch hal s i).2.trace = seq_calls j s.trace := by
  unfold stm32_pwm_disable_ch hal_gpio_init_af
  simp only []
  split_ifs <;> simp [seq_calls_append] <;> rfl

theorem isr_ch_other (hal : Hal) (s : stm32_pwm_dev_t) (i j : Nat) (hij : j ≠ i) :
    (stm32_pwm_isr_ch hal i s).ch j = s.ch j := by
  unfold stm32_pwm_isr_ch
  simp only []
  split_ifs <;> simp [disable_ch_other _ _ _ _ hij, setCh_ch_other _ _ _ _ hij]

theorem isr_ch_seq_calls_other (hal : Hal) (s : stm32_pwm_dev_t) (i j : Nat) (hij : j ≠ i) :
    seq_calls j (stm32_pwm_isr_ch hal i s).trace = seq_calls j s.trace := by
  unfold stm32_pwm_isr_ch
  simp only []
  split_ifs <;> simp [disable_ch_seq_calls, seq_calls_append] <;> simp [seq_calls, Ne.symm hij]

theorem cycle_calls_append (j : Nat) (t u : List Ev) :
    cycle_calls j (t ++ u) = cycle_calls j t + cycle_calls j u := by
  unfold cycle_calls
  exact List.countP_append _ _ _

theorem disable_ch_cycle_calls (hal : Hal) (s : stm32_pwm_dev_t) (i j : Nat) :
    cycle_calls j (stm32_pwm_disable_ch hal s i).2.trace = cycle_calls j s.trace := by
  unfold stm32_pwm_disable_ch hal_gpio_init_af
  simp only []
  split_ifs <;> simp [cycle_calls_append] <;> rfl

theorem isr_ch_cycle_calls_other (hal : Hal) (s : stm32_pwm_dev_t) (i j : Nat) (hij : j ≠ i) :
    cycle_calls j (stm32_pwm_isr_ch hal i s).trace = cycle_calls j s.trace := by
  unfold stm32_pwm_isr_ch
  simp only []
  split_ifs <;> simp [disable_ch_cycle_calls, cycle_calls_append] <;>
    simp [cycle_calls, Ne.symm hij]

/-- What the channel loop of the handler does to slot `j` is what the loop body
of slot `j` does, entered in a state that agrees with the initial one on slot
`j` and on the callback counts of slot `j`. -/
theorem isr_loop_slot (hal : Hal) (s : stm32_pwm_dev_t) (j : Nat)
    (hj : j < STM32_PWM_CH_MAX) :
    ∃ s1 : stm32_pwm_dev_t, s1.ch j = s.ch j ∧
      seq_calls j s1.trace = seq_calls j s.trace ∧
      cycle_calls j s1.trace = cycle_calls j s.trace ∧
      ((List.range STM32_PWM_CH_MAX).foldl (fun st i => stm32_pwm_isr_ch hal i st) s).ch j =
        (stm32_pwm_isr_ch hal j s1).ch j ∧
      seq_calls j ((List.range STM32_PWM_CH_MAX).foldl
          (fun st i => stm32_pwm_isr_ch hal i st) s).trace =
        seq_calls j (stm32_pwm_isr_ch hal j s1).trace ∧
      cycle_calls j ((List.range STM32_PWM_CH_MAX).foldl
          (fun st i => stm32_pwm_isr_ch hal i st) s).trace =
        cycle_calls j (stm32_pwm_isr_ch hal j s1).trace := by
  rw [range_ch_max]
  simp only [List.foldl]
  unfold STM32_PWM_CH_MAX at hj
  interval_cases j
  · refine ⟨s, rfl, rfl, rfl, ?_, ?_, ?_⟩
    · rw [isr_ch_other _ _ 3 0 (by decide), isr_ch_other _ _ 2 0 (by decide),
        isr_ch_other _ _ 1 0 (by decide)]
    · rw [isr_ch_seq_calls_other _ _ 3 0 (by decide), isr_ch_seq_calls_other _ _ 2 0 (by decide),
        isr_ch_seq_calls_other _ _ 1 0 (by decide)]
    · rw [isr_ch_cycle_calls_other _ _ 3 0 (by decide),
        isr_ch_cycle_calls_other _ _ 2 0 (by decide),
        isr_ch_cycle_calls_other _ _ 1 0 (by decide)]
  · refine ⟨stm32_pwm_isr_ch hal 0 s, ?_, ?_, ?_, ?_, ?_, ?_⟩
    · rw [isr_ch_other _ _ 0 1 (by decide)]
    · rw [isr_ch_seq_calls_other _ _ 0 1 (by decide)]
    · rw [isr_ch_cycle_calls_other _ _ 0 1 (by decide)]
    · rw [isr_ch_other _ _ 3 1 (by decide), isr_ch_other _ _ 2 1 (by decide)]
    · rw [isr_ch_seq_calls_other _ _ 3 1 (by decide), isr_ch_seq_calls_other _ _ 2 1 (by decide)]
    · rw [isr_ch_cycle_calls_other _ _ 3 1 (by decide),
        isr_ch_cycle_calls_other _ _ 2 1 (by decide)]
  · refine ⟨stm32_pwm_isr_ch hal 1 (stm32_pwm_isr_ch hal 0 s), ?_, ?_, ?_, ?_, ?_, ?_⟩
    · rw [isr_ch_other _ _ 1 2 (by decide), isr_ch_other _ _ 0 2 (by decide)]
    · rw [isr_ch_seq_calls_other _ _ 1 2 (by decide), isr_ch_seq_calls_other _ _ 0 2 (by decide)]
    · rw [isr_ch_cycle_calls_other _ _ 1 2 (by decide),
        isr_ch_cycle_calls_other _ _ 0 2 (by decide)]
    · rw [isr_ch_other _ _ 3 2 (by decide)]
    · rw [isr_ch_seq_calls_other _ _ 3 2 (by decide)]
    · rw [isr_ch_cycle_calls_other _ _ 3 2 (by decide)]
  · refine ⟨stm32_pwm_isr_ch hal 2 (stm32_pwm_isr_ch hal 1 (stm32_pwm_isr_ch hal 0 s)),
      ?_, ?_, ?_, rfl, rfl, rfl⟩
    · rw [isr_ch_other _ _ 2 3 (by decide), isr_ch_other _ _ 1 3 (by decide),
        isr_ch_other _ _ 0 3 (by decide)]
    · rw [isr_ch_seq_calls_other _ _ 2 3 (by decide), isr_ch_seq_calls_other _ _ 1 3 (by decide),
        isr_ch_seq_calls_other _ _ 0 3 (by decide)]
    · rw [isr_ch_cycle_calls_other _ _ 2 3 (by decide),
        isr_ch_cycle_calls_other _ _ 1 3 (by decide),
        isr_ch_cycle_calls_other _ _ 0 3 (by decide)]

/-- The handler serves every device of the list with the per-device body. -/
theorem isr_serves_each_device (hal : Hal) (devs : List stm32_pwm_dev_t) (i : Nat) :
    (stm32_pwm_isr hal devs)[i]? = (devs[i]?).map (stm32_pwm_isr_dev hal) := by
  simp [stm32_pwm_isr]

/-- One period-elapsed event seen from slot `j`. -/
theorem period_elapsed_slot (hal : Hal) (s : stm32_pwm_dev_t) (j : Nat)
    (hj : j < STM32_PWM_CH_MAX) :
    ∃ s1 : stm32_pwm_dev_t, s1.ch j = s.ch j ∧
      seq_calls j s1.trace = seq_calls j s.trace ∧
      cycle_calls j s1.trace = cycle_calls j s.trace ∧
      (period_elapsed hal s).ch j = (stm32_pwm_isr_ch hal j s1).ch j ∧
      seq_calls j (period_elapsed hal s).trace = seq_calls j (stm32_pwm_isr_ch hal j s1).trace ∧
      cycle_calls j (period_elapsed hal s).trace =
        cycle_calls j (stm32_pwm_isr_ch hal j s1).trace := by
  have huif : (s.timx.SR ||| TIM_SR_UIF) &&& TIM_SR_UIF ≠ 0 := by
    unfold TIM_SR_UIF
    rw [Nat.and_one_is_mod]
    have h : (s.timx.SR ||| 1) % 2 = 1 := Nat.or_mod_two_eq_one.2 (Or.inr rfl)
    omega
  unfold period_elapsed stm32_pwm_isr_dev raise_UIF
  simp only []
  rw [if_pos huif]
  exact isr_loop_slot hal
    { s with timx := { s.timx with
        SR := (s.timx.SR ||| TIM_SR_UIF) &&& (0xFFFFFFFF ^^^ (s.timx.SR ||| TIM_SR_UIF)) } } j hj

theorem record_cycle_zero (c : stm32_pwm_ch_t) (h0 : c.cycle = 0) :
    ({ c with cycle := c.cycle - 1 } : stm32_pwm_ch_t) = c := by
  cases c
  simp only at h0
  simp [h0]

/-- Loop body on its own slot, countdown branch. -/
theorem isr_ch_countdown (hal : Hal) (s : stm32_pwm_dev_t) (j : Nat)
    (hen : (s.ch j).enabled ≠ 0) (hc : (s.ch j).cycle ≠ 1) :
    (stm32_pwm_isr_ch hal j s).ch j = { s.ch j with cycle := (s.ch j).cycle - 1 } ∧
    seq_calls j (stm32_pwm_isr_ch hal j s).trace = seq_calls j s.trace := by
  have h1 : ((if (s.ch j).cycle ≠ 0 then s.setCh j { s.ch j with cycle := (s.ch j).cycle - 1 }
      else s).ch j = { s.ch j with cycle := (s.ch j).cycle - 1 }) ∧
      (if (s.ch j).cycle ≠ 0 then s.setCh j { s.ch j with cycle := (s.ch j).cycle - 1 }
      else s).trace = s.trace := by
    by_cases h0 : (s.ch j).cycle = 0
    · rw [if_neg (not_not.2 h0)]
      exact ⟨(record_cycle_zero _ h0).symm, rfl⟩
    · rw [if_pos h0]
      exact ⟨setCh_ch_same _ _ _, rfl⟩
  unfold stm32_pwm_isr_ch
  simp only []
  rw [if_pos hen, if_neg (fun h => hc h.symm)]
  by_cases hcb : (s.ch j).cycle_callback = 0
  · rw [if_neg (not_not.2 hcb)]
    exact ⟨h1.1, by rw [h1.2]⟩
  · rw [if_pos hcb]
    refine ⟨by rw [emit_ch]; exact h1.1, ?_⟩
    rw [emit_trace, seq_calls_append, h1.2]
    rfl

/-- Loop body on its own slot, end of sequence with a sequence callback. -/
theorem isr_ch_sequence_end (hal : Hal) (s : stm32_pwm_dev_t) (j : Nat)
    (hen : (s.ch j).enabled ≠ 0) (hc : (s.ch j).cycle = 1)
    (hcb : (s.ch j).sequence_callback ≠ 0) :
    (stm32_pwm_isr_ch hal j s).ch j = { s.ch j with cycle := (s.ch j).cycle_count } ∧
    seq_calls j (stm32_pwm_isr_ch hal j s).trace = seq_calls j s.trace + 1 := by
  unfold stm32_pwm_isr_ch
  simp only []
  rw [if_pos hen, if_pos hc.symm, if_pos hcb]
  simp [seq_calls_append, seq_calls]

/-- Loop body on its own slot, end of sequence without a sequence callback,
when the pin release succeeds or no pin is assigned. -/
theorem isr_ch_auto_disable (hal : Hal) (s : stm32_pwm_dev_t) (j : Nat)
    (hen : (s.ch j).enabled ≠ 0) (hc : (s.ch j).cycle = 1)
    (hcb : (s.ch j).sequence_callback = 0)
    (hpin : stm32_pwm_has_assigned_pin (s.ch j) = true → ∀ t, hal t (s.ch j).pin 0 = 0) :
    ((stm32_pwm_isr_ch hal j s).ch j).config = STM32_PWM_CH_DISABLED := by
  unfold stm32_pwm_isr_ch
  simp only []
  rw [if_pos hen, if_pos hc.symm, if_neg (by simpa using hcb)]
  unfold stm32_pwm_disable_ch hal_gpio_init_af
  simp only [CC_DisableChannel_ch, setCh_ch_same]
  have hp : stm32_pwm_has_assigned_pin { s.ch j with cycle := (s.ch j).cycle_count } =
      stm32_pwm_has_assigned_pin (s.ch j) := rfl
  have hq : ({ s.ch j with cycle := (s.ch j).cycle_count } : stm32_pwm_ch_t).pin =
      (s.ch j).pin := rfl
  rw [hp, hq]
  by_cases hap : stm32_pwm_has_assigned_pin (s.ch j) = true
  · rw [if_pos hap, if_neg (by simp [hpin hap])]
    simp [stm32_pwm_ch_t.set_config, STM32_PWM_CH_DISABLED]
  · rw [if_neg hap]
    simp [stm32_pwm_ch_t.set_config, STM32_PWM_CH_DISABLED]

/-- During the first `k < N` events of a bounded sequence of length `N` the
record of the slot only counts down and the sequence callback is not invoked. -/
theorem bounded_sequence_countdown (hal : Hal) (pwm : stm32_pwm_dev_t) (j N : Nat)
    (hj : j < STM32_PWM_CH_MAX) (hen : (pwm.ch j).enabled ≠ 0)
    (hc : (pwm.ch j).cycle = N) (k : Nat) (hk : k < N) :
    ((period_elapsed hal)^[k] pwm).ch j = { pwm.ch j with cycle := N - k } ∧
    seq_calls j ((period_elapsed hal)^[k] pwm).trace = seq_calls j pwm.trace := by
  induction k with
  | zero =>
    refine ⟨?_, rfl⟩
    simp only [Function.iterate_zero, id_eq, Nat.sub_zero]
    rw [← hc]
  | succ k ih =>
    obtain ⟨ihc, iht⟩ := ih (by omega)
    rw [Function.iterate_succ_apply']
    obtain ⟨s1, h1, h2, _, h4, h5, _⟩ := period_elapsed_slot hal ((period_elapsed hal)^[k] pwm) j hj
    rw [ihc] at h1
    have hen1 : (s1.ch j).enabled ≠ 0 := by
      rw [h1]
      exact hen
    have hc1 : (s1.ch j).cycle ≠ 1 := by
      rw [h1]
      simp only
      omega
    obtain ⟨h6, h7⟩ := isr_ch_countdown hal s1 j hen1 hc1
    refine ⟨?_, ?_⟩
    · rw [h4, h6, h1]
      simp only [stm32_pwm_ch_t.mk.injEq, true_and, and_true]
      omega
    · rw [h5, h7, h2, iht]

/-- C1: for an enabled channel with `cycle_count = cycle = N > 0`, `N`
period-elapsed events (handler run with the update flag pending; callbacks
leave the driver state alone) give: with a sequence callback registered, that
callback has been invoked exactly once, on the `N`-th event and not before,
and the record is enabled with `cycle = N` again (it equals the initial
record); with no sequence callback, provided the pin release succeeds or no pin
is assigned, the configuration word is the disabled word after the `N`-th event
and was not before. -/
theorem C1_bounded_sequence (hal : Hal) (pwm : stm32_pwm_dev_t) (j N : Nat)
    (hj : j < STM32_PWM_CH_MAX) (hen : (pwm.ch j).enabled ≠ 0) (hN : 0 < N)
    (hcc : (pwm.ch j).cycle_count = N) (hc : (pwm.ch j).cycle = N) :
    ((pwm.ch j).sequence_callback ≠ 0 →
        seq_calls j ((period_elapsed hal)^[N] pwm).trace = seq_calls j pwm.trace + 1 ∧
        (∀ k, k < N →
          seq_calls j ((period_elapsed hal)^[k] pwm).trace = seq_calls j pwm.trace) ∧
        (((period_elapsed hal)^[N] pwm).ch j).enabled ≠ 0 ∧
        (((period_elapsed hal)^[N] pwm).ch j).cycle = N ∧
        ((period_elapsed hal)^[N] pwm).ch j = pwm.ch j) ∧
    ((pwm.ch j).sequence_callback = 0 →
        (stm32_pwm_has_assigned_pin (pwm.ch j) = true → ∀ t, hal t (pwm.ch j).pin 0 = 0) →
        (((period_elapsed hal)^[N] pwm).ch j).config = STM32_PWM_CH_DISABLED ∧
        (∀ k, k < N →
          (((period_elapsed hal)^[k] pwm).ch j).config ≠ STM32_PWM_CH_DISABLED)) := by
  obtain ⟨n, rfl⟩ : ∃ n, N = n + 1 := ⟨N - 1, by omega⟩
  obtain ⟨hlast, hcount⟩ := bounded_sequence_countdown hal pwm j (n + 1) hj hen hc n (by omega)
  obtain ⟨s1, h1, h2, _, h4, h5, _⟩ := period_elapsed_slot hal ((period_elapsed hal)^[n] pwm) j hj
  rw [hlast] at h1
  have hone : n + 1 - n = 1 := by omega
  rw [hone] at h1
  have hen1 : (s1.ch j).enabled ≠ 0 := by
    rw [h1]
    exact hen
  have hc1 : (s1.ch j).cycle = 1 := by
    rw [h1]
  constructor
  · intro hcb
    have hcb1 : (s1.ch j).sequence_callback ≠ 0 := by
      rw [h1]
      exact hcb
    obtain ⟨h6, h7⟩ := isr_ch_sequence_end hal s1 j hen1 hc1 hcb1
    have hrec : ((period_elapsed hal)^[n + 1] pwm).ch j = pwm.ch j := by
      have hcyc : (pwm.ch j).cycle_count = (pwm.ch j).cycle := by rw [hcc, hc]
      rw [Function.iterate_succ_apply', h4, h6, h1]
      simp only
      generalize pwm.ch j = c at hcyc
      cases c
      simp only at hcyc
      simp [hcyc]
    refine ⟨?_, fun k hk => (bounded_sequence_countdown hal pwm j (n + 1) hj hen hc k hk).2,
      ?_, ?_, hrec⟩
    · rw [Function.iterate_succ_apply', h5, h7, h2, hcount]
    · rw [hrec]
      exact hen
    · rw [hrec]
      exact hc
  · intro hcb hpin
    have hcb1 : (s1.ch j).sequence_callback = 0 := by
      rw [h1]
      exact hcb
    have hpin1 : stm32_pwm_has_assigned_pin (s1.ch j) = true → ∀ t, hal t (s1.ch j).pin 0 = 0 := by
      rw [h1]
      exact hpin
    refine ⟨?_, fun k hk => ?_⟩
    · rw [Function.iterate_succ_apply', h4]
      exact isr_ch_auto_disable hal s1 j hen1 hc1 hcb1 hpin1
    · rw [(bounded_sequence_countdown hal pwm j (n + 1) hj hen hc k hk).1]
      exact enabled_ne_disabled _ hen

theorem C1_witness :
    (0 < STM32_PWM_CH_MAX ∧ (demo_running.ch 0).enabled ≠ 0 ∧ 0 < 3 ∧
      (demo_running.ch 0).cycle_count = 3 ∧ (demo_running.ch 0).cycle = 3) ∧
    ((demo_running.ch 0).sequence_callback = 0 →
        (stm32_pwm_has_assigned_pin (demo_running.ch 0) = true →
          ∀ t, hal_ok t (demo_running.ch 0).pin 0 = 0) →
        (((period_elapsed hal_ok)^[3] demo_running).ch 0).config = STM32_PWM_CH_DISABLED ∧
        (∀ k, k < 3 →
          (((period_elapsed hal_ok)^[k] demo_running).ch 0).config ≠ STM32_PWM_CH_DISABLED)) :=
  ⟨by decide, (C1_bounded_sequence hal_ok demo_running 0 3 (by decide) (by decide) (by decide)
    (by decide) (by decide)).2⟩

/-! ## Commit step -/

theorem restart_calls_append (t u : List Ev) :
    restart_calls (t ++ u) = restart_calls t + restart_calls u := by
  unfold restart_calls
  exact List.countP_append _ _ _

theorem set_compare_frame (s : stm32_pwm_dev_t) (i v : Nat) :
    (stm32_pwm_ch_set_compare s i v).ch = s.ch ∧
    (stm32_pwm_ch_set_compare s i v).timx.CNT = s.timx.CNT ∧
    (stm32_pwm_ch_set_compare s i v).timx.CR1_CEN = s.timx.CR1_CEN ∧
    restart_calls (stm32_pwm_ch_set_compare s i v).trace = restart_calls s.trace := by
  unfold stm32_pwm_ch_set_compare
  split <;> simp [restart_calls_append] <;> rfl

theorem set_compare_other (s : stm32_pwm_dev_t) (i j v : Nat) (hij : j ≠ i) :
    compare_reg (stm32_pwm_ch_set_compare s i v).timx j = compare_reg s.timx j := by
  unfold stm32_pwm_ch_set_compare compare_reg
  split <;> (try split) <;> simp_all

theorem set_compare_same (s : stm32_pwm_dev_t) (i v : Nat) (hi : i < STM32_PWM_CH_MAX) :
    compare_reg (stm32_pwm_ch_set_compare s i v).timx i = v := by
  unfold STM32_PWM_CH_MAX at hi
  interval_cases i <;> rfl

@[simp] theorem CC_EnableChannel_ch (s : stm32_pwm_dev_t) (m : Nat) :
    (LL_TIM_CC_EnableChannel s m).ch = s.ch := rfl

/-- What one pass of the commit loop leaves alone, and how it counts. -/
theorem update_ch_frame (ua : Bool) (i : Nat) (st : UpdateLoop) :
    (stm32_pwm_update_channels_ch ua i st).enabled =
      st.enabled + (if counts_enabled (st.pwm.ch i) then 1 else 0) ∧
    (stm32_pwm_update_channels_ch ua i st).configured =
      st.configured + (if counts_configured ua (st.pwm.ch i) then 1 else 0) ∧
    (∀ j, j ≠ i → (stm32_pwm_update_channels_ch ua i st).pwm.ch j = st.pwm.ch j) ∧
    (∀ j, j ≠ i → compare_reg (stm32_pwm_update_channels_ch ua i st).pwm.timx j =
      compare_reg st.pwm.timx j) ∧
    restart_calls (stm32_pwm_update_channels_ch ua i st).pwm.trace =
      restart_calls st.pwm.trace ∧
    (stm32_pwm_update_channels_ch ua i st).pwm.timx.CNT = st.pwm.timx.CNT ∧
    (stm32_pwm_update_channels_ch ua i st).pwm.timx.CR1_CEN = st.pwm.timx.CR1_CEN := by
  unfold stm32_pwm_update_channels_ch counts_enabled counts_configured
  by_cases hd : STM32_PWM_CH_DISABLED ≠ (st.pwm.ch i).config
  · rw [if_pos hd]
    by_cases hu : (st.pwm.ch i).enabled ≠ 0 ∧ (ua = true ∨ (st.pwm.ch i).update ≠ 0)
    · rw [if_pos hu]
      by_cases hc : (st.pwm.ch i).configure ≠ 0
      · rw [if_pos hc]
        refine ⟨by simp [hd], by simp [hd, hu.1, hu.2, hc], ?_, ?_, ?_, ?_, ?_⟩
        · intro j hj
          simp only [setCh_ch_other _ _ _ _ hj, CC_EnableChannel_ch, (set_compare_frame _ _ _).1]
          rfl
        · intro j hj
          simp only [setCh_timx, LL_TIM_CC_EnableChannel, emit_timx]
          have h := set_compare_other
            (LL_TIM_OC_EnablePreload (LL_TIM_OC_SetPolarity
              (LL_TIM_OC_SetMode st.pwm (stm32_pwm_ch i) LL_TIM_OCMODE_PWM1) (stm32_pwm_ch i)
              (if ((LL_TIM_OC_SetMode st.pwm (stm32_pwm_ch i) LL_TIM_OCMODE_PWM1).ch i).invert ≠ 0
                then LL_TIM_OCPOLARITY_HIGH else LL_TIM_OCPOLARITY_LOW)) (stm32_pwm_ch i))
            i j ((st.pwm.ch i).duty) hj
          exact h
        · simp only [setCh_trace, LL_TIM_CC_EnableChannel, emit_trace, restart_calls_append,
            (set_compare_frame _ _ _).2.2.2, LL_TIM_OC_EnablePreload, LL_TIM_OC_SetPolarity,
            LL_TIM_OC_SetMode]
          rfl
        · simp only [setCh_timx, LL_TIM_CC_EnableChannel, emit_timx,
            (set_compare_frame _ _ _).2.1]
          rfl
        · simp only [setCh_timx, LL_TIM_CC_EnableChannel, emit_timx,
            (set_compare_frame _ _ _).2.2.1]
          rfl
      · rw [if_neg hc]
        refine ⟨by simp [hd], by simp [hc], ?_, ?_, ?_, ?_, ?_⟩
        · intro j hj
          simp only [setCh_ch_other _ _ _ _ hj, (set_compare_frame _ _ _).1]
        · intro j hj
          simp only [setCh_timx]
          exact set_compare_other _ _ _ _ hj
        · simp only [setCh_trace, (set_compare_frame _ _ _).2.2.2]
        · simp only [setCh_timx, (set_compare_frame _ _ _).2.1]
        · simp only [setCh_timx, (set_compare_frame _ _ _).2.2.1]
    · rw [if_neg hu]
      refine ⟨by simp [hd], ?_, fun _ _ => rfl, fun _ _ => rfl, rfl, rfl, rfl⟩
      have hu3 : ¬STM32_PWM_CH_DISABLED = (st.pwm.ch i).config →
          ¬(st.pwm.ch i).enabled = 0 → ua = true ∨ ¬(st.pwm.ch i).update = 0 →
          (st.pwm.ch i).configure = 0 := fun _ h1 h2 => absurd ⟨h1, h2⟩ hu
      simpa using hu3
  · rw [if_neg hd]
    refine ⟨by simp [hd], by simp [hd], fun _ _ => rfl, fun _ _ => rfl, rfl, rfl, rfl⟩

/-- The counters and the untouched registers at the end of the commit loop. -/
theorem update_loop_counts (pwm : stm32_pwm_dev_t) (ua : Bool) :
    (stm32_pwm_update_channels_loop pwm ua).enabled =
      (if counts_enabled (pwm.ch 0) then 1 else 0) + (if counts_enabled (pwm.ch 1) then 1 else 0) +
      (if counts_enabled (pwm.ch 2) then 1 else 0) + (if counts_enabled (pwm.ch 3) then 1 else 0) ∧
    (stm32_pwm_update_channels_loop pwm ua).configured =
      (if counts_configured ua (pwm.ch 0) then 1 else 0) +
      (if counts_configured ua (pwm.ch 1) then 1 else 0) +
      (if counts_configured ua (pwm.ch 2) then 1 else 0) +
      (if counts_configured ua (pwm.ch 3) then 1 else 0) ∧
    restart_calls (stm32_pwm_update_channels_loop pwm ua).pwm.trace = restart_calls pwm.trace ∧
    (stm32_pwm_update_channels_loop pwm ua).pwm.timx.CNT = pwm.timx.CNT ∧
    (stm32_pwm_update_channels_loop pwm ua).pwm.timx.CR1_CEN = pwm.timx.CR1_CEN := by
  unfold stm32_pwm_update_channels_loop
  rw [range_ch_max]
  simp only [List.foldl]
  obtain ⟨e0, c0, o0, -, t0, n0, k0⟩ :=
    update_ch_frame ua 0 { pwm := pwm, configured := 0, enabled := 0 }
  generalize stm32_pwm_update_channels_ch ua 0 { pwm := pwm, configured := 0, enabled := 0 } = st1
    at e0 c0 o0 t0 n0 k0 ⊢
  obtain ⟨e1, c1, o1, -, t1, n1, k1⟩ := update_ch_frame ua 1 st1
  generalize stm32_pwm_update_channels_ch ua 1 st1 = st2 at e1 c1 o1 t1 n1 k1 ⊢
  obtain ⟨e2, c2, o2, -, t2, n2, k2⟩ := update_ch_frame ua 2 st2
  generalize stm32_pwm_update_channels_ch ua 2 st2 = st3 at e2 c2 o2 t2 n2 k2 ⊢
  obtain ⟨e3, c3, -, -, t3, n3, k3⟩ := update_ch_frame ua 3 st3
  generalize stm32_pwm_update_channels_ch ua 3 st3 = st4 at e3 c3 t3 n3 k3 ⊢
  have h1 : st1.pwm.ch 1 = pwm.ch 1 := o0 1 (by decide)
  have h2 : st2.pwm.ch 2 = pwm.ch 2 := by rw [o1 2 (by decide), o0 2 (by decide)]
  have h3 : st3.pwm.ch 3 = pwm.ch 3 := by
    rw [o2 3 (by decide), o1 3 (by decide), o0 3 (by decide)]
  simp only at e0 c0 t0 n0 k0
  rw [h1] at e1 c1
  rw [h2] at e2 c2
  rw [h3] at e3 c3
  refine ⟨?_, ?_, ?_, ?_, ?_⟩
  · rw [e3, e2, e1, e0]
    omega
  · rw [c3, c2, c1, c0]
    omega
  · rw [t3, t2, t1, t0]
  · rw [n3, n2, n1, n0]
  · rw [k3, k2, k1, k0]

/-- What the commit loop does to slot `i` is what its pass for slot `i` does,
entered in a state that agrees with the initial one on slot `i`. -/
theorem update_loop_slot (pwm : stm32_pwm_dev_t) (ua : Bool) (i : Nat)
    (hi : i < STM32_PWM_CH_MAX) :
    ∃ st : UpdateLoop, st.pwm.ch i = pwm.ch i ∧
      (stm32_pwm_update_channels_loop pwm ua).pwm.ch i =
        (stm32_pwm_update_channels_ch ua i st).pwm.ch i ∧
      compare_reg (stm32_pwm_update_channels_loop pwm ua).pwm.timx i =
        compare_reg (stm32_pwm_update_channels_ch ua i st).pwm.timx i := by
  unfold stm32_pwm_update_channels_loop
  rw [range_ch_max]
  simp only [List.foldl]
  unfold STM32_PWM_CH_MAX at hi
  interval_cases i
  · refine ⟨{ pwm := pwm, configured := 0, enabled := 0 }, rfl, ?_, ?_⟩
    · rw [(update_ch_frame ua 3 _).2.2.1 0 (by decide), (update_ch_frame ua 2 _).2.2.1 0 (by decide),
        (update_ch_frame ua 1 _).2.2.1 0 (by decide)]
    · rw [(update_ch_frame ua 3 _).2.2.2.1 0 (by decide),
        (update_ch_frame ua 2 _).2.2.2.1 0 (by decide),
        (update_ch_frame ua 1 _).2.2.2.1 0 (by decide)]
  · refine ⟨stm32_pwm_update_channels_ch ua 0 { pwm := pwm, configured := 0, enabled := 0 },
      ?_, ?_, ?_⟩
    · rw [(update_ch_frame ua 0 _).2.2.1 1 (by decide)]
    · rw [(update_ch_frame ua 3 _).2.2.1 1 (by decide), (update_ch_frame ua 2 _).2.2.1 1 (by decide)]
    · rw [(update_ch_frame ua 3 _).2.2.2.1 1 (by decide),
        (update_ch_frame ua 2 _).2.2.2.1 1 (by decide)]
  · refine ⟨stm32_pwm_update_channels_ch ua 1 (stm32_pwm_update_channels_ch ua 0
      { pwm := pwm, configured := 0, enabled := 0 }), ?_, ?_, ?_⟩
    · rw [(update_ch_frame ua 1 _).2.2.1 2 (by decide), (update_ch_frame ua 0 _).2.2.1 2 (by decide)]
    · rw [(update_ch_frame ua 3 _).2.2.1 2 (by decide)]
    · rw [(update_ch_frame ua 3 _).2.2.2.1 2 (by decide)]
  · refine ⟨stm32_pwm_update_channels_ch ua 2 (stm32_pwm_update_channels_ch ua 1
      (stm32_pwm_update_channels_ch ua 0 { pwm := pwm, configured := 0, enabled := 0 })),
      ?_, rfl, rfl⟩
    rw [(update_ch_frame ua 2 _).2.2.1 3 (by decide), (update_ch_frame ua 1 _).2.2.1 3 (by decide),
      (update_ch_frame ua 0 _).2.2.1 3 (by decide)]

/-- The pass of the commit loop for slot `i` on an enabled slot that is due
for an update: the compare register receives the duty field, and the record
keeps its duty and its enabled flag and has both pending flags cleared. -/
theorem update_ch_self (ua : Bool) (i : Nat) (st : UpdateLoop) (hi : i < STM32_PWM_CH_MAX)
    (hen : (st.pwm.ch i).enabled ≠ 0) (hup : ua = true ∨ (st.pwm.ch i).update ≠ 0) :
    compare_reg (stm32_pwm_update_channels_ch ua i st).pwm.timx i = (st.pwm.ch i).duty ∧
    ((stm32_pwm_update_channels_ch ua i st).pwm.ch i).duty = (st.pwm.ch i).duty ∧
    ((stm32_pwm_update_channels_ch ua i st).pwm.ch i).enabled = (st.pwm.ch i).enabled ∧
    ((stm32_pwm_update_channels_ch ua i st).pwm.ch i).update = 0 ∧
    ((stm32_pwm_update_channels_ch ua i st).pwm.ch i).configure = 0 := by
  have hd : STM32_PWM_CH_DISABLED ≠ (st.pwm.ch i).config :=
    fun h => enabled_ne_disabled _ hen h.symm
  unfold stm32_pwm_update_channels_ch
  rw [if_pos hd, if_pos ⟨hen, hup⟩]
  by_cases hc : (st.pwm.ch i).configure ≠ 0
  · rw [if_pos hc]
    simp only [setCh_timx, setCh_ch_same, LL_TIM_CC_EnableChannel, emit_timx, emit_ch,
      (set_compare_frame _ _ _).1]
    refine ⟨set_compare_same _ _ _ hi, ?_⟩
    have h := commit_record_fields (st.pwm.ch i)
    exact ⟨h.1, h.2.1, h.2.2.1, h.2.2.2.1⟩
  · rw [if_neg hc]
    simp only [setCh_timx, setCh_ch_same, (set_compare_frame _ _ _).1]
    refine ⟨set_compare_same _ _ _ hi, ?_⟩
    have h := commit_record_fields (st.pwm.ch i)
    exact ⟨h.2.2.2.2.1, h.2.2.2.2.2.1, h.2.2.2.2.2.2.1, by rw [h.2.2.2.2.2.2.2]; simpa using hc⟩

/-- The last step of the commit touches neither the channel records nor the
compare registers, the prescaler or the reload register. -/
theorem update_channels_final (pwm : stm32_pwm_dev_t) (ua : Bool) :
    (stm32_pwm_update_channels pwm ua).2.ch = (stm32_pwm_update_channels_loop pwm ua).pwm.ch ∧
    ∀ i, compare_reg (stm32_pwm_update_channels pwm ua).2.timx i =
      compare_reg (stm32_pwm_update_channels_loop pwm ua).pwm.timx i := by
  unfold stm32_pwm_update_channels
  simp only []
  split_ifs
  · exact ⟨rfl, fun i => by unfold compare_reg; rfl⟩
  · exact ⟨rfl, fun i => by unfold compare_reg; rfl⟩
  · exact ⟨rfl, fun i => rfl⟩

/-- The record of slot `cnum` as `stm32_pwm_enable_duty_cycle` leaves it before the
commit. -/
theorem enable_stores (pwm : stm32_pwm_dev_t) (cnum fraction : Nat) :
    (((pwm.setCh cnum ((pwm.ch cnum).set_duty fraction)).setCh cnum
      (((pwm.setCh cnum ((pwm.ch cnum).set_duty fraction)).ch cnum).set_update 1)).setCh cnum
      ((((pwm.setCh cnum ((pwm.ch cnum).set_duty fraction)).setCh cnum
        (((pwm.setCh cnum ((pwm.ch cnum).set_duty fraction)).ch cnum).set_update 1)).ch
          cnum).set_enabled 1)).ch cnum =
    (((pwm.ch cnum).set_duty fraction).set_update 1).set_enabled 1 := by
  simp only [setCh_ch_same]

/-- C6 fails as stated: on a 72 MHz timer set to 1000 Hz (period 36000 ticks)
with channel 0 configured, `stm32_pwm_enable_duty_cycle(0, 32768)` leaves 32768 in
the channel-0 compare register, not the midpoint 18000 of the period. -/
theorem C6_counterexample :
    stm32_pwm_get_top_value (stm32_pwm_enable_duty_cycle dev4
      (stm32_pwm_set_frequency 72000000 demo_configured 1000).2 0 32768).2 = 36000 ∧
    (stm32_pwm_enable_duty_cycle dev4
      (stm32_pwm_set_frequency 72000000 demo_configured 1000).2 0 32768).1 = Rc.ok ∧
    compare_reg (stm32_pwm_enable_duty_cycle dev4
      (stm32_pwm_set_frequency 72000000 demo_configured 1000).2 0 32768).2.timx 0 = 32768 ∧
    compare_reg (stm32_pwm_enable_duty_cycle dev4
      (stm32_pwm_set_frequency 72000000 demo_configured 1000).2 0 32768).2.timx 0 ≠ 18000 := by
  decide

/-- C6, amended: the duty fraction is written to the compare register as it
is, not scaled to the period: for every valid channel index and every 16-bit
fraction, `stm32_pwm_enable_duty_cycle` returns OK, leaves the fraction in the
duty field of the record and in the compare register of that channel, and
leaves the period (`stm32_pwm_get_top_value`) as it was. -/
theorem C6_duty_written_unscaled (dev : pwm_dev) (pwm : stm32_pwm_dev_t) (cnum fraction : Nat)
    (hc : cnum < dev.pwm_chan_count) (h4 : dev.pwm_chan_count ≤ STM32_PWM_CH_MAX)
    (hf : fraction < 2 ^ 16) :
    (stm32_pwm_enable_duty_cycle dev pwm cnum fraction).1 = Rc.ok ∧
    ((stm32_pwm_enable_duty_cycle dev pwm cnum fraction).2.ch cnum).duty = fraction ∧
    compare_reg (stm32_pwm_enable_duty_cycle dev pwm cnum fraction).2.timx cnum = fraction ∧
    stm32_pwm_get_top_value (stm32_pwm_enable_duty_cycle dev pwm cnum fraction).2 =
      stm32_pwm_get_top_value pwm := by
  have hi : cnum < STM32_PWM_CH_MAX := lt_of_lt_of_le hc h4
  unfold stm32_pwm_enable_duty_cycle
  rw [if_neg (by omega)]
  simp only []
  generalize hp3 : ((pwm.setCh cnum ((pwm.ch cnum).set_duty fraction)).setCh cnum
      (((pwm.setCh cnum ((pwm.ch cnum).set_duty fraction)).ch cnum).set_update 1)).setCh cnum
      ((((pwm.setCh cnum ((pwm.ch cnum).set_duty fraction)).setCh cnum
        (((pwm.setCh cnum ((pwm.ch cnum).set_duty fraction)).ch cnum).set_update 1)).ch
          cnum).set_enabled 1) = p3
  have hrec : p3.ch cnum = (((pwm.ch cnum).set_duty fraction).set_update 1).set_enabled 1 := by
    rw [← hp3]
    exact enable_stores pwm cnum fraction
  have harr : p3.timx = pwm.timx := by
    rw [← hp3]
    rfl
  obtain ⟨fe, fu, fd, _⟩ := enable_record_fields (pwm.ch cnum) fraction
  obtain ⟨st, hst, hch, hcmp⟩ := update_loop_slot p3 false cnum hi
  rw [← hrec] at fe fu fd
  rw [← hst] at fe fu fd
  obtain ⟨s1, s2, _, _, _⟩ := update_ch_self false cnum st hi (by rw [fe]; decide)
    (Or.inr (by rw [fu]; decide))
  have hmod : fraction % 65536 = fraction := Nat.mod_eq_of_lt (by omega)
  refine ⟨update_channels_rc _ _, ?_, ?_, ?_⟩
  · rw [(update_channels_final p3 false).1, hch, s2, fd, hmod]
  · rw [(update_channels_final p3 false).2, hcmp, s1, fd, hmod]
  · unfold stm32_pwm_get_top_value LL_TIM_GetAutoReload
    rw [(update_channels_PSC_ARR p3 false).2, harr]

theorem C6_witness :
    (0 < dev4.pwm_chan_count ∧ dev4.pwm_chan_count ≤ STM32_PWM_CH_MAX ∧ 18000 < 2 ^ 16) ∧
    ((stm32_pwm_enable_duty_cycle dev4 demo_configured 0 18000).1 = Rc.ok ∧
    ((stm32_pwm_enable_duty_cycle dev4 demo_configured 0 18000).2.ch 0).duty = 18000 ∧
    compare_reg (stm32_pwm_enable_duty_cycle dev4 demo_configured 0 18000).2.timx 0 = 18000 ∧
    stm32_pwm_get_top_value (stm32_pwm_enable_duty_cycle dev4 demo_configured 0 18000).2 =
      stm32_pwm_get_top_value demo_configured) :=
  ⟨by decide, C6_duty_written_unscaled dev4 demo_configured 0 18000
    (by decide) (by decide) (by decide)⟩

/-! ## Configuration call -/

/-- A list of calls that are all pin-mux calls. -/
theorem restart_calls_pinmux (t : List Ev) (h : ∀ e ∈ t, ∃ p a, e = Ev.gpio_init_af p a) :
    restart_calls t = 0 := by
  unfold restart_calls
  rw [List.countP_eq_zero]
  intro e he
  obtain ⟨p, a, rfl⟩ := h e he
  simp [is_restart_call]

/-- The two ways `stm32_pwm_configure_channel` ends on a valid channel index:
with the PinAssignment error, records and timer untouched and only pin-mux
calls made; or with the commit of the stored configuration, entered after
only pin-mux calls. -/
theorem configure_channel_cases (hal : Hal) (dev : pwm_dev) (pwm : stm32_pwm_dev_t)
    (cnum : Nat) (cfg : pwm_chan_cfg) (hc : cnum < dev.pwm_chan_count) :
    ∃ q : stm32_pwm_dev_t, q.ch = pwm.ch ∧ q.timx = pwm.timx ∧
      (∃ t, q.trace = pwm.trace ++ t ∧ ∀ e ∈ t, ∃ p a, e = Ev.gpio_init_af p a) ∧
      (stm32_pwm_configure_channel hal dev pwm cnum cfg = (Rc.pinmux, q) ∨
       stm32_pwm_configure_channel hal dev pwm cnum cfg =
        stm32_pwm_update_channels (q.setCh cnum (stm32_pwm_configure_record (pwm.ch cnum) cfg
          ((cfg.data % 256) &&& 0x0F))) false) := by
  unfold stm32_pwm_configure_channel
  rw [if_neg (by omega)]
  simp only []
  by_cases hchg : cfg.pin ≠ (pwm.ch cnum).pin ∨ (cfg.data % 256) &&& 0x0F ≠ (pwm.ch cnum).af
  · rw [if_pos hchg]
    by_cases hap : stm32_pwm_has_assigned_pin (pwm.ch cnum) = true
    · rw [if_pos hap]
      by_cases h1 : (hal_gpio_init_af hal (pwm.ch cnum).pin 0 pwm).1 ≠ 0
      · rw [if_pos h1]
        exact ⟨(hal_gpio_init_af hal (pwm.ch cnum).pin 0 pwm).2, rfl, rfl,
          ⟨[Ev.gpio_init_af (pwm.ch cnum).pin 0], rfl, by simp⟩, Or.inl rfl⟩
      · rw [if_neg h1]
        by_cases hnew : STM32_PWM_CH_NOPIN ≠ cfg.pin ∧ STM32_PWM_CH_NOAF ≠ (cfg.data % 256) &&& 0x0F
        · rw [if_pos hnew]
          by_cases h2 : (hal_gpio_init_af hal cfg.pin ((cfg.data % 256) &&& 0x0F)
              (hal_gpio_init_af hal (pwm.ch cnum).pin 0 pwm).2).1 ≠ 0
          · rw [if_pos h2]
            exact ⟨(hal_gpio_init_af hal cfg.pin ((cfg.data % 256) &&& 0x0F)
                (hal_gpio_init_af hal (pwm.ch cnum).pin 0 pwm).2).2, rfl, rfl,
              ⟨[Ev.gpio_init_af (pwm.ch cnum).pin 0,
                Ev.gpio_init_af cfg.pin ((cfg.data % 256) &&& 0x0F)],
                by simp [hal_gpio_init_af], by simp⟩, Or.inl rfl⟩
          · rw [if_neg h2]
            exact ⟨(hal_gpio_init_af hal cfg.pin ((cfg.data % 256) &&& 0x0F)
                (hal_gpio_init_af hal (pwm.ch cnum).pin 0 pwm).2).2, rfl, rfl,
              ⟨[Ev.gpio_init_af (pwm.ch cnum).pin 0,
                Ev.gpio_init_af cfg.pin ((cfg.data % 256) &&& 0x0F)],
                by simp [hal_gpio_init_af], by simp⟩, Or.inr rfl⟩
        · rw [if_neg hnew]
          exact ⟨(hal_gpio_init_af hal (pwm.ch cnum).pin 0 pwm).2, rfl, rfl,
            ⟨[Ev.gpio_init_af (pwm.ch cnum).pin 0], rfl, by simp⟩, Or.inr rfl⟩
    · rw [if_neg hap]
      simp only [ne_eq, not_true_eq_false, if_false]
      by_cases hnew : STM32_PWM_CH_NOPIN ≠ cfg.pin ∧ STM32_PWM_CH_NOAF ≠ (cfg.data % 256) &&& 0x0F
      · rw [if_pos hnew]
        by_cases h2 : (hal_gpio_init_af hal cfg.pin ((cfg.data % 256) &&& 0x0F) pwm).1 ≠ 0
        · rw [if_pos h2]
          exact ⟨(hal_gpio_init_af hal cfg.pin ((cfg.data % 256) &&& 0x0F) pwm).2, rfl, rfl,
            ⟨[Ev.gpio_init_af cfg.pin ((cfg.data % 256) &&& 0x0F)], rfl, by simp⟩, Or.inl rfl⟩
        · rw [if_neg h2]
          exact ⟨(hal_gpio_init_af hal cfg.pin ((cfg.data % 256) &&& 0x0F) pwm).2, rfl, rfl,
            ⟨[Ev.gpio_init_af cfg.pin ((cfg.data % 256) &&& 0x0F)], rfl, by simp⟩, Or.inr rfl⟩
      · rw [if_neg hnew]
        exact ⟨pwm, rfl, rfl, ⟨[], by simp, by simp⟩, Or.inr rfl⟩
  · rw [if_neg hchg]
    exact ⟨pwm, rfl, rfl, ⟨[], by simp, by simp⟩, Or.inr rfl⟩

/-- C10: when a pin-mux step of `stm32_pwm_configure_channel` fails (the release of
the previously assigned pin, or the assignment of the new pin), the call
returns the PinAssignment error, every channel record and every timer register
is as before the call, and the only calls made are pin-mux calls: no commit is
performed. -/
theorem C10_configure_pinmux_failure (hal : Hal) (dev : pwm_dev) (pwm : stm32_pwm_dev_t)
    (cnum : Nat) (cfg : pwm_chan_cfg) (hc : cnum < dev.pwm_chan_count)
    (hchg : cfg.pin ≠ (pwm.ch cnum).pin ∨ (cfg.data % 256) &&& 0x0F ≠ (pwm.ch cnum).af)
    (hfail :
      (stm32_pwm_has_assigned_pin (pwm.ch cnum) = true ∧
        hal pwm.trace (pwm.ch cnum).pin 0 ≠ 0) ∨
      (STM32_PWM_CH_NOPIN ≠ cfg.pin ∧ STM32_PWM_CH_NOAF ≠ (cfg.data % 256) &&& 0x0F ∧
        ((stm32_pwm_has_assigned_pin (pwm.ch cnum) = true ∧
            hal (pwm.trace ++ [Ev.gpio_init_af (pwm.ch cnum).pin 0]) cfg.pin
              ((cfg.data % 256) &&& 0x0F) ≠ 0) ∨
         (stm32_pwm_has_assigned_pin (pwm.ch cnum) = false ∧
            hal pwm.trace cfg.pin ((cfg.data % 256) &&& 0x0F) ≠ 0)))) :
    (stm32_pwm_configure_channel hal dev pwm cnum cfg).1 = Rc.pinmux ∧
    (stm32_pwm_configure_channel hal dev pwm cnum cfg).2.ch = pwm.ch ∧
    (stm32_pwm_configure_channel hal dev pwm cnum cfg).2.timx = pwm.timx ∧
    ∃ t, (stm32_pwm_configure_channel hal dev pwm cnum cfg).2.trace = pwm.trace ++ t ∧
      ∀ e ∈ t, ∃ p a, e = Ev.gpio_init_af p a := by
  unfold stm32_pwm_configure_channel
  rw [if_neg (by omega)]
  simp only []
  rw [if_pos hchg]
  by_cases hap : stm32_pwm_has_assigned_pin (pwm.ch cnum) = true
  · rw [if_pos hap]
    by_cases h1 : (hal_gpio_init_af hal (pwm.ch cnum).pin 0 pwm).1 ≠ 0
    · rw [if_pos h1]
      exact ⟨rfl, rfl, rfl, [Ev.gpio_init_af (pwm.ch cnum).pin 0], rfl, by simp⟩
    · rw [if_neg h1]
      rcases hfail with ⟨_, hf⟩ | ⟨hn1, hn2, hf⟩
      · exact absurd hf h1
      · rcases hf with ⟨_, hf⟩ | ⟨hf, _⟩
        · have hf2 : (hal_gpio_init_af hal cfg.pin ((cfg.data % 256) &&& 0x0F)
              (hal_gpio_init_af hal (pwm.ch cnum).pin 0 pwm).2).1 ≠ 0 := hf
          rw [if_pos ⟨hn1, hn2⟩, if_pos hf2]
          exact ⟨rfl, rfl, rfl, [Ev.gpio_init_af (pwm.ch cnum).pin 0,
            Ev.gpio_init_af cfg.pin ((cfg.data % 256) &&& 0x0F)],
            by simp [hal_gpio_init_af], by simp⟩
        · rw [hap] at hf
          exact absurd hf (by decide)
  · rw [if_neg hap]
    simp only [ne_eq, not_true_eq_false, if_false]
    rcases hfail with ⟨h, _⟩ | ⟨hn1, hn2, hf⟩
    · exact absurd h hap
    · rcases hf with ⟨h, _⟩ | ⟨_, hf⟩
      · exact absurd h hap
      · have hf2 : (hal_gpio_init_af hal cfg.pin ((cfg.data % 256) &&& 0x0F) pwm).1 ≠ 0 := hf
        rw [if_pos ⟨hn1, hn2⟩, if_pos hf2]
        exact ⟨rfl, rfl, rfl, [Ev.gpio_init_af cfg.pin ((cfg.data % 256) &&& 0x0F)], rfl,
          by simp⟩

/-- C10 at a concrete input: channel 0 runs on pin 5 and is reconfigured to pin 6
on alternate function 1 while every pin-mux call fails. -/
theorem C10_witness :
    (0 < dev4.pwm_chan_count ∧
      (6 ≠ (demo_running.ch 0).pin ∨ (1 % 256) &&& 0x0F ≠ (demo_running.ch 0).af) ∧
      ((stm32_pwm_has_assigned_pin (demo_running.ch 0) = true ∧
        hal_fail demo_running.trace (demo_running.ch 0).pin 0 ≠ 0) ∨
      (STM32_PWM_CH_NOPIN ≠ 6 ∧ STM32_PWM_CH_NOAF ≠ (1 % 256) &&& 0x0F ∧
        ((stm32_pwm_has_assigned_pin (demo_running.ch 0) = true ∧
            hal_fail (demo_running.trace ++ [Ev.gpio_init_af (demo_running.ch 0).pin 0]) 6
              ((1 % 256) &&& 0x0F) ≠ 0) ∨
         (stm32_pwm_has_assigned_pin (demo_running.ch 0) = false ∧
            hal_fail demo_running.trace 6 ((1 % 256) &&& 0x0F) ≠ 0))))) ∧
    ((stm32_pwm_configure_channel hal_fail dev4 demo_running 0
        { demo_cfg with pin := 6, data := 1 }).1 = Rc.pinmux ∧
    (stm32_pwm_configure_channel hal_fail dev4 demo_running 0
        { demo_cfg with pin := 6, data := 1 }).2.ch = demo_running.ch ∧
    (stm32_pwm_configure_channel hal_fail dev4 demo_running 0
        { demo_cfg with pin := 6, data := 1 }).2.timx = demo_running.timx ∧
    ∃ t, (stm32_pwm_configure_channel hal_fail dev4 demo_running 0
        { demo_cfg with pin := 6, data := 1 }).2.trace = demo_running.trace ++ t ∧
      ∀ e ∈ t, ∃ p a, e = Ev.gpio_init_af p a) :=
  ⟨by decide, C10_configure_pinmux_failure hal_fail dev4 demo_running 0
    { demo_cfg with pin := 6, data := 1 } (by decide) (by decide) (by decide)⟩

/-! ## Restart policy of the commit -/

theorem counts_enabled_iff (c : stm32_pwm_ch_t) :
    counts_enabled c = true ↔ c.config ≠ STM32_PWM_CH_DISABLED := by
  unfold counts_enabled
  rw [decide_eq_true_eq]
  exact ⟨fun h => Ne.symm h, fun h => Ne.symm h⟩

theorem counts_configured_iff (ua : Bool) (c : stm32_pwm_ch_t) :
    counts_configured ua c = true ↔
      c.config ≠ STM32_PWM_CH_DISABLED ∧ c.enabled ≠ 0 ∧ (ua = true ∨ c.update ≠ 0) ∧
        c.configure ≠ 0 := by
  unfold counts_configured
  simp only [Bool.and_eq_true, Bool.or_eq_true, decide_eq_true_eq]
  constructor
  · rintro ⟨h1, ⟨h2, h3⟩, h4⟩
    exact ⟨Ne.symm h1, h2, h3, h4⟩
  · rintro ⟨h1, h2, h3, h4⟩
    exact ⟨Ne.symm h1, ⟨h2, h3⟩, h4⟩

theorem bool_count_iff : ∀ e0 e1 e2 e3 c0 c1 c2 c3 : Bool,
    (c0 = true → e0 = true) → (c1 = true → e1 = true) → (c2 = true → e2 = true) →
    (c3 = true → e3 = true) →
    ((¬ (0 = (if e0 then 1 else 0) + (if e1 then 1 else 0) + (if e2 then 1 else 0) +
        (if e3 then 1 else 0)) ∧
      (if e0 then 1 else 0) + (if e1 then 1 else 0) + (if e2 then 1 else 0) +
        (if e3 then 1 else 0) =
      (if c0 then 1 else 0) + (if c1 then 1 else 0) + (if c2 then 1 else 0) +
        (if c3 then 1 else 0)) ↔
    ((e0 = true ∨ e1 = true ∨ e2 = true ∨ e3 = true) ∧
      ((e0 = true → c0 = true) ∧ (e1 = true → c1 = true) ∧ (e2 = true → c2 = true) ∧
        (e3 = true → c3 = true)))) := by
  decide

/-- The condition under which the commit takes its reset-and-start branch:
some slot is not the disabled word and every such slot goes through the
configure branch. -/
theorem commit_restart_iff (pwm : stm32_pwm_dev_t) (ua : Bool) :
    (¬ (0 = (stm32_pwm_update_channels_loop pwm ua).enabled) ∧
      (stm32_pwm_update_channels_loop pwm ua).enabled =
        (stm32_pwm_update_channels_loop pwm ua).configured) ↔
    ((∃ i, i < STM32_PWM_CH_MAX ∧ counts_enabled (pwm.ch i) = true) ∧
      ∀ i, i < STM32_PWM_CH_MAX → counts_enabled (pwm.ch i) = true →
        counts_configured ua (pwm.ch i) = true) := by
  obtain ⟨hE, hC, -⟩ := update_loop_counts pwm ua
  rw [hE, hC]
  have hle : ∀ c, counts_configured ua c = true → counts_enabled c = true := by
    intro c h
    rw [counts_enabled_iff]
    exact ((counts_configured_iff ua c).1 h).1
  have hex : (∃ i, i < STM32_PWM_CH_MAX ∧ counts_enabled (pwm.ch i) = true) ↔
      (counts_enabled (pwm.ch 0) = true ∨ counts_enabled (pwm.ch 1) = true ∨
        counts_enabled (pwm.ch 2) = true ∨ counts_enabled (pwm.ch 3) = true) := by
    unfold STM32_PWM_CH_MAX
    constructor
    · rintro ⟨i, hi, h⟩
      interval_cases i
      · exact Or.inl h
      · exact Or.inr (Or.inl h)
      · exact Or.inr (Or.inr (Or.inl h))
      · exact Or.inr (Or.inr (Or.inr h))
    · rintro (h | h | h | h)
      · exact ⟨0, by decide, h⟩
      · exact ⟨1, by decide, h⟩
      · exact ⟨2, by decide, h⟩
      · exact ⟨3, by decide, h⟩
  have hall : (∀ i, i < STM32_PWM_CH_MAX → counts_enabled (pwm.ch i) = true →
        counts_configured ua (pwm.ch i) = true) ↔
      ((counts_enabled (pwm.ch 0) = true → counts_configured ua (pwm.ch 0) = true) ∧
       (counts_enabled (pwm.ch 1) = true → counts_configured ua (pwm.ch 1) = true) ∧
       (counts_enabled (pwm.ch 2) = true → counts_configured ua (pwm.ch 2) = true) ∧
       (counts_enabled (pwm.ch 3) = true → counts_configured ua (pwm.ch 3) = true)) := by
    unfold STM32_PWM_CH_MAX
    constructor
    · intro h
      exact ⟨h 0 (by decide), h 1 (by decide), h 2 (by decide), h 3 (by decide)⟩
    · rintro ⟨h0, h1, h2, h3⟩ i hi
      interval_cases i
      · exact h0
      · exact h1
      · exact h2
      · exact h3
  rw [hex, hall]
  exact bool_count_iff _ _ _ _ _ _ _ _ (hle _) (hle _) (hle _) (hle _)

/-- A pass of the commit loop over a slot whose enabled flag is clear leaves the
device as it is. -/
theorem update_ch_not_enabled (ua : Bool) (i : Nat) (st : UpdateLoop)
    (h : (st.pwm.ch i).enabled = 0) :
    (stm32_pwm_update_channels_ch ua i st).pwm = st.pwm := by
  unfold stm32_pwm_update_channels_ch
  by_cases hd : STM32_PWM_CH_DISABLED ≠ (st.pwm.ch i).config
  · rw [if_pos hd, if_neg (fun hh => hh.1 h)]
  · rw [if_neg hd]

/-- A pass of the commit loop over its own slot keeps the enabled flag and
keeps a clear configure flag clear. -/
theorem update_ch_flags (ua : Bool) (i : Nat) (st : UpdateLoop) (hi : i < STM32_PWM_CH_MAX) :
    ((stm32_pwm_update_channels_ch ua i st).pwm.ch i).enabled = (st.pwm.ch i).enabled ∧
    ((st.pwm.ch i).configure = 0 →
      ((stm32_pwm_update_channels_ch ua i st).pwm.ch i).configure = 0) := by
  by_cases hdue : (st.pwm.ch i).enabled ≠ 0 ∧ (ua = true ∨ (st.pwm.ch i).update ≠ 0)
  · obtain ⟨_, _, h3, _, h5⟩ := update_ch_self ua i st hi hdue.1 hdue.2
    exact ⟨h3, fun _ => h5⟩
  · have hsame : (stm32_pwm_update_channels_ch ua i st).pwm = st.pwm := by
      unfold stm32_pwm_update_channels_ch
      by_cases hd : STM32_PWM_CH_DISABLED ≠ (st.pwm.ch i).config
      · rw [if_pos hd, if_neg hdue]
      · rw [if_neg hd]
    rw [hsame]
    exact ⟨rfl, fun h => h⟩

/-- The three outcomes of the commit. -/
theorem commit_outcome (pwm : stm32_pwm_dev_t) (ua : Bool) :
    (((∃ i, i < STM32_PWM_CH_MAX ∧ counts_enabled (pwm.ch i) = true) ∧
        ∀ i, i < STM32_PWM_CH_MAX → counts_enabled (pwm.ch i) = true →
          counts_configured ua (pwm.ch i) = true) →
      (stm32_pwm_update_channels pwm ua).2 =
        LL_TIM_EnableCounter (LL_TIM_GenerateEvent_UPDATE
          (LL_TIM_SetCounter (stm32_pwm_update_channels_loop pwm ua).pwm 0))) ∧
    ((∃ i, i < STM32_PWM_CH_MAX ∧ counts_enabled (pwm.ch i) = true) →
      ¬ (∀ i, i < STM32_PWM_CH_MAX → counts_enabled (pwm.ch i) = true →
          counts_configured ua (pwm.ch i) = true) →
      (stm32_pwm_update_channels pwm ua).2 = (stm32_pwm_update_channels_loop pwm ua).pwm) ∧
    (¬ (∃ i, i < STM32_PWM_CH_MAX ∧ counts_enabled (pwm.ch i) = true) →
      (stm32_pwm_update_channels pwm ua).2 =
        LL_TIM_DisableCounter (stm32_pwm_update_channels_loop pwm ua).pwm) := by
  have hiff := commit_restart_iff pwm ua
  have hzero : (0 = (stm32_pwm_update_channels_loop pwm ua).enabled) ↔
      ¬ (∃ i, i < STM32_PWM_CH_MAX ∧ counts_enabled (pwm.ch i) = true) := by
    rw [(update_loop_counts pwm ua).1]
    unfold STM32_PWM_CH_MAX
    constructor
    · rintro h ⟨i, hi, he⟩
      interval_cases i <;> simp [he] at h <;> omega
    · intro h
      have h0 : counts_enabled (pwm.ch 0) = false :=
        Bool.eq_false_iff.2 (fun he => h ⟨0, by decide, he⟩)
      have h1 : counts_enabled (pwm.ch 1) = false :=
        Bool.eq_false_iff.2 (fun he => h ⟨1, by decide, he⟩)
      have h2 : counts_enabled (pwm.ch 2) = false :=
        Bool.eq_false_iff.2 (fun he => h ⟨2, by decide, he⟩)
      have h3 : counts_enabled (pwm.ch 3) = false :=
        Bool.eq_false_iff.2 (fun he => h ⟨3, by decide, he⟩)
      simp [h0, h1, h2, h3]
  unfold stm32_pwm_update_channels
  simp only []
  refine ⟨fun hc => ?_, fun hex hn => ?_, fun hn => ?_⟩
  · obtain ⟨hne, heq⟩ := hiff.2 hc
    rw [if_neg hne, if_pos heq]
  · have hne : ¬ (0 = (stm32_pwm_update_channels_loop pwm ua).enabled) :=
      fun h => (hzero.1 h) hex
    have hneq : ¬ ((stm32_pwm_update_channels_loop pwm ua).enabled =
        (stm32_pwm_update_channels_loop pwm ua).configured) :=
      fun h => hn (hiff.1 ⟨hne, h⟩).2
    rw [if_neg hne, if_neg hneq]
  · rw [if_pos (hzero.2 hn)]

/-- A commit leaves every slot whose enabled flag is clear as it is. -/
theorem commit_ch_not_enabled (pwm : stm32_pwm_dev_t) (ua : Bool) (i : Nat)
    (hi : i < STM32_PWM_CH_MAX) (h : (pwm.ch i).enabled = 0) :
    (stm32_pwm_update_channels pwm ua).2.ch i = pwm.ch i := by
  obtain ⟨st, hst, hch, -⟩ := update_loop_slot pwm ua i hi
  rw [(update_channels_final pwm ua).1, hch, update_ch_not_enabled ua i st (by rw [hst]; exact h),
    hst]

/-- A commit made while slot `a` is enabled with its configure flag clear does
not take the reset-and-start branch and leaves the counter as it is. -/
theorem commit_no_restart_of_running (pwm : stm32_pwm_dev_t) (ua : Bool) (a : Nat)
    (ha : a < STM32_PWM_CH_MAX) (hen : (pwm.ch a).enabled ≠ 0)
    (hcf : (pwm.ch a).configure = 0) :
    restart_calls (stm32_pwm_update_channels pwm ua).2.trace = restart_calls pwm.trace ∧
    (stm32_pwm_update_channels pwm ua).2.timx.CNT = pwm.timx.CNT ∧
    (stm32_pwm_update_channels pwm ua).2.timx.CR1_CEN = pwm.timx.CR1_CEN ∧
    ((stm32_pwm_update_channels pwm ua).2.ch a).enabled ≠ 0 ∧
    ((stm32_pwm_update_channels pwm ua).2.ch a).configure = 0 := by
  have hea : counts_enabled (pwm.ch a) = true :=
    (counts_enabled_iff _).2 (enabled_ne_disabled _ hen)
  have hca : ¬ counts_configured ua (pwm.ch a) = true := by
    rw [counts_configured_iff]
    rintro ⟨_, _, _, h⟩
    exact h hcf
  have hout := (commit_outcome pwm ua).2.1 ⟨a, ha, hea⟩ (fun h => hca (h a ha hea))
  obtain ⟨-, -, ht, hn, hk⟩ := update_loop_counts pwm ua
  obtain ⟨st, hst, hch, -⟩ := update_loop_slot pwm ua a ha
  obtain ⟨f1, f2⟩ := update_ch_flags ua a st ha
  rw [hout]
  refine ⟨ht, hn, hk, ?_, ?_⟩
  · rw [hch, f1, hst]
    exact hen
  · rw [hch]
    exact f2 (by rw [hst]; exact hcf)

theorem setCh_setCh (s : stm32_pwm_dev_t) (i : Nat) (c c1 : stm32_pwm_ch_t) :
    (s.setCh i c).setCh i c1 = s.setCh i c1 := by
  unfold stm32_pwm_dev_t.setCh
  simp only [stm32_pwm_dev_t.mk.injEq, true_and, and_true]
  funext k
  by_cases hk : k = i <;> simp [hk]

/-- The call `stm32_pwm_enable_duty_cycle` on a valid channel index is the commit
entered with the three stores made. -/
theorem enable_eq (dev : pwm_dev) (pwm : stm32_pwm_dev_t) (cnum fraction : Nat)
    (hc : cnum < dev.pwm_chan_count) :
    stm32_pwm_enable_duty_cycle dev pwm cnum fraction =
      stm32_pwm_update_channels
        (pwm.setCh cnum ((((pwm.ch cnum).set_duty fraction).set_update 1).set_enabled 1)) false := by
  unfold stm32_pwm_enable_duty_cycle
  rw [if_neg (by omega)]
  simp only [setCh_ch_same, setCh_setCh]

theorem restart_calls_three (s : stm32_pwm_dev_t) :
    restart_calls (LL_TIM_EnableCounter (LL_TIM_GenerateEvent_UPDATE
      (LL_TIM_SetCounter s 0))).trace = restart_calls s.trace + 3 := by
  simp only [LL_TIM_EnableCounter, LL_TIM_GenerateEvent_UPDATE, LL_TIM_SetCounter, emit_trace,
    restart_calls_append]
  rfl

/-- The call `stm32_pwm_configure_channel` made while another slot `a` is enabled
with its configure flag clear does not take the reset-and-start branch. -/
theorem configure_no_restart_of_running (hal : Hal) (dev : pwm_dev) (pwm : stm32_pwm_dev_t)
    (a b : Nat) (cfg : pwm_chan_cfg) (ha : a < STM32_PWM_CH_MAX) (hb : b < dev.pwm_chan_count)
    (hab : a ≠ b) (hen : (pwm.ch a).enabled ≠ 0) (hcf : (pwm.ch a).configure = 0) :
    restart_calls (stm32_pwm_configure_channel hal dev pwm b cfg).2.trace =
      restart_calls pwm.trace ∧
    (stm32_pwm_configure_channel hal dev pwm b cfg).2.timx.CNT = pwm.timx.CNT ∧
    (stm32_pwm_configure_channel hal dev pwm b cfg).2.timx.CR1_CEN = pwm.timx.CR1_CEN ∧
    ((stm32_pwm_configure_channel hal dev pwm b cfg).2.ch a).enabled ≠ 0 ∧
    ((stm32_pwm_configure_channel hal dev pwm b cfg).2.ch a).configure = 0 := by
  obtain ⟨q, hqch, hqt, ⟨t, hqtr, hall⟩, hres⟩ := configure_channel_cases hal dev pwm b cfg hb
  have hrq : restart_calls q.trace = restart_calls pwm.trace := by
    rw [hqtr, restart_calls_append, restart_calls_pinmux t hall, Nat.add_zero]
  rcases hres with h | h
  · rw [h]
    simp only
    rw [hqch, hqt]
    exact ⟨hrq, rfl, rfl, hen, hcf⟩
  · rw [h]
    have hcha : (q.setCh b (stm32_pwm_configure_record (pwm.ch b) cfg
        ((cfg.data % 256) &&& 0x0F))).ch a = pwm.ch a := by
      rw [setCh_ch_other _ _ _ _ hab, hqch]
    obtain ⟨h1, h2, h3, h4, h5⟩ := commit_no_restart_of_running
      (q.setCh b (stm32_pwm_configure_record (pwm.ch b) cfg ((cfg.data % 256) &&& 0x0F)))
      false a ha (by rw [hcha]; exact hen) (by rw [hcha]; exact hcf)
    refine ⟨?_, ?_, ?_, h4, h5⟩
    · rw [h1, setCh_trace, hrq]
    · rw [h2, setCh_timx, hqt]
    · rw [h3, setCh_timx, hqt]

/-- Cold start: on a device whose slots are all the disabled word, a successful
`stm32_pwm_configure_channel` does not start the counter and the following
`stm32_pwm_enable_duty_cycle` of the same channel takes the reset-and-start branch. -/
theorem cold_start (hal : Hal) (dev : pwm_dev) (pwm0 : stm32_pwm_dev_t) (c : Nat)
    (cfg0 : pwm_chan_cfg) (d0 : Nat) (h4 : dev.pwm_chan_count ≤ STM32_PWM_CH_MAX)
    (hc : c < dev.pwm_chan_count)
    (hfresh : ∀ i, i < STM32_PWM_CH_MAX → (pwm0.ch i).config = STM32_PWM_CH_DISABLED)
    (hok : (stm32_pwm_configure_channel hal dev pwm0 c cfg0).1 = Rc.ok) :
    restart_calls (stm32_pwm_configure_channel hal dev pwm0 c cfg0).2.trace =
      restart_calls pwm0.trace ∧
    (stm32_pwm_configure_channel hal dev pwm0 c cfg0).2.timx.CR1_CEN = pwm0.timx.CR1_CEN ∧
    restart_calls (stm32_pwm_enable_duty_cycle dev
        (stm32_pwm_configure_channel hal dev pwm0 c cfg0).2 c d0).2.trace =
      restart_calls (stm32_pwm_configure_channel hal dev pwm0 c cfg0).2.trace + 3 ∧
    (stm32_pwm_enable_duty_cycle dev
        (stm32_pwm_configure_channel hal dev pwm0 c cfg0).2 c d0).2.timx.CNT = 0 ∧
    (stm32_pwm_enable_duty_cycle dev
        (stm32_pwm_configure_channel hal dev pwm0 c cfg0).2 c d0).2.timx.CR1_CEN = true := by
  have hc4 : c < STM32_PWM_CH_MAX := lt_of_lt_of_le hc h4
  obtain ⟨q, hqch, hqt, ⟨t, hqtr, hall⟩, hres⟩ := configure_channel_cases hal dev pwm0 c cfg0 hc
  have hrq : restart_calls q.trace = restart_calls pwm0.trace := by
    rw [hqtr, restart_calls_append, restart_calls_pinmux t hall, Nat.add_zero]
  rcases hres with h | h
  · rw [h] at hok
    simp at hok
  · obtain ⟨r1, r2, -, -, -, -⟩ := configure_record_fields (pwm0.ch c) cfg0
      ((cfg0.data % 256) &&& 0x0F)
    have hdis := disabled_fields (pwm0.ch c) (hfresh c hc4)
    rw [hdis.1] at r2
    generalize stm32_pwm_configure_record (pwm0.ch c) cfg0 ((cfg0.data % 256) &&& 0x0F) = rec
      at h r1 r2
    -- the state entering the commit of the configuration
    have hPc : (q.setCh c rec).ch c = rec := setCh_ch_same _ _ _
    have hPo : ∀ i, i ≠ c → (q.setCh c rec).ch i = pwm0.ch i := by
      intro i hi
      rw [setCh_ch_other _ _ _ _ hi, hqch]
    have hPen : ∀ i, i < STM32_PWM_CH_MAX → ((q.setCh c rec).ch i).enabled = 0 := by
      intro i hi
      by_cases hic : i = c
      · rw [hic, hPc]
        exact r2
      · rw [hPo i hic]
        exact (disabled_fields _ (hfresh i hi)).1
    have hex : ∃ i, i < STM32_PWM_CH_MAX ∧ counts_enabled ((q.setCh c rec).ch i) = true :=
      ⟨c, hc4, by
        rw [hPc, counts_enabled_iff]
        exact configure_ne_disabled _ (by rw [r1]; decide)⟩
    have hnall : ¬ (∀ i, i < STM32_PWM_CH_MAX → counts_enabled ((q.setCh c rec).ch i) = true →
        counts_configured false ((q.setCh c rec).ch i) = true) := by
      intro hall2
      obtain ⟨i, hi, hei⟩ := hex
      have := (counts_configured_iff _ _).1 (hall2 i hi hei)
      exact this.2.1 (hPen i hi)
    have hout := (commit_outcome (q.setCh c rec) false).2.1 hex hnall
    obtain ⟨-, -, ht, hn, hk⟩ := update_loop_counts (q.setCh c rec) false
    have ht1 : ∀ i, i < STM32_PWM_CH_MAX →
        (stm32_pwm_configure_channel hal dev pwm0 c cfg0).2.ch i = (q.setCh c rec).ch i := by
      intro i hi
      rw [h]
      exact commit_ch_not_enabled _ _ i hi (hPen i hi)
    have hfirst : restart_calls (stm32_pwm_configure_channel hal dev pwm0 c cfg0).2.trace =
        restart_calls pwm0.trace := by
      rw [h, hout, ht, setCh_trace, hrq]
    have hcen : (stm32_pwm_configure_channel hal dev pwm0 c cfg0).2.timx.CR1_CEN =
        pwm0.timx.CR1_CEN := by
      rw [h, hout, hk, setCh_timx, hqt]
    refine ⟨hfirst, hcen, ?_⟩
    -- the enable call
    rw [enable_eq dev _ c d0 hc]
    generalize (stm32_pwm_configure_channel hal dev pwm0 c cfg0).2 = t1 at ht1
    obtain ⟨e1, e2, -, e4⟩ := enable_record_fields (t1.ch c) d0
    generalize (((t1.ch c).set_duty d0).set_update 1).set_enabled 1 = X at e1 e2 e4
    rw [ht1 c hc4, hPc, r1] at e4
    have hXd : X.config ≠ STM32_PWM_CH_DISABLED := enabled_ne_disabled _ (by rw [e1]; decide)
    have hex2 : ∃ i, i < STM32_PWM_CH_MAX ∧ counts_enabled ((t1.setCh c X).ch i) = true :=
      ⟨c, hc4, by
        rw [setCh_ch_same, counts_enabled_iff]
        exact hXd⟩
    have hall2 : ∀ i, i < STM32_PWM_CH_MAX → counts_enabled ((t1.setCh c X).ch i) = true →
        counts_configured false ((t1.setCh c X).ch i) = true := by
      intro i hi hei
      by_cases hic : i = c
      · rw [hic, setCh_ch_same, counts_configured_iff]
        exact ⟨hXd, by rw [e1]; decide, Or.inr (by rw [e2]; decide), by rw [e4]; decide⟩
      · rw [setCh_ch_other _ _ _ _ hic, ht1 i hi, hPo i hic, counts_enabled_iff] at hei
        exact absurd (hfresh i hi) hei
    have hout2 := (commit_outcome (t1.setCh c X) false).1 ⟨hex2, hall2⟩
    obtain ⟨-, -, ht2, -, -⟩ := update_loop_counts (t1.setCh c X) false
    rw [hout2]
    refine ⟨?_, rfl, rfl⟩
    rw [restart_calls_three, ht2, setCh_trace]

/-- C7: the commit (`stm32_pwm_update_channels`) takes its reset-and-start branch
(counter set to zero, update event forced, counter enabled) exactly when at
least one slot is not the disabled word and every such slot goes through the
configure branch in that call; otherwise none of the three calls is made and
the counter value is left alone.  Hot add: while slot `a` is enabled with its
configure flag clear, configuring and then enabling another channel `b` makes
no reset-and-start call and leaves the counter value and its run bit as they
were, in both calls.  Cold start: on a device whose slots are all disabled, a
successful configuration of channel `c` does not start the counter and the
following enable of `c` resets and starts it. -/
theorem C7_commit_restart_policy (hal : Hal) (dev : pwm_dev) (s pwm pwm0 : stm32_pwm_dev_t)
    (update_all : Bool) (a b c : Nat) (cfg cfg0 : pwm_chan_cfg) (d d0 : Nat)
    (h4 : dev.pwm_chan_count ≤ STM32_PWM_CH_MAX)
    (ha : a < STM32_PWM_CH_MAX) (hb : b < dev.pwm_chan_count) (hab : a ≠ b)
    (hena : (pwm.ch a).enabled ≠ 0) (hcfa : (pwm.ch a).configure = 0)
    (hc : c < dev.pwm_chan_count)
    (hfresh : ∀ i, i < STM32_PWM_CH_MAX → (pwm0.ch i).config = STM32_PWM_CH_DISABLED)
    (hok : (stm32_pwm_configure_channel hal dev pwm0 c cfg0).1 = Rc.ok) :
    ((((∃ i, i < STM32_PWM_CH_MAX ∧ counts_enabled (s.ch i) = true) ∧
        ∀ i, i < STM32_PWM_CH_MAX → counts_enabled (s.ch i) = true →
          counts_configured update_all (s.ch i) = true) →
      (stm32_pwm_update_channels s update_all).2 =
        LL_TIM_EnableCounter (LL_TIM_GenerateEvent_UPDATE
          (LL_TIM_SetCounter (stm32_pwm_update_channels_loop s update_all).pwm 0)) ∧
      restart_calls (stm32_pwm_update_channels s update_all).2.trace =
        restart_calls s.trace + 3 ∧
      (stm32_pwm_update_channels s update_all).2.timx.CNT = 0 ∧
      (stm32_pwm_update_channels s update_all).2.timx.CR1_CEN = true) ∧
     (¬ ((∃ i, i < STM32_PWM_CH_MAX ∧ counts_enabled (s.ch i) = true) ∧
        ∀ i, i < STM32_PWM_CH_MAX → counts_enabled (s.ch i) = true →
          counts_configured update_all (s.ch i) = true) →
      restart_calls (stm32_pwm_update_channels s update_all).2.trace = restart_calls s.trace ∧
      (stm32_pwm_update_channels s update_all).2.timx.CNT = s.timx.CNT)) ∧
    (restart_calls (stm32_pwm_configure_channel hal dev pwm b cfg).2.trace =
        restart_calls pwm.trace ∧
      (stm32_pwm_configure_channel hal dev pwm b cfg).2.timx.CNT = pwm.timx.CNT ∧
      (stm32_pwm_configure_channel hal dev pwm b cfg).2.timx.CR1_CEN = pwm.timx.CR1_CEN ∧
      restart_calls (stm32_pwm_enable_duty_cycle dev
          (stm32_pwm_configure_channel hal dev pwm b cfg).2 b d).2.trace =
        restart_calls pwm.trace ∧
      (stm32_pwm_enable_duty_cycle dev
          (stm32_pwm_configure_channel hal dev pwm b cfg).2 b d).2.timx.CNT = pwm.timx.CNT ∧
      (stm32_pwm_enable_duty_cycle dev
          (stm32_pwm_configure_channel hal dev pwm b cfg).2 b d).2.timx.CR1_CEN =
        pwm.timx.CR1_CEN) ∧
    (restart_calls (stm32_pwm_configure_channel hal dev pwm0 c cfg0).2.trace =
        restart_calls pwm0.trace ∧
      (stm32_pwm_configure_channel hal dev pwm0 c cfg0).2.timx.CR1_CEN = pwm0.timx.CR1_CEN ∧
      restart_calls (stm32_pwm_enable_duty_cycle dev
          (stm32_pwm_configure_channel hal dev pwm0 c cfg0).2 c d0).2.trace =
        restart_calls (stm32_pwm_configure_channel hal dev pwm0 c cfg0).2.trace + 3 ∧
      (stm32_pwm_enable_duty_cycle dev
          (stm32_pwm_configure_channel hal dev pwm0 c cfg0).2 c d0).2.timx.CNT = 0 ∧
      (stm32_pwm_enable_duty_cycle dev
          (stm32_pwm_configure_channel hal dev pwm0 c cfg0).2 c d0).2.timx.CR1_CEN = true) := by
  refine ⟨⟨fun hcond => ?_, fun hn => ?_⟩, ?_, cold_start hal dev pwm0 c cfg0 d0 h4 hc hfresh hok⟩
  · have hout := (commit_outcome s update_all).1 hcond
    rw [hout]
    refine ⟨rfl, ?_, rfl, rfl⟩
    rw [restart_calls_three, (update_loop_counts s update_all).2.2.1]
  · obtain ⟨-, -, ht, hcnt, -⟩ := update_loop_counts s update_all
    by_cases hex : ∃ i, i < STM32_PWM_CH_MAX ∧ counts_enabled (s.ch i) = true
    · have hout := (commit_outcome s update_all).2.1 hex (fun h => hn ⟨hex, h⟩)
      rw [hout]
      exact ⟨ht, hcnt⟩
    · have hout := (commit_outcome s update_all).2.2 hex
      rw [hout]
      refine ⟨?_, hcnt⟩
      simp only [LL_TIM_DisableCounter, emit_trace, restart_calls_append]
      rw [ht]
      rfl
  · obtain ⟨h1, h2, h3, h4a, h5⟩ :=
      configure_no_restart_of_running hal dev pwm a b cfg ha hb hab hena hcfa
    refine ⟨h1, h2, h3, ?_⟩
    rw [enable_eq dev _ b d hb]
    generalize (stm32_pwm_configure_channel hal dev pwm b cfg).2 = s1 at h1 h2 h3 h4a h5
    have hcha : (s1.setCh b ((((s1.ch b).set_duty d).set_update 1).set_enabled 1)).ch a =
        s1.ch a := setCh_ch_other _ _ _ _ hab
    obtain ⟨g1, g2, g3, -, -⟩ := commit_no_restart_of_running
      (s1.setCh b ((((s1.ch b).set_duty d).set_update 1).set_enabled 1)) false a ha
      (by rw [hcha]; exact h4a) (by rw [hcha]; exact h5)
    refine ⟨?_, ?_, ?_⟩
    · rw [g1, setCh_trace, h1]
    · rw [g2, setCh_timx, h2]
    · rw [g3, setCh_timx, h3]

theorem C7_witness :
    (dev4.pwm_chan_count ≤ STM32_PWM_CH_MAX ∧ 0 < STM32_PWM_CH_MAX ∧ 1 < dev4.pwm_chan_count ∧
      0 ≠ 1 ∧ (demo_running.ch 0).enabled ≠ 0 ∧ (demo_running.ch 0).configure = 0 ∧
      0 < dev4.pwm_chan_count ∧
      (∀ i, i < STM32_PWM_CH_MAX → (stm32_pwm_dev_fresh.ch i).config = STM32_PWM_CH_DISABLED) ∧
      (stm32_pwm_configure_channel hal_ok dev4 stm32_pwm_dev_fresh 0 demo_cfg).1 = Rc.ok) ∧
    (restart_calls (stm32_pwm_configure_channel hal_ok dev4 demo_running 1 demo_cfg).2.trace =
        restart_calls demo_running.trace ∧
      restart_calls (stm32_pwm_enable_duty_cycle dev4
          (stm32_pwm_configure_channel hal_ok dev4 demo_running 1 demo_cfg).2 1 100).2.trace =
        restart_calls demo_running.trace ∧
      restart_calls (stm32_pwm_enable_duty_cycle dev4
          (stm32_pwm_configure_channel hal_ok dev4 stm32_pwm_dev_fresh 0 demo_cfg).2 0 200).2.trace =
        restart_calls (stm32_pwm_configure_channel hal_ok dev4 stm32_pwm_dev_fresh 0
          demo_cfg).2.trace + 3) :=
  ⟨by decide,
    (C7_commit_restart_policy hal_ok dev4 demo_running demo_running stm32_pwm_dev_fresh false
      0 1 0 demo_cfg demo_cfg 100 200 (by decide) (by decide) (by decide) (by decide)
      (by decide) (by decide) (by decide) (by decide) (by decide)).2.1.1,
    (C7_commit_restart_policy hal_ok dev4 demo_running demo_running stm32_pwm_dev_fresh false
      0 1 0 demo_cfg demo_cfg 100 200 (by decide) (by decide) (by decide) (by decide)
      (by decide) (by decide) (by decide) (by decide) (by decide)).2.1.2.2.2.1,
    (C7_commit_restart_policy hal_ok dev4 demo_running demo_running stm32_pwm_dev_fresh false
      0 1 0 demo_cfg demo_cfg 100 200 (by decide) (by decide) (by decide) (by decide)
      (by decide) (by decide) (by decide) (by decide) (by decide)).2.2.2.2.1⟩

/-! ## Disable -/

/-- C8, the code at the failing input: channel 0 is configured and enabled on a
fresh four-channel device, which starts the counter; after
`stm32_pwm_disable(0)` returns OK every slot is the disabled word and the counter
is still running; likewise after the three period-elapsed events that end the
three-pulse sequence of channel 0 (no sequence callback, automatic disable). -/
theorem C8_counter_runs_with_no_channel :
    stm32_pwm_dev_fresh.timx.CR1_CEN = false ∧
    demo_running.timx.CR1_CEN = true ∧
    (stm32_pwm_disable hal_ok dev4 demo_running 0).1 = Rc.ok ∧
    (∀ i, i < STM32_PWM_CH_MAX →
      ((stm32_pwm_disable hal_ok dev4 demo_running 0).2.ch i).config = STM32_PWM_CH_DISABLED ∧
      ((stm32_pwm_disable hal_ok dev4 demo_running 0).2.ch i).enabled = 0) ∧
    (stm32_pwm_disable hal_ok dev4 demo_running 0).2.timx.CR1_CEN = true ∧
    (∀ i, i < STM32_PWM_CH_MAX →
      (((period_elapsed hal_ok)^[3] demo_running).ch i).config = STM32_PWM_CH_DISABLED ∧
      (((period_elapsed hal_ok)^[3] demo_running).ch i).enabled = 0) ∧
    ((period_elapsed hal_ok)^[3] demo_running).timx.CR1_CEN = true := by
  decide

/-- C9 fails as stated: channel 0 has pin 5 assigned and the pin-mux call
fails; `stm32_pwm_disable(0)` returns the PinAssignment error and the record is
not the disabled word: it is the record from before the call, still enabled. -/
theorem C9_counterexample :
    stm32_pwm_has_assigned_pin (demo_running.ch 0) = true ∧
    (stm32_pwm_disable hal_fail dev4 demo_running 0).1 = Rc.pinmux ∧
    ((stm32_pwm_disable hal_fail dev4 demo_running 0).2.ch 0).config ≠ STM32_PWM_CH_DISABLED ∧
    (stm32_pwm_disable hal_fail dev4 demo_running 0).2.ch 0 = demo_running.ch 0 ∧
    ((stm32_pwm_disable hal_fail dev4 demo_running 0).2.ch 0).enabled ≠ 0 := by
  decide

/-- C9, amended: for a valid channel index, `stm32_pwm_disable` returns OK and
leaves the disabled word in the record when the channel has no assigned pin or
the pin-mux call succeeds; when the channel has an assigned pin and the pin-mux
call fails, it returns the PinAssignment error and every channel record is as
it was before the call. Other slots are never changed. -/
theorem C9_disable_record (hal : Hal) (dev : pwm_dev) (pwm : stm32_pwm_dev_t) (cnum : Nat)
    (hc : cnum < dev.pwm_chan_count) :
    ((stm32_pwm_has_assigned_pin (pwm.ch cnum) = true ∧
        hal (pwm.trace ++ [Ev.CC_DisableChannel (stm32_pwm_ch cnum)]) (pwm.ch cnum).pin 0 ≠ 0) →
      (stm32_pwm_disable hal dev pwm cnum).1 = Rc.pinmux ∧
      (stm32_pwm_disable hal dev pwm cnum).2.ch = pwm.ch) ∧
    (¬ (stm32_pwm_has_assigned_pin (pwm.ch cnum) = true ∧
        hal (pwm.trace ++ [Ev.CC_DisableChannel (stm32_pwm_ch cnum)]) (pwm.ch cnum).pin 0 ≠ 0) →
      (stm32_pwm_disable hal dev pwm cnum).1 = Rc.ok ∧
      ((stm32_pwm_disable hal dev pwm cnum).2.ch cnum).config = STM32_PWM_CH_DISABLED) ∧
    (∀ j, j ≠ cnum → (stm32_pwm_disable hal dev pwm cnum).2.ch j = pwm.ch j) := by
  unfold stm32_pwm_disable
  rw [if_neg (by omega)]
  refine ⟨fun hfail => ?_, fun hnf => ?_, fun j hj => disable_ch_other hal pwm cnum j hj⟩
  · unfold stm32_pwm_disable_ch hal_gpio_init_af
    simp only [CC_DisableChannel_ch, CC_DisableChannel_trace]
    rw [if_pos hfail.1, if_pos hfail.2]
    exact ⟨rfl, rfl⟩
  · unfold stm32_pwm_disable_ch hal_gpio_init_af
    simp only [CC_DisableChannel_ch, CC_DisableChannel_trace]
    by_cases hap : stm32_pwm_has_assigned_pin (pwm.ch cnum) = true
    · rw [if_pos hap, if_neg (fun h => hnf ⟨hap, h⟩)]
      refine ⟨rfl, ?_⟩
      simp [stm32_pwm_ch_t.set_config, STM32_PWM_CH_DISABLED]
    · rw [if_neg hap]
      refine ⟨rfl, ?_⟩
      simp [stm32_pwm_ch_t.set_config, STM32_PWM_CH_DISABLED]

theorem C9_witness :
    (0 < dev4.pwm_chan_count) ∧
    (¬ (stm32_pwm_has_assigned_pin (demo_running.ch 0) = true ∧
        hal_ok (demo_running.trace ++ [Ev.CC_DisableChannel (stm32_pwm_ch 0)])
          (demo_running.ch 0).pin 0 ≠ 0) →
      (stm32_pwm_disable hal_ok dev4 demo_running 0).1 = Rc.ok ∧
      ((stm32_pwm_disable hal_ok dev4 demo_running 0).2.ch 0).config = STM32_PWM_CH_DISABLED) :=
  ⟨by decide, (C9_disable_record hal_ok dev4 demo_running 0 (by decide)).2.1⟩

/-! ## Channel index validation -/

theorem disable_ch_rc (hal : Hal) (pwm : stm32_pwm_dev_t) (cnum : Nat) :
    (stm32_pwm_disable_ch hal pwm cnum).1 ≠ Rc.chan := by
  unfold stm32_pwm_disable_ch
  simp only []
  split_ifs <;> simp

/-- C11: each of `stm32_pwm_configure_channel`, `stm32_pwm_enable_duty_cycle` and
`stm32_pwm_disable` returns the Channel error exactly when the channel index is
not below the channel count of the device (whatever the count, in particular
1, 2 or 4), and in that case the whole device state is as before: every
channel record, every timer register, and the trace of calls (no pin-mux call,
no timer call). -/
theorem C11_channel_index_validated (hal : Hal) (dev : pwm_dev) (pwm : stm32_pwm_dev_t)
    (cnum : Nat) (cfg : pwm_chan_cfg) (fraction : Nat) :
    (((stm32_pwm_configure_channel hal dev pwm cnum cfg).1 = Rc.chan ↔
        cnum ≥ dev.pwm_chan_count) ∧
      (cnum ≥ dev.pwm_chan_count →
        (stm32_pwm_configure_channel hal dev pwm cnum cfg).2 = pwm)) ∧
    (((stm32_pwm_enable_duty_cycle dev pwm cnum fraction).1 = Rc.chan ↔
        cnum ≥ dev.pwm_chan_count) ∧
      (cnum ≥ dev.pwm_chan_count →
        (stm32_pwm_enable_duty_cycle dev pwm cnum fraction).2 = pwm)) ∧
    (((stm32_pwm_disable hal dev pwm cnum).1 = Rc.chan ↔ cnum ≥ dev.pwm_chan_count) ∧
      (cnum ≥ dev.pwm_chan_count → (stm32_pwm_disable hal dev pwm cnum).2 = pwm)) := by
  by_cases hc : cnum ≥ dev.pwm_chan_count
  · refine ⟨⟨?_, ?_⟩, ⟨?_, ?_⟩, ⟨?_, ?_⟩⟩
    · unfold stm32_pwm_configure_channel
      rw [if_pos hc]
      exact ⟨fun _ => hc, fun _ => rfl⟩
    · intro _
      unfold stm32_pwm_configure_channel
      rw [if_pos hc]
    · unfold stm32_pwm_enable_duty_cycle
      rw [if_pos hc]
      exact ⟨fun _ => hc, fun _ => rfl⟩
    · intro _
      unfold stm32_pwm_enable_duty_cycle
      rw [if_pos hc]
    · unfold stm32_pwm_disable
      rw [if_pos hc]
      exact ⟨fun _ => hc, fun _ => rfl⟩
    · intro _
      unfold stm32_pwm_disable
      rw [if_pos hc]
  · have hlt : cnum < dev.pwm_chan_count := by omega
    refine ⟨⟨⟨fun h => ?_, fun h => absurd h hc⟩, fun h => absurd h hc⟩,
      ⟨⟨fun h => ?_, fun h => absurd h hc⟩, fun h => absurd h hc⟩,
      ⟨⟨fun h => ?_, fun h => absurd h hc⟩, fun h => absurd h hc⟩⟩
    · exfalso
      obtain ⟨q, -, -, -, hres⟩ := configure_channel_cases hal dev pwm cnum cfg hlt
      rcases hres with h1 | h1
      · rw [h1] at h
        simp at h
      · rw [h1, update_channels_rc] at h
        simp at h
    · exfalso
      rw [enable_eq dev pwm cnum fraction hlt, update_channels_rc] at h
      simp at h
    · exfalso
      unfold stm32_pwm_disable at h
      rw [if_neg hc] at h
      exact disable_ch_rc hal pwm cnum h

/-! ## Idempotence of disable -/

/-- A successful `stm32_pwm_disable` leaves the disabled word in the record. -/
theorem disable_ok_record (hal : Hal) (dev : pwm_dev) (pwm : stm32_pwm_dev_t) (cnum : Nat)
    (hc : cnum < dev.pwm_chan_count) (hok : (stm32_pwm_disable hal dev pwm cnum).1 = Rc.ok) :
    ((stm32_pwm_disable hal dev pwm cnum).2.ch cnum).config = STM32_PWM_CH_DISABLED := by
  unfold stm32_pwm_disable at hok ⊢
  rw [if_neg (by omega)] at hok ⊢
  unfold stm32_pwm_disable_ch at hok ⊢
  simp only [] at hok ⊢
  split_ifs at hok ⊢ <;> simp [stm32_pwm_ch_t.set_config, STM32_PWM_CH_DISABLED]

/-- C12: on a valid channel index whose record holds the disabled word,
`stm32_pwm_disable` returns OK, makes no pin-mux call (the only call is the
switch-off of the channel output) and leaves every channel record as it was,
so the record still holds the disabled word; hence after any successful
`stm32_pwm_disable` a second one succeeds and yields the same channel records. -/
theorem C12_disable_idempotent (hal hal2 : Hal) (dev : pwm_dev) (pwm s : stm32_pwm_dev_t)
    (cnum : Nat) (hc : cnum < dev.pwm_chan_count)
    (hdis : (pwm.ch cnum).config = STM32_PWM_CH_DISABLED)
    (hok : (stm32_pwm_disable hal dev s cnum).1 = Rc.ok) :
    ((stm32_pwm_disable hal dev pwm cnum).1 = Rc.ok ∧
      (stm32_pwm_disable hal dev pwm cnum).2.trace =
        pwm.trace ++ [Ev.CC_DisableChannel (stm32_pwm_ch cnum)] ∧
      (stm32_pwm_disable hal dev pwm cnum).2.ch = pwm.ch ∧
      ((stm32_pwm_disable hal dev pwm cnum).2.ch cnum).config = STM32_PWM_CH_DISABLED) ∧
    ((stm32_pwm_disable hal2 dev (stm32_pwm_disable hal dev s cnum).2 cnum).1 = Rc.ok ∧
      (stm32_pwm_disable hal2 dev (stm32_pwm_disable hal dev s cnum).2 cnum).2.ch =
        (stm32_pwm_disable hal dev s cnum).2.ch) := by
  have key : ∀ (h : Hal) (p : stm32_pwm_dev_t), (p.ch cnum).config = STM32_PWM_CH_DISABLED →
      (stm32_pwm_disable h dev p cnum).1 = Rc.ok ∧
      (stm32_pwm_disable h dev p cnum).2.trace =
        p.trace ++ [Ev.CC_DisableChannel (stm32_pwm_ch cnum)] ∧
      (stm32_pwm_disable h dev p cnum).2.ch = p.ch ∧
      ((stm32_pwm_disable h dev p cnum).2.ch cnum).config = STM32_PWM_CH_DISABLED := by
    intro h p hp
    have hnp : ¬ stm32_pwm_has_assigned_pin (p.ch cnum) = true := by
      unfold stm32_pwm_has_assigned_pin
      rw [(disabled_fields _ hp).2.2.2.2.1]
      simp
    have hrec : (p.ch cnum).set_config STM32_PWM_CH_DISABLED = p.ch cnum := by
      unfold stm32_pwm_ch_t.set_config
      cases hq : p.ch cnum
      rw [hq] at hp
      simp only at hp
      simp [hp, STM32_PWM_CH_DISABLED]
    unfold stm32_pwm_disable
    rw [if_neg (by omega)]
    unfold stm32_pwm_disable_ch
    simp only [CC_DisableChannel_ch]
    rw [if_neg hnp, hrec]
    refine ⟨rfl, rfl, ?_, ?_⟩
    · funext k
      by_cases hk : k = cnum
      · rw [hk, setCh_ch_same]
      · rw [setCh_ch_other _ _ _ _ hk]
        rfl
    · rw [setCh_ch_same]
      exact hp
  refine ⟨key hal pwm hdis, ?_⟩
  have hfirst : ((stm32_pwm_disable hal dev s cnum).2.ch cnum).config = STM32_PWM_CH_DISABLED :=
    disable_ok_record hal dev s cnum hc hok
  obtain ⟨k1, -, k3, -⟩ := key hal2 _ hfirst
  exact ⟨k1, k3⟩

theorem C12_witness :
    (0 < dev4.pwm_chan_count ∧
      (stm32_pwm_dev_fresh.ch 0).config = STM32_PWM_CH_DISABLED ∧
      (stm32_pwm_disable hal_ok dev4 demo_running 0).1 = Rc.ok) ∧
    (((stm32_pwm_disable hal_ok dev4 stm32_pwm_dev_fresh 0).1 = Rc.ok ∧
      (stm32_pwm_disable hal_ok dev4 stm32_pwm_dev_fresh 0).2.trace =
        stm32_pwm_dev_fresh.trace ++ [Ev.CC_DisableChannel (stm32_pwm_ch 0)] ∧
      (stm32_pwm_disable hal_ok dev4 stm32_pwm_dev_fresh 0).2.ch = stm32_pwm_dev_fresh.ch ∧
      ((stm32_pwm_disable hal_ok dev4 stm32_pwm_dev_fresh 0).2.ch 0).config =
        STM32_PWM_CH_DISABLED) ∧
    ((stm32_pwm_disable hal_fail dev4 (stm32_pwm_disable hal_ok dev4 demo_running 0).2 0).1 =
        Rc.ok ∧
      (stm32_pwm_disable hal_fail dev4 (stm32_pwm_disable hal_ok dev4 demo_running 0).2 0).2.ch =
        (stm32_pwm_disable hal_ok dev4 demo_running 0).2.ch)) :=
  ⟨by decide, C12_disable_idempotent hal_ok hal_fail dev4 stm32_pwm_dev_fresh demo_running 0
    (by decide) (by decide) (by decide)⟩

/-! ## The swap of the divisor computation -/

/-- C19: for a quotient `div` with `1 ≤ div < 2^32`, `div >> 16` is at most
`div / ((div >> 16) + 1)`, so the exchange of `div1` and `div2` is never made
and the pair computed is `(div >> 16, div / ((div >> 16) + 1) - 1)`; hence on a
32-bit clock and a frequency between 1 and the clock `stm32_pwm_set_frequency`
leaves exactly these two values of `div = clock / freq` in the prescaler and in
the reload register. -/
theorem C19_swap_never_taken (div clock freq : Nat) (pwm : stm32_pwm_dev_t)
    (h1 : 1 ≤ div) (h32 : div < 2 ^ 32)
    (hc32 : clock < 2 ^ 32) (hf1 : 1 ≤ freq) (hf2 : freq ≤ clock) :
    (div >>> 16 ≤ div / (div >>> 16 + 1) ∧
      ¬ (div >>> 16 > div / (div >>> 16 + 1)) ∧
      stm32_pwm_divisors div = (div >>> 16, div / (div >>> 16 + 1) - 1)) ∧
    ((stm32_pwm_set_frequency clock pwm freq).2.timx.PSC = (clock / freq) >>> 16 ∧
      (stm32_pwm_set_frequency clock pwm freq).2.timx.ARR =
        (clock / freq) / ((clock / freq) >>> 16 + 1) - 1) := by
  have hs : ∀ d : Nat, d >>> 16 = d / 65536 := fun d => by
    rw [Nat.shiftRight_eq_div_pow]
  rw [hs div, hs (clock / freq)]
  have hns := divisors_no_swap div h32
  obtain ⟨-, hp, ha⟩ := set_frequency_regs clock freq pwm hc32 hf1 hf2
  exact ⟨⟨hns, by omega, divisors_eq div h1 h32⟩, hp, ha⟩

theorem C19_witness :
    (1 ≤ 4294967295 ∧ 4294967295 < 2 ^ 32 ∧ 72000000 < 2 ^ 32 ∧ 1 ≤ 1000 ∧ 1000 ≤ 72000000) ∧
    ((4294967295 >>> 16 ≤ 4294967295 / (4294967295 >>> 16 + 1) ∧
      ¬ (4294967295 >>> 16 > 4294967295 / (4294967295 >>> 16 + 1)) ∧
      stm32_pwm_divisors 4294967295 =
        (4294967295 >>> 16, 4294967295 / (4294967295 >>> 16 + 1) - 1)) ∧
    ((stm32_pwm_set_frequency 72000000 stm32_pwm_dev_fresh 1000).2.timx.PSC =
        (72000000 / 1000) >>> 16 ∧
      (stm32_pwm_set_frequency 72000000 stm32_pwm_dev_fresh 1000).2.timx.ARR =
        (72000000 / 1000) / ((72000000 / 1000) >>> 16 + 1) - 1)) :=
  ⟨by decide, C19_swap_never_taken 4294967295 72000000 1000 stm32_pwm_dev_fresh
    (by decide) (by decide) (by decide) (by decide) (by decide)⟩

/-! ## Resolution query -/

theorem and_two_pow_ne_zero (p k : Nat) : p &&& 2 ^ k ≠ 0 ↔ p.testBit k = true := by
  constructor
  · intro h
    by_contra hb
    apply h
    apply Nat.eq_of_testBit_eq
    intro i
    rw [Nat.testBit_and, Nat.testBit_two_pow, Nat.zero_testBit]
    by_cases hki : k = i
    · subst hki
      simp [hb]
    · simp [hki]
  · intro hb h
    have h2 : (p &&& 2 ^ k).testBit k = true := by
      rw [Nat.testBit_and, Nat.testBit_two_pow_self, hb]
      rfl
    rw [h, Nat.zero_testBit] at h2
    exact absurd h2 (by decide)

theorem lt_two_pow_of_bit_clear (p k : Nat) (hlt : p < 2 ^ (k + 1)) (hb : ¬ p.testBit k = true) :
    p < 2 ^ k := by
  apply Nat.lt_pow_two_of_testBit
  intro i hi
  rcases Nat.eq_or_lt_of_le hi with h | h
  · rw [← h]
    simpa using hb
  · exact Nat.testBit_lt_two_pow (lt_of_lt_of_le hlt (Nat.pow_le_pow_right (by decide) h))

/-- The scan entered at `bit = n` on a period below `2^(n+1)`: zero for a zero
period, otherwise the position of the highest set bit plus one. -/
theorem resolution_scan_spec (p : Nat) : ∀ n : Nat, p < 2 ^ (n + 1) →
    (p = 0 → stm32_pwm_resolution_scan p n = 0) ∧
    (0 < p → ∃ r : Nat, stm32_pwm_resolution_scan p n = (r : Int) ∧ 1 ≤ r ∧
      2 ^ (r - 1) ≤ p ∧ p < 2 ^ r) := by
  intro n
  induction n with
  | zero =>
    intro hlt
    unfold stm32_pwm_resolution_scan
    constructor
    · intro h0
      simp [h0]
    · intro hpos
      have h1 : p = 1 := by omega
      refine ⟨1, by simp [h1], le_refl 1, by simp [h1], by simp [h1]⟩
  | succ b ih =>
    intro hlt
    unfold stm32_pwm_resolution_scan
    rw [Nat.one_shiftLeft]
    by_cases hbit : p &&& 2 ^ (b + 1) ≠ 0
    · rw [if_pos hbit]
      have hge : p ≥ 2 ^ (b + 1) := Nat.testBit_implies_ge ((and_two_pow_ne_zero p (b + 1)).1 hbit)
      have hpos : 0 < 2 ^ (b + 1) := Nat.pow_pos (by decide)
      constructor
      · intro h0
        omega
      · intro _
        exact ⟨b + 1 + 1, rfl, by omega, hge, hlt⟩
    · rw [if_neg hbit]
      have hclear : ¬ p.testBit (b + 1) = true := fun h => hbit ((and_two_pow_ne_zero p (b + 1)).2 h)
      exact ih (lt_two_pow_of_bit_clear p (b + 1) hlt hclear)

/-- The scan returns zero only for a zero period. -/
theorem resolution_scan_eq_zero (p : Nat) : ∀ n : Nat,
    (stm32_pwm_resolution_scan p n = 0 ↔ p = 0) := by
  intro n
  induction n with
  | zero =>
    unfold stm32_pwm_resolution_scan
    by_cases h0 : p = 0
    · simp [h0]
    · simp [h0]
  | succ b ih =>
    unfold stm32_pwm_resolution_scan
    by_cases hbit : p &&& 0x01 <<< (b + 1) ≠ 0
    · rw [if_pos hbit]
      constructor
      · intro h
        have : (b + 1 + 1 : Nat) = 0 := by exact_mod_cast h
        omega
      · intro h0
        rw [h0] at hbit
        simp at hbit
    · rw [if_neg hbit]
      exact ih

/-- The period read by `stm32_pwm_get_resolution_bits` is the reload value. -/
theorem resolution_period (pwm : stm32_pwm_dev_t) (h : pwm.timx.ARR < 2 ^ 32) :
    ((stm32_pwm_get_top_value pwm - 1) % 2 ^ 32).toNat = pwm.timx.ARR := by
  unfold stm32_pwm_get_top_value LL_TIM_GetAutoReload toInt32
  split_ifs <;> omega

/-- C15: `stm32_pwm_get_resolution_bits` returns the number of significant bits of the
reload value `p = ARR`: for `1 ≤ p ≤ 65535` the result `r` satisfies
`2^(r-1) ≤ p < 2^r`; the result is 0 exactly when `p = 0`; and for `p = 999`
the result is 10. -/
theorem C15_resolution_bits (pwm : stm32_pwm_dev_t) (h32 : pwm.timx.ARR < 2 ^ 32) :
    (1 ≤ pwm.timx.ARR → pwm.timx.ARR ≤ 65535 →
      ∃ r : Nat, stm32_pwm_get_resolution_bits pwm = (r : Int) ∧
        2 ^ (r - 1) ≤ pwm.timx.ARR ∧ pwm.timx.ARR < 2 ^ r) ∧
    (stm32_pwm_get_resolution_bits pwm = 0 ↔ pwm.timx.ARR = 0) ∧
    (pwm.timx.ARR = 999 → stm32_pwm_get_resolution_bits pwm = 10) := by
  have hres : stm32_pwm_get_resolution_bits pwm =
      stm32_pwm_resolution_scan pwm.timx.ARR 15 := by
    unfold stm32_pwm_get_resolution_bits
    simp only []
    rw [resolution_period pwm h32]
  rw [hres]
  refine ⟨fun h1 h16 => ?_, resolution_scan_eq_zero _ 15, fun h999 => ?_⟩
  · obtain ⟨r, hr, -, hlo, hhi⟩ :=
      (resolution_scan_spec pwm.timx.ARR 15 (by omega)).2 (by omega)
    exact ⟨r, hr, hlo, hhi⟩
  · rw [h999]
    decide

theorem C15_witness :
    ((stm32_pwm_set_frequency 72000000 stm32_pwm_dev_fresh 72000).2.timx.ARR < 2 ^ 32) ∧
    ((stm32_pwm_set_frequency 72000000 stm32_pwm_dev_fresh 72000).2.timx.ARR = 999 →
      stm32_pwm_get_resolution_bits (stm32_pwm_set_frequency 72000000 stm32_pwm_dev_fresh 72000).2 =
        10) :=
  ⟨by decide, (C15_resolution_bits (stm32_pwm_set_frequency 72000000 stm32_pwm_dev_fresh 72000).2
    (by decide)).2.2⟩

/-! ## Per-cycle callback -/

/-- Loop body on its own slot, countdown branch: the per-cycle callback, when
registered, is invoked once. -/
theorem isr_ch_countdown_cycle_calls (hal : Hal) (s : stm32_pwm_dev_t) (j : Nat)
    (hen : (s.ch j).enabled ≠ 0) (hc : (s.ch j).cycle ≠ 1) :
    cycle_calls j (stm32_pwm_isr_ch hal j s).trace =
      cycle_calls j s.trace + (if (s.ch j).cycle_callback ≠ 0 then 1 else 0) := by
  have h1 : (if (s.ch j).cycle ≠ 0 then s.setCh j { s.ch j with cycle := (s.ch j).cycle - 1 }
      else s).trace = s.trace := by
    split_ifs <;> rfl
  unfold stm32_pwm_isr_ch
  simp only []
  rw [if_pos hen, if_neg (fun h => hc h.symm)]
  by_cases hcb : (s.ch j).cycle_callback = 0
  · rw [if_neg (not_not.2 hcb), if_neg (not_not.2 hcb), h1]
    rfl
  · rw [if_pos hcb, if_pos hcb, emit_trace, cycle_calls_append, h1]
    simp [cycle_calls]

/-- Loop body on its own slot, last pulse (`cycle = 1`): the per-cycle callback
is not invoked. -/
theorem isr_ch_last_cycle_calls (hal : Hal) (s : stm32_pwm_dev_t) (j : Nat)
    (hen : (s.ch j).enabled ≠ 0) (hc : (s.ch j).cycle = 1) :
    cycle_calls j (stm32_pwm_isr_ch hal j s).trace = cycle_calls j s.trace := by
  unfold stm32_pwm_isr_ch
  simp only []
  rw [if_pos hen, if_pos hc.symm]
  by_cases hcb : (s.ch j).sequence_callback = 0
  · rw [if_neg (not_not.2 hcb), disable_ch_cycle_calls, setCh_trace]
  · rw [if_pos hcb, emit_trace, cycle_calls_append, setCh_trace]
    rfl

/-- One period-elapsed event and the per-cycle callback of an enabled slot. -/
theorem period_elapsed_cycle_calls (hal : Hal) (s : stm32_pwm_dev_t) (j : Nat)
    (hj : j < STM32_PWM_CH_MAX) (hen : (s.ch j).enabled ≠ 0) :
    ((s.ch j).cycle ≠ 1 →
      cycle_calls j (period_elapsed hal s).trace =
        cycle_calls j s.trace + (if (s.ch j).cycle_callback ≠ 0 then 1 else 0)) ∧
    ((s.ch j).cycle = 1 →
      cycle_calls j (period_elapsed hal s).trace = cycle_calls j s.trace) := by
  obtain ⟨s1, h1, -, h3, -, -, h6⟩ := period_elapsed_slot hal s j hj
  constructor
  · intro hc
    rw [h6, isr_ch_countdown_cycle_calls hal s1 j (by rw [h1]; exact hen) (by rw [h1]; exact hc),
      h3, h1]
  · intro hc
    rw [h6, isr_ch_last_cycle_calls hal s1 j (by rw [h1]; exact hen) (by rw [h1]; exact hc), h3]

/-- One period-elapsed event on an enabled slot that is not on its last pulse:
the record counts down (a zero `cycle` stays zero) and the sequence callback is
not invoked. -/
theorem period_elapsed_countdown (hal : Hal) (s : stm32_pwm_dev_t) (j : Nat)
    (hj : j < STM32_PWM_CH_MAX) (hen : (s.ch j).enabled ≠ 0) (hc : (s.ch j).cycle ≠ 1) :
    (period_elapsed hal s).ch j = { s.ch j with cycle := (s.ch j).cycle - 1 } ∧
    seq_calls j (period_elapsed hal s).trace = seq_calls j s.trace := by
  obtain ⟨s1, h1, h2, -, h4, h5, -⟩ := period_elapsed_slot hal s j hj
  obtain ⟨h6, h7⟩ := isr_ch_countdown hal s1 j (by rw [h1]; exact hen) (by rw [h1]; exact hc)
  exact ⟨by rw [h4, h6, h1], by rw [h5, h7, h2]⟩

/-- C13: for an enabled channel with `cycle = 0` (an unbounded sequence,
`cycle_count = 0`) and callbacks that leave the driver state alone, after any
number `k` of period-elapsed events the per-cycle callback, if registered, has
been invoked exactly `k` times, the sequence callback has not been invoked, and
the record is the initial one: still enabled, `cycle` still 0. -/
theorem C13_unbounded_sequence (hal : Hal) (pwm : stm32_pwm_dev_t) (j k : Nat)
    (hj : j < STM32_PWM_CH_MAX) (hen : (pwm.ch j).enabled ≠ 0)
    (hcc : (pwm.ch j).cycle_count = 0) (hc : (pwm.ch j).cycle = 0) :
    ((pwm.ch j).cycle_callback ≠ 0 →
      cycle_calls j ((period_elapsed hal)^[k] pwm).trace = cycle_calls j pwm.trace + k) ∧
    seq_calls j ((period_elapsed hal)^[k] pwm).trace = seq_calls j pwm.trace ∧
    (((period_elapsed hal)^[k] pwm).ch j).enabled ≠ 0 ∧
    (((period_elapsed hal)^[k] pwm).ch j).cycle = 0 ∧
    (((period_elapsed hal)^[k] pwm).ch j).cycle_count = 0 ∧
    ((period_elapsed hal)^[k] pwm).ch j = pwm.ch j := by
  have key : ((period_elapsed hal)^[k] pwm).ch j = pwm.ch j ∧
      seq_calls j ((period_elapsed hal)^[k] pwm).trace = seq_calls j pwm.trace ∧
      cycle_calls j ((period_elapsed hal)^[k] pwm).trace =
        cycle_calls j pwm.trace + k * (if (pwm.ch j).cycle_callback ≠ 0 then 1 else 0) := by
    induction k with
    | zero => exact ⟨rfl, rfl, by simp⟩
    | succ k ih =>
      obtain ⟨ih1, ih2, ih3⟩ := ih
      rw [Function.iterate_succ_apply']
      have hen1 : (((period_elapsed hal)^[k] pwm).ch j).enabled ≠ 0 := by
        rw [ih1]
        exact hen
      have hc1 : (((period_elapsed hal)^[k] pwm).ch j).cycle ≠ 1 := by
        rw [ih1, hc]
        decide
      obtain ⟨g1, g2⟩ := period_elapsed_countdown hal _ j hj hen1 hc1
      have g3 := (period_elapsed_cycle_calls hal _ j hj hen1).1 hc1
      refine ⟨?_, ?_, ?_⟩
      · rw [g1, ih1]
        exact record_cycle_zero _ hc
      · rw [g2, ih2]
      · rw [g3, ih3, ih1, Nat.succ_mul]
        omega
  obtain ⟨k1, k2, k3⟩ := key
  refine ⟨fun hcb => ?_, k2, by rw [k1]; exact hen, by rw [k1]; exact hc,
    by rw [k1]; exact hcc, k1⟩
  rw [k3, if_pos hcb, Nat.mul_one]

theorem C13_witness :
    (0 < STM32_PWM_CH_MAX ∧ (demo_running_unbounded.ch 0).enabled ≠ 0 ∧
      (demo_running_unbounded.ch 0).cycle_count = 0 ∧ (demo_running_unbounded.ch 0).cycle = 0) ∧
    (((demo_running_unbounded.ch 0).cycle_callback ≠ 0 →
      cycle_calls 0 ((period_elapsed hal_ok)^[5] demo_running_unbounded).trace =
        cycle_calls 0 demo_running_unbounded.trace + 5) ∧
    seq_calls 0 ((period_elapsed hal_ok)^[5] demo_running_unbounded).trace =
      seq_calls 0 demo_running_unbounded.trace) :=
  ⟨by decide,
    (C13_unbounded_sequence hal_ok demo_running_unbounded 0 5 (by decide) (by decide)
      (by decide) (by decide)).1,
    (C13_unbounded_sequence hal_ok demo_running_unbounded 0 5 (by decide) (by decide)
      (by decide) (by decide)).2.1⟩

/-- C14 fails as stated: channel 0 runs a three-pulse sequence with a per-cycle
callback registered; on the third period-elapsed event (`cycle = 1`) that
callback is not invoked, so over the three events it is invoked twice. -/
theorem C14_counterexample :
    (demo_running_cb.ch 0).enabled ≠ 0 ∧ (demo_running_cb.ch 0).cycle_callback ≠ 0 ∧
    (demo_running_cb.ch 0).cycle_count = 3 ∧ (demo_running_cb.ch 0).cycle = 3 ∧
    (((period_elapsed hal_ok)^[2] demo_running_cb).ch 0).enabled ≠ 0 ∧
    (((period_elapsed hal_ok)^[2] demo_running_cb).ch 0).cycle = 1 ∧
    cycle_calls 0 ((period_elapsed hal_ok)^[3] demo_running_cb).trace =
      cycle_calls 0 ((period_elapsed hal_ok)^[2] demo_running_cb).trace ∧
    cycle_calls 0 ((period_elapsed hal_ok)^[3] demo_running_cb).trace =
      cycle_calls 0 demo_running_cb.trace + 2 := by
  decide

/-- C14, amended: for an enabled channel with a registered per-cycle callback,
a period-elapsed event invokes that callback exactly once when the channel is
not on its last pulse (`cycle ≠ 1`) and does not invoke it when it is
(`cycle = 1`, where the sequence callback or the automatic disable runs
instead); so over the `N` events of a bounded sequence of length `N` the
per-cycle callback is invoked `N - 1` times. -/
theorem C14_cycle_callback_except_last (hal : Hal) (pwm : stm32_pwm_dev_t) (j N : Nat)
    (hj : j < STM32_PWM_CH_MAX) (hen : (pwm.ch j).enabled ≠ 0)
    (hcb : (pwm.ch j).cycle_callback ≠ 0) :
    ((pwm.ch j).cycle ≠ 1 →
      cycle_calls j (period_elapsed hal pwm).trace = cycle_calls j pwm.trace + 1) ∧
    ((pwm.ch j).cycle = 1 →
      cycle_calls j (period_elapsed hal pwm).trace = cycle_calls j pwm.trace) ∧
    (0 < N → (pwm.ch j).cycle_count = N → (pwm.ch j).cycle = N →
      cycle_calls j ((period_elapsed hal)^[N] pwm).trace = cycle_calls j pwm.trace + (N - 1)) := by
  obtain ⟨h1, h2⟩ := period_elapsed_cycle_calls hal pwm j hj hen
  refine ⟨fun hc => ?_, h2, fun hN _ hc => ?_⟩
  · rw [h1 hc, if_pos hcb]
  · have key : ∀ k, k < N →
        cycle_calls j ((period_elapsed hal)^[k] pwm).trace = cycle_calls j pwm.trace + k := by
      intro k
      induction k with
      | zero => intro _; rfl
      | succ k ih =>
        intro hk
        obtain ⟨g1, -⟩ := bounded_sequence_countdown hal pwm j N hj hen hc k (by omega)
        rw [Function.iterate_succ_apply']
        have hen1 : (((period_elapsed hal)^[k] pwm).ch j).enabled ≠ 0 := by
          rw [g1]
          exact hen
        have hc1 : (((period_elapsed hal)^[k] pwm).ch j).cycle ≠ 1 := by
          rw [g1]
          simp only
          omega
        rw [(period_elapsed_cycle_calls hal _ j hj hen1).1 hc1, ih (by omega), g1]
        simp only
        rw [if_pos hcb]
        omega
    obtain ⟨n, rfl⟩ : ∃ n, N = n + 1 := ⟨N - 1, by omega⟩
    obtain ⟨g1, -⟩ := bounded_sequence_countdown hal pwm j (n + 1) hj hen hc n (by omega)
    rw [Function.iterate_succ_apply']
    have hen1 : (((period_elapsed hal)^[n] pwm).ch j).enabled ≠ 0 := by
      rw [g1]
      exact hen
    have hc1 : (((period_elapsed hal)^[n] pwm).ch j).cycle = 1 := by
      rw [g1]
      simp only
      omega
    rw [(period_elapsed_cycle_calls hal _ j hj hen1).2 hc1, key n (by omega)]
    omega

theorem C14_witness :
    (0 < STM32_PWM_CH_MAX ∧ (demo_running_cb.ch 0).enabled ≠ 0 ∧
      (demo_running_cb.ch 0).cycle_callback ≠ 0) ∧
    (0 < 3 → (demo_running_cb.ch 0).cycle_count = 3 → (demo_running_cb.ch 0).cycle = 3 →
      cycle_calls 0 ((period_elapsed hal_ok)^[3] demo_running_cb).trace =
        cycle_calls 0 demo_running_cb.trace + (3 - 1)) :=
  ⟨by decide, (C14_cycle_callback_except_last hal_ok demo_running_cb 0 3 (by decide) (by decide)
    (by decide)).2.2⟩

/-! ## Record-level view of the operations -/

/-- A pass of the commit loop stores `commit_record` into its own slot. -/
theorem update_ch_record (ua : Bool) (i : Nat) (st : UpdateLoop) :
    (stm32_pwm_update_channels_ch ua i st).pwm.ch i = commit_record ua (st.pwm.ch i) := by
  unfold stm32_pwm_update_channels_ch commit_record
  by_cases hd : STM32_PWM_CH_DISABLED ≠ (st.pwm.ch i).config
  · by_cases hu : (st.pwm.ch i).enabled ≠ 0 ∧ (ua = true ∨ (st.pwm.ch i).update ≠ 0)
    · have h3 : STM32_PWM_CH_DISABLED ≠ (st.pwm.ch i).config ∧ (st.pwm.ch i).enabled ≠ 0 ∧
          (ua = true ∨ (st.pwm.ch i).update ≠ 0) := ⟨hd, hu.1, hu.2⟩
      by_cases hc : (st.pwm.ch i).configure ≠ 0
      · simp only [if_pos hd, if_pos hu, if_pos h3, if_pos hc, setCh_ch_same, CC_EnableChannel_ch,
          (set_compare_frame _ _ _).1]
        rfl
      · simp only [if_pos hd, if_pos hu, if_pos h3, if_neg hc, setCh_ch_same,
          (set_compare_frame _ _ _).1]
    · have h3 : ¬ (STM32_PWM_CH_DISABLED ≠ (st.pwm.ch i).config ∧ (st.pwm.ch i).enabled ≠ 0 ∧
          (ua = true ∨ (st.pwm.ch i).update ≠ 0)) := fun h => hu ⟨h.2.1, h.2.2⟩
      simp only [if_pos hd, if_neg hu, if_neg h3]
  · have h3 : ¬ (STM32_PWM_CH_DISABLED ≠ (st.pwm.ch i).config ∧ (st.pwm.ch i).enabled ≠ 0 ∧
        (ua = true ∨ (st.pwm.ch i).update ≠ 0)) := fun h => hd h.1
    simp only [if_neg hd, if_neg h3]

/-- The commit stores `commit_record` into each of the four slots. -/
theorem commit_ch (pwm : stm32_pwm_dev_t) (ua : Bool) (i : Nat) (hi : i < STM32_PWM_CH_MAX) :
    (stm32_pwm_update_channels pwm ua).2.ch i = commit_record ua (pwm.ch i) := by
  obtain ⟨st, hst, hch, -⟩ := update_loop_slot pwm ua i hi
  rw [(update_channels_final pwm ua).1, hch, update_ch_record, hst]

/-- The commit leaves everything beyond the four slots alone. -/
theorem commit_ch_beyond (pwm : stm32_pwm_dev_t) (ua : Bool) (i : Nat)
    (hi : STM32_PWM_CH_MAX ≤ i) :
    (stm32_pwm_update_channels pwm ua).2.ch i = pwm.ch i := by
  unfold STM32_PWM_CH_MAX at hi
  rw [(update_channels_final pwm ua).1]
  unfold stm32_pwm_update_channels_loop
  rw [range_ch_max]
  simp only [List.foldl]
  rw [(update_ch_frame ua 3 _).2.2.1 i (by omega), (update_ch_frame ua 2 _).2.2.1 i (by omega),
    (update_ch_frame ua 1 _).2.2.1 i (by omega), (update_ch_frame ua 0 _).2.2.1 i (by omega)]

/-- The loop body of the handler stores `isr_record` into its own slot. -/
theorem isr_ch_record (hal : Hal) (j : Nat) (s : stm32_pwm_dev_t) :
    ∃ b : Bool, (stm32_pwm_isr_ch hal j s).ch j = isr_record (s.ch j) b := by
  unfold stm32_pwm_isr_ch isr_record
  simp only []
  by_cases hen : (s.ch j).enabled ≠ 0
  · rw [if_pos hen]
    simp only [if_pos hen]
    by_cases hc : 1 = (s.ch j).cycle
    · rw [if_pos hc]
      simp only [if_pos hc]
      by_cases hcb : (s.ch j).sequence_callback ≠ 0
      · rw [if_pos hcb]
        simp only [if_pos hcb]
        exact ⟨true, by rw [emit_ch, setCh_ch_same]⟩
      · rw [if_neg hcb]
        simp only [if_neg hcb]
        unfold stm32_pwm_disable_ch hal_gpio_init_af
        simp only [CC_DisableChannel_ch, setCh_ch_same]
        split_ifs
        · exact ⟨false, by simp⟩
        · exact ⟨true, by simp⟩
        · exact ⟨true, by simp⟩
    · rw [if_neg hc]
      simp only [if_neg hc]
      refine ⟨true, ?_⟩
      by_cases h0 : (s.ch j).cycle ≠ 0
      · rw [if_pos h0, if_pos h0]
        split_ifs <;> simp
      · rw [if_neg h0, if_neg h0]
        split_ifs <;> simp
  · rw [if_neg hen]
    simp only [if_neg hen]
    exact ⟨true, trivial⟩

/-- One run of the handler body for a device leaves a slot alone or stores
`isr_record` into it. -/
theorem isr_dev_ch (hal : Hal) (s : stm32_pwm_dev_t) (j : Nat) :
    (stm32_pwm_isr_dev hal s).ch j = s.ch j ∨
    ∃ b : Bool, (stm32_pwm_isr_dev hal s).ch j = isr_record (s.ch j) b := by
  unfold stm32_pwm_isr_dev
  simp only []
  by_cases huif : s.timx.SR &&& TIM_SR_UIF ≠ 0
  · rw [if_pos huif]
    by_cases hj : j < STM32_PWM_CH_MAX
    · right
      obtain ⟨s1, h1, -, -, h4, -, -⟩ := isr_loop_slot hal
        { s with timx := { s.timx with SR := s.timx.SR &&& (0xFFFFFFFF ^^^ s.timx.SR) } } j hj
      obtain ⟨b, hb⟩ := isr_ch_record hal j s1
      exact ⟨b, by rw [h4, hb, h1]⟩
    · left
      unfold STM32_PWM_CH_MAX at hj
      rw [range_ch_max]
      simp only [List.foldl]
      rw [isr_ch_other _ _ 3 j (by omega), isr_ch_other _ _ 2 j (by omega),
        isr_ch_other _ _ 1 j (by omega), isr_ch_other _ _ 0 j (by omega)]
  · rw [if_neg huif]
    exact Or.inl rfl

/-- The call `stm32_pwm_disable` leaves a slot alone or stores the disabled word
into it. -/
theorem disable_ch_cases (hal : Hal) (dev : pwm_dev) (s : stm32_pwm_dev_t) (cnum j : Nat) :
    (stm32_pwm_disable hal dev s cnum).2.ch j = s.ch j ∨
    (stm32_pwm_disable hal dev s cnum).2.ch j = (s.ch j).set_config STM32_PWM_CH_DISABLED := by
  unfold stm32_pwm_disable
  by_cases hc : cnum ≥ dev.pwm_chan_count
  · rw [if_pos hc]
    exact Or.inl rfl
  · rw [if_neg hc]
    by_cases hj : j = cnum
    · rw [hj]
      unfold stm32_pwm_disable_ch hal_gpio_init_af
      simp only [CC_DisableChannel_ch]
      split_ifs
      · exact Or.inl rfl
      · exact Or.inr (by simp)
      · exact Or.inr (by simp)
    · exact Or.inl (disable_ch_other hal s cnum j hj)

/-- The call `stm32_pwm_set_frequency` changes nothing or ends in a commit of all
channels entered with the channel records as they were. -/
theorem set_frequency_cases (clock : Nat) (s : stm32_pwm_dev_t) (freq : Nat) :
    (stm32_pwm_set_frequency clock s freq).2 = s ∨
    ∃ p : stm32_pwm_dev_t, p.ch = s.ch ∧ p.timx.CR1_CEN = s.timx.CR1_CEN ∧
      restart_calls p.trace = restart_calls s.trace ∧
      stm32_pwm_set_frequency clock s freq = stm32_pwm_update_channels p true := by
  unfold stm32_pwm_set_frequency
  by_cases hf : freq = 0
  · rw [if_pos hf]
    exact Or.inl rfl
  · rw [if_neg hf]
    simp only []
    by_cases hd : clock / freq = 0
    · rw [if_pos hd]
      exact Or.inl rfl
    · rw [if_neg hd]
      refine Or.inr ⟨LL_TIM_SetAutoReload (LL_TIM_SetPrescaler s
        (stm32_pwm_divisors (clock / freq)).1) (stm32_pwm_divisors (clock / freq)).2,
        rfl, rfl, ?_, rfl⟩
      simp only [LL_TIM_SetAutoReload, LL_TIM_SetPrescaler, emit_trace, restart_calls_append]
      rfl

/-- After `stm32_pwm_dev_init` each of the four slots holds the disabled word, the
other members of the record being those of the static storage. -/
theorem dev_init_ch (z : stm32_pwm_dev_t) (i : Nat) (hi : i < STM32_PWM_CH_MAX) :
    (stm32_pwm_dev_init z).ch i = (z.ch i).set_config STM32_PWM_CH_DISABLED ∧
    (stm32_pwm_dev_init z).timx.CR1_CEN = z.timx.CR1_CEN := by
  unfold stm32_pwm_dev_init
  rw [range_ch_max]
  simp only [List.foldl]
  unfold STM32_PWM_CH_MAX at hi
  interval_cases i <;> refine ⟨?_, ?_⟩ <;>
    simp [stm32_pwm_dev_t.setCh, LL_TIM_SetAutoReload, LL_TIM_SetPrescaler,
      stm32_pwm_dev_t.emit]

/-- Every step acts slot by slot on the four channel records through
`commit_record`, the stores of the configuration and enable calls, the
disabled word, or `isr_record`. -/
theorem step_record (dev : pwm_dev) (P : pwm_chan_cfg → Prop) (I : stm32_pwm_ch_t → Prop)
    (hcommit : ∀ ua c, I c → I (commit_record ua c))
    (hconf : ∀ c cfg, P cfg → I c →
      I (commit_record false (stm32_pwm_configure_record c cfg ((cfg.data % 256) &&& 0x0F))))
    (hen : ∀ c f, I c → I (commit_record false (enable_record c f)))
    (hdis : ∀ c, I c → I (c.set_config STM32_PWM_CH_DISABLED))
    (hisr : ∀ c b, I c → I (isr_record c b))
    (s s1 : stm32_pwm_dev_t) (hs : ∀ i, i < STM32_PWM_CH_MAX → I (s.ch i))
    (hstep : Step dev P s s1) : ∀ i, i < STM32_PWM_CH_MAX → I (s1.ch i) := by
  intro i hi
  cases hstep with
  | configure hal _ cnum cfg hP =>
    by_cases hc : cnum ≥ dev.pwm_chan_count
    · unfold stm32_pwm_configure_channel
      rw [if_pos hc]
      exact hs i hi
    · obtain ⟨q, hqch, -, -, hres⟩ :=
        configure_channel_cases hal dev s cnum cfg (by omega)
      rcases hres with h | h
      · rw [h]
        simp only
        rw [hqch]
        exact hs i hi
      · rw [h, commit_ch _ _ i hi]
        by_cases hic : i = cnum
        · rw [hic, setCh_ch_same]
          exact hconf _ _ hP (hs cnum (hic ▸ hi))
        · rw [setCh_ch_other _ _ _ _ hic, hqch]
          exact hcommit _ _ (hs i hi)
  | enable _ cnum fraction =>
    by_cases hc : cnum ≥ dev.pwm_chan_count
    · unfold stm32_pwm_enable_duty_cycle
      rw [if_pos hc]
      exact hs i hi
    · rw [enable_eq dev s cnum fraction (by omega), commit_ch _ _ i hi]
      by_cases hic : i = cnum
      · rw [hic, setCh_ch_same]
        exact hen _ _ (hs cnum (hic ▸ hi))
      · rw [setCh_ch_other _ _ _ _ hic]
        exact hcommit _ _ (hs i hi)
  | disable hal _ cnum =>
    rcases disable_ch_cases hal dev s cnum i with h | h
    · rw [h]
      exact hs i hi
    · rw [h]
      exact hdis _ (hs i hi)
  | set_frequency clock _ freq hclock =>
    rcases set_frequency_cases clock s freq with h | ⟨p, hp, -, -, h⟩
    · rw [h]
      exact hs i hi
    · rw [h, commit_ch _ _ i hi, hp]
      exact hcommit _ _ (hs i hi)
  | isr hal _ =>
    rcases isr_dev_ch hal s i with h | ⟨b, h⟩
    · rw [h]
      exact hs i hi
    · rw [h]
      exact hisr _ _ (hs i hi)
  | update_flag _ => exact hs i hi

/-- A property of channel records that holds for a freshly initialised record
and is kept by the record-level effect of every operation holds for the four
slots of every reachable state. -/
theorem reachable_invariant (dev : pwm_dev) (P : pwm_chan_cfg → Prop)
    (I : stm32_pwm_ch_t → Prop)
    (hinit : I (stm32_pwm_ch_zero.set_config STM32_PWM_CH_DISABLED))
    (hcommit : ∀ ua c, I c → I (commit_record ua c))
    (hconf : ∀ c cfg, P cfg → I c →
      I (commit_record false (stm32_pwm_configure_record c cfg ((cfg.data % 256) &&& 0x0F))))
    (hen : ∀ c f, I c → I (commit_record false (enable_record c f)))
    (hdis : ∀ c, I c → I (c.set_config STM32_PWM_CH_DISABLED))
    (hisr : ∀ c b, I c → I (isr_record c b))
    (s : stm32_pwm_dev_t) (hr : Reachable dev P s) :
    ∀ i, i < STM32_PWM_CH_MAX → I (s.ch i) := by
  induction hr with
  | init z hz _ =>
    intro i hi
    rw [(dev_init_ch z i hi).1, hz i]
    exact hinit
  | step s s1 _ hstep ih =>
    exact step_record dev P I hcommit hconf hen hdis hisr s s1 ih hstep

/-! ## Invariants of the reachable states -/

/-- The state `demo_running` is reachable: initialisation, one configuration
call, one enable call. -/
theorem demo_running_reachable : Reachable dev4 any_cfg demo_running :=
  Reachable.step _ _
    (Reachable.step _ _ (Reachable.init stm32_pwm_dev_zero (fun _ => rfl) rfl)
      (Step.configure hal_ok _ 0 demo_cfg trivial))
    (Step.enable _ 0 32768)

theorem commit_record_cycle (ua : Bool) (c : stm32_pwm_ch_t) :
    (commit_record ua c).cycle = c.cycle ∧ (commit_record ua c).cycle_count = c.cycle_count := by
  unfold commit_record
  split_ifs <;> exact ⟨rfl, rfl⟩

theorem isr_record_cycle (c : stm32_pwm_ch_t) (b : Bool) :
    (isr_record c b).cycle_count = c.cycle_count ∧
    (c.cycle ≤ c.cycle_count → (isr_record c b).cycle ≤ c.cycle_count) ∧
    (c.cycle = 0 → (isr_record c b).cycle = 0) := by
  unfold isr_record
  split_ifs with h1 h2 h3 h4 h5
  · exact ⟨rfl, fun _ => le_refl _, fun h => by omega⟩
  · exact ⟨rfl, fun _ => le_refl _, fun h => by omega⟩
  · exact ⟨rfl, fun _ => le_refl _, fun h => by omega⟩
  · exact ⟨rfl, fun h => by simp only; omega, fun h => absurd h h5⟩
  · exact ⟨rfl, fun h => h, fun h => h⟩
  · exact ⟨rfl, fun h => h, fun h => h⟩

/-- C16: in every state reachable from device initialisation through
`stm32_pwm_configure_channel`, `stm32_pwm_enable_duty_cycle`, `stm32_pwm_disable`,
`stm32_pwm_set_frequency` and the handler (callbacks leaving the driver state
alone), every channel record, enabled or not, has `cycle ≤ cycle_count`; and
the handler, run with or without the update flag pending, leaves a `cycle`
value of 0 at 0. -/
theorem C16_cycle_within_count (dev : pwm_dev) (s : stm32_pwm_dev_t) (hal : Hal)
    (hr : Reachable dev any_cfg s) :
    (∀ i, i < STM32_PWM_CH_MAX → (s.ch i).enabled ≠ 0 →
      0 ≤ (s.ch i).cycle ∧ (s.ch i).cycle ≤ (s.ch i).cycle_count) ∧
    (∀ i, i < STM32_PWM_CH_MAX → (s.ch i).cycle ≤ (s.ch i).cycle_count) ∧
    (∀ i, (s.ch i).cycle = 0 → ((stm32_pwm_isr_dev hal s).ch i).cycle = 0) ∧
    (∀ i, (s.ch i).cycle = 0 → ((period_elapsed hal s).ch i).cycle = 0) := by
  have hinv : ∀ i, i < STM32_PWM_CH_MAX → (s.ch i).cycle ≤ (s.ch i).cycle_count := by
    apply reachable_invariant dev any_cfg (fun c => c.cycle ≤ c.cycle_count) _ _ _ _ _ _ s hr
    · exact le_refl 0
    · intro ua c h
      show (commit_record ua c).cycle ≤ (commit_record ua c).cycle_count
      rw [(commit_record_cycle ua c).1, (commit_record_cycle ua c).2]
      exact h
    · intro c cfg _ _
      show (commit_record false _).cycle ≤ (commit_record false _).cycle_count
      rw [(commit_record_cycle _ _).1, (commit_record_cycle _ _).2]
      unfold stm32_pwm_configure_record
      split_ifs <;> exact le_refl _
    · intro c f h
      show (commit_record false _).cycle ≤ (commit_record false _).cycle_count
      rw [(commit_record_cycle _ _).1, (commit_record_cycle _ _).2]
      exact h
    · intro c h
      exact h
    · intro c b h
      show (isr_record c b).cycle ≤ (isr_record c b).cycle_count
      rw [(isr_record_cycle c b).1]
      exact (isr_record_cycle c b).2.1 h
  have hzero : ∀ (p : stm32_pwm_dev_t) (i : Nat), (p.ch i).cycle = 0 →
      ((stm32_pwm_isr_dev hal p).ch i).cycle = 0 := by
    intro p i h0
    rcases isr_dev_ch hal p i with h | ⟨b, h⟩
    · rw [h]
      exact h0
    · rw [h]
      exact (isr_record_cycle _ b).2.2 h0
  exact ⟨fun i hi _ => ⟨Nat.zero_le _, hinv i hi⟩, hinv, hzero s,
    fun i h0 => hzero (raise_UIF s) i h0⟩

theorem C16_witness :
    Reachable dev4 any_cfg demo_running ∧
    (∀ i, i < STM32_PWM_CH_MAX → (demo_running.ch i).cycle ≤ (demo_running.ch i).cycle_count) :=
  ⟨demo_running_reachable, (C16_cycle_within_count dev4 demo_running hal_ok
    demo_running_reachable).2.1⟩

theorem flag_stores_keep_pin_af (c : stm32_pwm_ch_t) (f : Nat) :
    ((c.set_configure 0).set_update 0).pin = c.pin ∧
    ((c.set_configure 0).set_update 0).af = c.af ∧
    (c.set_update 0).pin = c.pin ∧ (c.set_update 0).af = c.af ∧
    (enable_record c f).pin = c.pin ∧ (enable_record c f).af = c.af := by
  simp [enable_record, pin, af, set_update, set_configure, set_duty, set_enabled,
    getBits_setBits_same, getBits_setBits_lo, getBits_setBits_hi]

theorem commit_record_pin_af (ua : Bool) (c : stm32_pwm_ch_t) :
    (commit_record ua c).pin = c.pin ∧ (commit_record ua c).af = c.af := by
  obtain ⟨h1, h2, h3, h4, -, -⟩ := flag_stores_keep_pin_af c 0
  unfold commit_record
  split_ifs
  · exact ⟨h1, h2⟩
  · exact ⟨h3, h4⟩
  · exact ⟨rfl, rfl⟩

theorem disabled_word_fields (c : stm32_pwm_ch_t) :
    (c.set_config STM32_PWM_CH_DISABLED).pin = STM32_PWM_CH_NOPIN ∧
    (c.set_config STM32_PWM_CH_DISABLED).af = STM32_PWM_CH_NOAF ∧
    (c.set_config STM32_PWM_CH_DISABLED).enabled = 0 ∧
    (c.set_config STM32_PWM_CH_DISABLED).update = 0 ∧
    (c.set_config STM32_PWM_CH_DISABLED).configure = 0 := by
  have h : (c.set_config STM32_PWM_CH_DISABLED).config = STM32_PWM_CH_DISABLED := by
    simp [set_config, STM32_PWM_CH_DISABLED]
  obtain ⟨h1, h2, h3, -, h5, h6, -⟩ := disabled_fields _ h
  exact ⟨h5, h6, h1, h2, h3⟩

/-- The handler leaves the configuration word of a record as it is or stores
the disabled word. -/
theorem isr_record_config (c : stm32_pwm_ch_t) (b : Bool) :
    (isr_record c b).config = c.config ∨
    (isr_record c b).config = (c.set_config STM32_PWM_CH_DISABLED).config := by
  unfold isr_record
  split_ifs
  · exact Or.inl rfl
  · exact Or.inr rfl
  · exact Or.inl rfl
  · exact Or.inl rfl
  · exact Or.inl rfl
  · exact Or.inl rfl

/-- C17 fails as stated: channel 0 of a fresh device is configured with pin 5
and the no-alternate-function value `0x0F`; the call returns OK and the record,
which is not the disabled word, holds pin 5 together with `af = 0x0F`. -/
theorem C17_counterexample :
    Reachable dev4 any_cfg
      (stm32_pwm_configure_channel hal_ok dev4 stm32_pwm_dev_fresh 0 demo_cfg_mixed).2 ∧
    (stm32_pwm_configure_channel hal_ok dev4 stm32_pwm_dev_fresh 0 demo_cfg_mixed).1 = Rc.ok ∧
    ((stm32_pwm_configure_channel hal_ok dev4 stm32_pwm_dev_fresh 0 demo_cfg_mixed).2.ch 0).config ≠
      STM32_PWM_CH_DISABLED ∧
    ((stm32_pwm_configure_channel hal_ok dev4 stm32_pwm_dev_fresh 0 demo_cfg_mixed).2.ch 0).pin =
      5 ∧
    ((stm32_pwm_configure_channel hal_ok dev4 stm32_pwm_dev_fresh 0 demo_cfg_mixed).2.ch 0).af =
      STM32_PWM_CH_NOAF ∧
    ¬ (((stm32_pwm_configure_channel hal_ok dev4 stm32_pwm_dev_fresh 0
          demo_cfg_mixed).2.ch 0).pin = STM32_PWM_CH_NOPIN ↔
        ((stm32_pwm_configure_channel hal_ok dev4 stm32_pwm_dev_fresh 0
          demo_cfg_mixed).2.ch 0).af = STM32_PWM_CH_NOAF) :=
  ⟨Reachable.step _ _ (Reachable.init stm32_pwm_dev_zero (fun _ => rfl) rfl)
      (Step.configure hal_ok _ 0 demo_cfg_mixed trivial),
    by decide, by decide, by decide, by decide, by decide⟩

/-- What a successful `stm32_pwm_configure_channel` leaves in the pin and
alternate-function fields of the record. -/
theorem configure_ok_pin_af (hal : Hal) (dev : pwm_dev) (pwm : stm32_pwm_dev_t) (cnum : Nat)
    (cfg : pwm_chan_cfg) (hc : cnum < dev.pwm_chan_count)
    (h4 : dev.pwm_chan_count ≤ STM32_PWM_CH_MAX)
    (hok : (stm32_pwm_configure_channel hal dev pwm cnum cfg).1 = Rc.ok) :
    ((stm32_pwm_configure_channel hal dev pwm cnum cfg).2.ch cnum).pin = cfg.pin % 256 ∧
    ((stm32_pwm_configure_channel hal dev pwm cnum cfg).2.ch cnum).af =
      ((cfg.data % 256) &&& 0x0F) % 16 := by
  obtain ⟨q, hqch, -, -, hres⟩ := configure_channel_cases hal dev pwm cnum cfg hc
  rcases hres with h | h
  · rw [h] at hok
    simp at hok
  · rw [h, commit_ch _ _ cnum (lt_of_lt_of_le hc h4), setCh_ch_same,
      (commit_record_pin_af _ _).1, (commit_record_pin_af _ _).2]
    obtain ⟨-, -, -, -, h5, h6⟩ := configure_record_fields (pwm.ch cnum) cfg
      ((cfg.data % 256) &&& 0x0F)
    exact ⟨h5, h6⟩

theorem and_15_lt (x : Nat) : x &&& 0x0F < 16 :=
  lt_of_le_of_lt Nat.and_le_right (by decide)

/-- C17, amended: in every state reachable from device initialisation through
the public operations and the handler, provided every
`stm32_pwm_configure_channel` call is given a `uint8_t` pin and a pair that is
itself consistent (`pin = 0xFF` exactly when `data & 0x0F = 0x0F`), every
channel record has consistent pin and alternate-function fields; and a
successful `stm32_pwm_configure_channel` stores the pin and the low four bits of the
alternate function as given, whatever they are. -/
theorem C17_pin_af_consistent (hal : Hal) (dev : pwm_dev) (s pwm : stm32_pwm_dev_t)
    (cnum : Nat) (cfg : pwm_chan_cfg)
    (hr : Reachable dev cfg_consistent s)
    (hc : cnum < dev.pwm_chan_count) (h4 : dev.pwm_chan_count ≤ STM32_PWM_CH_MAX)
    (hpin : cfg.pin < 256)
    (hok : (stm32_pwm_configure_channel hal dev pwm cnum cfg).1 = Rc.ok) :
    (∀ i, i < STM32_PWM_CH_MAX → pin_af_consistent (s.ch i)) ∧
    (((stm32_pwm_configure_channel hal dev pwm cnum cfg).2.ch cnum).pin = cfg.pin ∧
      ((stm32_pwm_configure_channel hal dev pwm cnum cfg).2.ch cnum).af =
        (cfg.data % 256) &&& 0x0F) := by
  constructor
  · apply reachable_invariant dev cfg_consistent pin_af_consistent _ _ _ _ _ _ s hr
    · unfold pin_af_consistent
      rw [(disabled_word_fields _).1, (disabled_word_fields _).2.1]
      exact ⟨fun _ => rfl, fun _ => rfl⟩
    · intro ua c h
      unfold pin_af_consistent at h ⊢
      rw [(commit_record_pin_af ua c).1, (commit_record_pin_af ua c).2]
      exact h
    · intro c cfg1 hcfg _
      unfold pin_af_consistent
      rw [(commit_record_pin_af _ _).1, (commit_record_pin_af _ _).2]
      obtain ⟨-, -, -, -, h5, h6⟩ := configure_record_fields c cfg1
        ((cfg1.data % 256) &&& 0x0F)
      rw [h5, h6, Nat.mod_eq_of_lt hcfg.1, Nat.mod_eq_of_lt (and_15_lt _)]
      exact hcfg.2
    · intro c f h
      unfold pin_af_consistent at h ⊢
      rw [(commit_record_pin_af _ _).1, (commit_record_pin_af _ _).2,
        (flag_stores_keep_pin_af c f).2.2.2.2.1, (flag_stores_keep_pin_af c f).2.2.2.2.2]
      exact h
    · intro c _
      unfold pin_af_consistent
      rw [(disabled_word_fields _).1, (disabled_word_fields _).2.1]
      exact ⟨fun _ => rfl, fun _ => rfl⟩
    · intro c b h
      unfold pin_af_consistent at h ⊢
      rcases isr_record_config c b with hcfg | hcfg
      · unfold pin af at h ⊢
        rw [hcfg]
        exact h
      · have h1 := (disabled_word_fields c).1
        have h2 := (disabled_word_fields c).2.1
        unfold pin at h1
        unfold af at h2
        unfold pin af
        rw [hcfg, h1, h2]
        exact ⟨fun _ => rfl, fun _ => rfl⟩
  · obtain ⟨h1, h2⟩ := configure_ok_pin_af hal dev pwm cnum cfg hc h4 hok
    rw [h1, h2, Nat.mod_eq_of_lt hpin, Nat.mod_eq_of_lt (and_15_lt _)]
    exact ⟨rfl, rfl⟩

/-- The state `demo_running` is reachable with consistent configurations only. -/
theorem demo_running_reachable_consistent : Reachable dev4 cfg_consistent demo_running :=
  Reachable.step _ _
    (Reachable.step _ _ (Reachable.init stm32_pwm_dev_zero (fun _ => rfl) rfl)
      (Step.configure hal_ok _ 0 demo_cfg ⟨by decide, by decide⟩))
    (Step.enable _ 0 32768)

theorem C17_witness :
    (Reachable dev4 cfg_consistent demo_running ∧ 0 < dev4.pwm_chan_count ∧
      dev4.pwm_chan_count ≤ STM32_PWM_CH_MAX ∧ demo_cfg_mixed.pin < 256 ∧
      (stm32_pwm_configure_channel hal_ok dev4 stm32_pwm_dev_fresh 0 demo_cfg_mixed).1 = Rc.ok) ∧
    ((∀ i, i < STM32_PWM_CH_MAX → pin_af_consistent (demo_running.ch i)) ∧
    (((stm32_pwm_configure_channel hal_ok dev4 stm32_pwm_dev_fresh 0 demo_cfg_mixed).2.ch 0).pin =
        demo_cfg_mixed.pin ∧
      ((stm32_pwm_configure_channel hal_ok dev4 stm32_pwm_dev_fresh 0 demo_cfg_mixed).2.ch 0).af =
        (demo_cfg_mixed.data % 256) &&& 0x0F)) :=
  ⟨⟨demo_running_reachable_consistent, by decide, by decide, by decide, by decide⟩,
    C17_pin_af_consistent hal_ok dev4 demo_running stm32_pwm_dev_fresh 0 demo_cfg_mixed
      demo_running_reachable_consistent (by decide) (by decide) (by decide) (by decide)⟩

theorem flag_lt_two (c : stm32_pwm_ch_t) : c.enabled < 2 ∧ c.update < 2 ∧ c.configure < 2 := by
  unfold enabled update configure getBits
  refine ⟨Nat.mod_lt _ (by decide), Nat.mod_lt _ (by decide), Nat.mod_lt _ (by decide)⟩

/-- The flags and the duty of a record after the commit: a slot that is due
has both pending flags cleared; any other slot is left as it is. -/
theorem commit_record_flags (ua : Bool) (c : stm32_pwm_ch_t) :
    (c.enabled ≠ 0 → (ua = true ∨ c.update ≠ 0) →
      (commit_record ua c).update = 0 ∧ (commit_record ua c).configure = 0 ∧
      (commit_record ua c).enabled = c.enabled ∧ (commit_record ua c).duty = c.duty) ∧
    (¬ (c.enabled ≠ 0 ∧ (ua = true ∨ c.update ≠ 0)) → commit_record ua c = c) := by
  obtain ⟨f1, f2, f3, f4, g1, g2, g3, g4⟩ := commit_record_fields c
  constructor
  · intro hen hup
    have hd : STM32_PWM_CH_DISABLED ≠ c.config := fun h => enabled_ne_disabled _ hen h.symm
    unfold commit_record
    rw [if_pos ⟨hd, hen, hup⟩]
    by_cases hc : c.configure ≠ 0
    · rw [if_pos hc]
      exact ⟨f3, f4, f2, f1⟩
    · rw [if_neg hc]
      exact ⟨g3, by rw [g4]; simpa using hc, g2, g1⟩
  · intro hn
    unfold commit_record
    rw [if_neg (fun h => hn ⟨h.2.1, h.2.2⟩)]

/-- No pending flag survives the commit of a configuration or of an enable. -/
theorem commit_clears_pending (ua : Bool) (c : stm32_pwm_ch_t)
    (h : c.update ≠ 0 ∨ (c.enabled ≠ 0 ∧ c.configure ≠ 0) → c.enabled ≠ 0 ∧ c.update ≠ 0) :
    (commit_record ua c).update = 0 ∧
    ((commit_record ua c).enabled ≠ 0 → (commit_record ua c).configure = 0) := by
  obtain ⟨h1, h2⟩ := commit_record_flags ua c
  by_cases hdue : c.enabled ≠ 0 ∧ (ua = true ∨ c.update ≠ 0)
  · obtain ⟨a1, a2, -, -⟩ := h1 hdue.1 hdue.2
    exact ⟨a1, fun _ => a2⟩
  · rw [h2 hdue]
    constructor
    · by_contra hu
      exact hdue ⟨(h (Or.inl hu)).1, Or.inr hu⟩
    · intro hen
      by_contra hcf
      exact hdue ⟨hen, Or.inr (h (Or.inr ⟨hen, hcf⟩)).2⟩

/-- The record and the compare register after `stm32_pwm_enable_duty_cycle` on a
valid channel index. -/
theorem enable_result (dev : pwm_dev) (pwm : stm32_pwm_dev_t) (cnum fraction : Nat)
    (hc : cnum < dev.pwm_chan_count) (h4 : dev.pwm_chan_count ≤ STM32_PWM_CH_MAX) :
    (stm32_pwm_enable_duty_cycle dev pwm cnum fraction).1 = Rc.ok ∧
    ((stm32_pwm_enable_duty_cycle dev pwm cnum fraction).2.ch cnum).enabled = 1 ∧
    ((stm32_pwm_enable_duty_cycle dev pwm cnum fraction).2.ch cnum).duty = fraction % 65536 ∧
    ((stm32_pwm_enable_duty_cycle dev pwm cnum fraction).2.ch cnum).update = 0 ∧
    ((stm32_pwm_enable_duty_cycle dev pwm cnum fraction).2.ch cnum).configure = 0 ∧
    compare_reg (stm32_pwm_enable_duty_cycle dev pwm cnum fraction).2.timx cnum =
      fraction % 65536 := by
  have hi : cnum < STM32_PWM_CH_MAX := lt_of_lt_of_le hc h4
  obtain ⟨e1, e2, e3, -⟩ := enable_record_fields (pwm.ch cnum) fraction
  rw [enable_eq dev pwm cnum fraction hc]
  obtain ⟨st, hst, -, hcmp⟩ := update_loop_slot
    (pwm.setCh cnum ((((pwm.ch cnum).set_duty fraction).set_update 1).set_enabled 1)) false cnum hi
  rw [setCh_ch_same] at hst
  obtain ⟨s1, -, -, -, -⟩ := update_ch_self false cnum st hi (by rw [hst, e1]; decide)
    (Or.inr (by rw [hst, e2]; decide))
  obtain ⟨c1, c2, c3, c4⟩ := (commit_record_flags false
    ((((pwm.ch cnum).set_duty fraction).set_update 1).set_enabled 1)).1
    (by rw [e1]; decide) (Or.inr (by rw [e2]; decide))
  refine ⟨update_channels_rc _ _, ?_, ?_, ?_, ?_, ?_⟩
  · rw [commit_ch _ _ cnum hi, setCh_ch_same, c3, e1]
  · rw [commit_ch _ _ cnum hi, setCh_ch_same, c4, e3]
  · rw [commit_ch _ _ cnum hi, setCh_ch_same, c1]
  · rw [commit_ch _ _ cnum hi, setCh_ch_same, c2]
  · rw [(update_channels_final _ false).2, hcmp, s1, hst, e3]

/-- C18: in every state reachable from device initialisation through the
public operations and the handler, no channel has its update flag set and no
enabled channel has its configure flag set; and right after
`stm32_pwm_enable_duty_cycle(c, d)` on a valid channel with a 16-bit `d` the call
has returned OK, channel `c` is enabled with `duty = d`, both pending flags are
clear, and the compare register of channel `c` holds that duty. -/
theorem C18_pending_flags_cleared (dev : pwm_dev) (s pwm : stm32_pwm_dev_t) (c d : Nat)
    (hr : Reachable dev any_cfg s)
    (hc : c < dev.pwm_chan_count) (h4 : dev.pwm_chan_count ≤ STM32_PWM_CH_MAX)
    (hd : d < 2 ^ 16) :
    (∀ i, i < STM32_PWM_CH_MAX →
      (s.ch i).update = 0 ∧ ((s.ch i).enabled ≠ 0 → (s.ch i).configure = 0)) ∧
    ((stm32_pwm_enable_duty_cycle dev pwm c d).1 = Rc.ok ∧
      ((stm32_pwm_enable_duty_cycle dev pwm c d).2.ch c).enabled ≠ 0 ∧
      ((stm32_pwm_enable_duty_cycle dev pwm c d).2.ch c).duty = d ∧
      ((stm32_pwm_enable_duty_cycle dev pwm c d).2.ch c).update = 0 ∧
      ((stm32_pwm_enable_duty_cycle dev pwm c d).2.ch c).configure = 0 ∧
      compare_reg (stm32_pwm_enable_duty_cycle dev pwm c d).2.timx c =
        ((stm32_pwm_enable_duty_cycle dev pwm c d).2.ch c).duty) := by
  constructor
  · apply reachable_invariant dev any_cfg
      (fun r => r.update = 0 ∧ (r.enabled ≠ 0 → r.configure = 0)) _ _ _ _ _ _ s hr
    · exact ⟨(disabled_word_fields _).2.2.2.1, fun h => absurd (disabled_word_fields _).2.2.1 h⟩
    · intro ua r hI
      apply commit_clears_pending
      rintro (hu | ⟨hen, hcf⟩)
      · exact absurd hI.1 hu
      · exact absurd (hI.2 hen) hcf
    · intro r cfg _ _
      apply commit_clears_pending
      obtain ⟨-, r2, r3, -, -, -⟩ := configure_record_fields r cfg ((cfg.data % 256) &&& 0x0F)
      have hlt := (flag_lt_two r).1
      rw [r2, r3]
      rintro (hu | ⟨hen, -⟩)
      · constructor
        · intro h0
          rw [h0] at hu
          exact hu rfl
        · exact hu
      · exact ⟨hen, by omega⟩
    · intro r f _
      apply commit_clears_pending
      obtain ⟨e1, e2, -, -⟩ := enable_record_fields r f
      intro _
      unfold enable_record
      rw [e1, e2]
      exact ⟨by decide, by decide⟩
    · intro r _
      exact ⟨(disabled_word_fields _).2.2.2.1, fun h => absurd (disabled_word_fields _).2.2.1 h⟩
    · intro r b hI
      rcases isr_record_config r b with hcfg | hcfg
      · unfold update enabled configure at hI ⊢
        rw [hcfg]
        exact hI
      · have h1 := (disabled_word_fields r).2.2.1
        have h2 := (disabled_word_fields r).2.2.2.1
        unfold enabled at h1
        unfold update at h2
        unfold update enabled configure
        rw [hcfg, h2, h1]
        exact ⟨rfl, fun h => absurd rfl h⟩
  · obtain ⟨h1, h2, h3, h5, h6, h7⟩ := enable_result dev pwm c d hc h4
    have hmod : d % 65536 = d := Nat.mod_eq_of_lt (by omega)
    rw [hmod] at h3 h7
    exact ⟨h1, by rw [h2]; decide, h3, h5, h6, by rw [h7, h3]⟩

theorem C18_witness :
    (Reachable dev4 any_cfg demo_running ∧ 1 < dev4.pwm_chan_count ∧
      dev4.pwm_chan_count ≤ STM32_PWM_CH_MAX ∧ 1234 < 2 ^ 16) ∧
    ((∀ i, i < STM32_PWM_CH_MAX →
      (demo_running.ch i).update = 0 ∧
        ((demo_running.ch i).enabled ≠ 0 → (demo_running.ch i).configure = 0)) ∧
    ((stm32_pwm_enable_duty_cycle dev4 demo_running 1 1234).1 = Rc.ok ∧
      ((stm32_pwm_enable_duty_cycle dev4 demo_running 1 1234).2.ch 1).enabled ≠ 0 ∧
      ((stm32_pwm_enable_duty_cycle dev4 demo_running 1 1234).2.ch 1).duty = 1234 ∧
      ((stm32_pwm_enable_duty_cycle dev4 demo_running 1 1234).2.ch 1).update = 0 ∧
      ((stm32_pwm_enable_duty_cycle dev4 demo_running 1 1234).2.ch 1).configure = 0 ∧
      compare_reg (stm32_pwm_enable_duty_cycle dev4 demo_running 1 1234).2.timx 1 =
        ((stm32_pwm_enable_duty_cycle dev4 demo_running 1 1234).2.ch 1).duty)) :=
  ⟨⟨demo_running_reachable, by decide, by decide, by decide⟩,
    C18_pending_flags_cleared dev4 demo_running demo_running 1 1234 demo_running_reachable
      (by decide) (by decide) (by decide)⟩

/-! ## Channels enabled with the counter never started -/

/-- A commit in which some slot is not the disabled word and does not go
through the configure branch makes no reset-and-start call and leaves the run
bit of the counter as it is. -/
theorem commit_no_restart (pwm : stm32_pwm_dev_t) (ua : Bool) (a : Nat)
    (ha : a < STM32_PWM_CH_MAX) (hnd : (pwm.ch a).config ≠ STM32_PWM_CH_DISABLED)
    (hnc : (pwm.ch a).enabled = 0 ∨ (pwm.ch a).configure = 0) :
    restart_calls (stm32_pwm_update_channels pwm ua).2.trace = restart_calls pwm.trace ∧
    (stm32_pwm_update_channels pwm ua).2.timx.CR1_CEN = pwm.timx.CR1_CEN := by
  have hea : counts_enabled (pwm.ch a) = true := (counts_enabled_iff _).2 hnd
  have hca : ¬ counts_configured ua (pwm.ch a) = true := by
    rw [counts_configured_iff]
    rintro ⟨_, h1, _, h2⟩
    rcases hnc with h | h
    · exact h1 h
    · exact h2 h
  have hout := (commit_outcome pwm ua).2.1 ⟨a, ha, hea⟩ (fun h => hca (h a ha hea))
  obtain ⟨-, -, ht, -, hk⟩ := update_loop_counts pwm ua
  rw [hout]
  exact ⟨ht, hk⟩

/-- A successful `stm32_pwm_configure_channel` is the commit of the stored
configuration, entered after pin-mux calls only. -/
theorem configure_ok_eq (hal : Hal) (dev : pwm_dev) (pwm : stm32_pwm_dev_t) (cnum : Nat)
    (cfg : pwm_chan_cfg) (hc : cnum < dev.pwm_chan_count)
    (hok : (stm32_pwm_configure_channel hal dev pwm cnum cfg).1 = Rc.ok) :
    ∃ q : stm32_pwm_dev_t, q.ch = pwm.ch ∧ q.timx = pwm.timx ∧
      restart_calls q.trace = restart_calls pwm.trace ∧
      stm32_pwm_configure_channel hal dev pwm cnum cfg =
        stm32_pwm_update_channels (q.setCh cnum (stm32_pwm_configure_record (pwm.ch cnum) cfg
          ((cfg.data % 256) &&& 0x0F))) false := by
  obtain ⟨q, hqch, hqt, ⟨t, hqtr, hall⟩, hres⟩ := configure_channel_cases hal dev pwm cnum cfg hc
  rcases hres with h | h
  · rw [h] at hok
    simp at hok
  · refine ⟨q, hqch, hqt, ?_, h⟩
    rw [hqtr, restart_calls_append, restart_calls_pinmux t hall, Nat.add_zero]

/-- A record just configured from a slot whose enabled flag is clear: not the
disabled word, configure flag set, enabled and update flags clear; the commit
leaves it as it is. -/
theorem configured_idle_record (c : stm32_pwm_ch_t) (cfg : pwm_chan_cfg) (a : Nat)
    (h : c.enabled = 0) :
    (stm32_pwm_configure_record c cfg a).config ≠ STM32_PWM_CH_DISABLED ∧
    (stm32_pwm_configure_record c cfg a).enabled = 0 ∧
    (stm32_pwm_configure_record c cfg a).configure = 1 ∧
    commit_record false (stm32_pwm_configure_record c cfg a) =
      stm32_pwm_configure_record c cfg a := by
  obtain ⟨r1, r2, -, -, -, -⟩ := configure_record_fields c cfg a
  rw [h] at r2
  refine ⟨configure_ne_disabled _ (by rw [r1]; decide), r2, r1, ?_⟩
  exact (commit_record_flags false _).2 (fun hh => hh.1 r2)

/-- A record just enabled from a record with its configure flag set: after the
commit it is enabled with both pending flags clear. -/
theorem enabled_committed_record (c : stm32_pwm_ch_t) (f : Nat) :
    (commit_record false (enable_record c f)).enabled = 1 ∧
    (commit_record false (enable_record c f)).update = 0 ∧
    (commit_record false (enable_record c f)).configure = 0 := by
  obtain ⟨e1, e2, -, -⟩ := enable_record_fields c f
  obtain ⟨c1, c2, c3, -⟩ := (commit_record_flags false (enable_record c f)).1
    (by unfold enable_record; rw [e1]; decide) (Or.inr (by unfold enable_record; rw [e2]; decide))
  exact ⟨by rw [c3]; exact e1, c1, c2⟩

theorem commit_record_enabled (ua : Bool) (c : stm32_pwm_ch_t) :
    (commit_record ua c).enabled = c.enabled := by
  obtain ⟨h1, h2⟩ := commit_record_flags ua c
  by_cases hdue : c.enabled ≠ 0 ∧ (ua = true ∨ c.update ≠ 0)
  · exact (h1 hdue.1 hdue.2).2.2.1
  · rw [h2 hdue]

/-- A call of `stm32_pwm_set_frequency` with a frequency between 1 and the clock is
a commit of all channels, entered with the records, the run bit and the
reset-and-start calls as they were. -/
theorem set_frequency_ok_eq (clock : Nat) (s : stm32_pwm_dev_t) (freq : Nat)
    (hf1 : 1 ≤ freq) (hf2 : freq ≤ clock) :
    ∃ p : stm32_pwm_dev_t, p.ch = s.ch ∧ p.timx.CR1_CEN = s.timx.CR1_CEN ∧
      restart_calls p.trace = restart_calls s.trace ∧
      stm32_pwm_set_frequency clock s freq = stm32_pwm_update_channels p true := by
  have hdiv : clock / freq ≠ 0 := by
    have : 1 ≤ clock / freq := (Nat.le_div_iff_mul_le (by omega)).2 (by omega)
    omega
  unfold stm32_pwm_set_frequency
  rw [if_neg (by omega)]
  simp only []
  rw [if_neg hdiv]
  refine ⟨LL_TIM_SetAutoReload (LL_TIM_SetPrescaler s
    (stm32_pwm_divisors (clock / freq)).1) (stm32_pwm_divisors (clock / freq)).2,
    rfl, rfl, ?_, rfl⟩
  simp only [LL_TIM_SetAutoReload, LL_TIM_SetPrescaler, emit_trace, restart_calls_append]
  rfl

/-- C20: on a four-channel device with every slot disabled and the counter
stopped, after `stm32_pwm_configure_channel(0)` and `stm32_pwm_configure_channel(1)` have
returned OK, `stm32_pwm_enable_duty_cycle(0, d0)` and `stm32_pwm_enable_duty_cycle(1, d1)`
return OK and leave both channels enabled with their configure and update
flags clear, yet none of the four calls makes a reset-and-start call and the
counter is still stopped; a following `stm32_pwm_set_frequency` with a frequency
between 1 and the clock returns OK and does not start it either. -/
theorem C20_enabled_counter_never_started (hal0 hal1 : Hal) (dev : pwm_dev)
    (pwm s1 s2 : stm32_pwm_dev_t) (cfg0 cfg1 : pwm_chan_cfg) (d0 d1 clock freq : Nat)
    (hn : dev.pwm_chan_count = 4)
    (hfresh : ∀ i, i < STM32_PWM_CH_MAX → (pwm.ch i).config = STM32_PWM_CH_DISABLED)
    (hstop : pwm.timx.CR1_CEN = false)
    (h1 : stm32_pwm_configure_channel hal0 dev pwm 0 cfg0 = (Rc.ok, s1))
    (h2 : stm32_pwm_configure_channel hal1 dev s1 1 cfg1 = (Rc.ok, s2))
    (hf1 : 1 ≤ freq) (hf2 : freq ≤ clock) :
    ∃ s3 s4 s5 : stm32_pwm_dev_t,
      stm32_pwm_enable_duty_cycle dev s2 0 d0 = (Rc.ok, s3) ∧
      stm32_pwm_enable_duty_cycle dev s3 1 d1 = (Rc.ok, s4) ∧
      stm32_pwm_set_frequency clock s4 freq = (Rc.ok, s5) ∧
      ((s4.ch 0).enabled ≠ 0 ∧ (s4.ch 0).update = 0 ∧ (s4.ch 0).configure = 0) ∧
      ((s4.ch 1).enabled ≠ 0 ∧ (s4.ch 1).update = 0 ∧ (s4.ch 1).configure = 0) ∧
      (restart_calls s1.trace = restart_calls pwm.trace ∧
        restart_calls s2.trace = restart_calls pwm.trace ∧
        restart_calls s3.trace = restart_calls pwm.trace ∧
        restart_calls s4.trace = restart_calls pwm.trace ∧
        restart_calls s5.trace = restart_calls pwm.trace) ∧
      (s1.timx.CR1_CEN = false ∧ s2.timx.CR1_CEN = false ∧ s3.timx.CR1_CEN = false ∧
        s4.timx.CR1_CEN = false ∧ s5.timx.CR1_CEN = false) := by
  have hc0 : 0 < dev.pwm_chan_count := by omega
  have hc1 : 1 < dev.pwm_chan_count := by omega
  have hm0 : 0 < STM32_PWM_CH_MAX := by decide
  have hm1 : 1 < STM32_PWM_CH_MAX := by decide
  -- first configuration call
  obtain ⟨q1, hq1c, hq1t, hq1r, he1⟩ := configure_ok_eq hal0 dev pwm 0 cfg0 hc0 (by rw [h1])
  rw [h1] at he1
  obtain ⟨a1, a2, -, a4⟩ := configured_idle_record (pwm.ch 0) cfg0 ((cfg0.data % 256) &&& 0x0F)
    (disabled_fields _ (hfresh 0 hm0)).1
  generalize stm32_pwm_configure_record (pwm.ch 0) cfg0 ((cfg0.data % 256) &&& 0x0F) = rec0
    at he1 a1 a2 a4
  have hs1 : s1 = (stm32_pwm_update_channels (q1.setCh 0 rec0) false).2 := by rw [← he1]
  obtain ⟨n1, k1⟩ := commit_no_restart (q1.setCh 0 rec0) false 0 hm0
    (by rw [setCh_ch_same]; exact a1) (Or.inl (by rw [setCh_ch_same]; exact a2))
  have r1 : restart_calls s1.trace = restart_calls pwm.trace := by
    rw [hs1, n1, setCh_trace, hq1r]
  have c1 : s1.timx.CR1_CEN = false := by
    rw [hs1, k1, setCh_timx, hq1t, hstop]
  have s1c0 : s1.ch 0 = rec0 := by
    rw [hs1, commit_ch _ _ 0 hm0, setCh_ch_same, a4]
  have s1c1 : (s1.ch 1).enabled = 0 := by
    rw [hs1, commit_ch _ _ 1 hm1, commit_record_enabled,
      setCh_ch_other _ _ _ _ (by decide), hq1c]
    exact (disabled_fields _ (hfresh 1 hm1)).1
  -- second configuration call
  obtain ⟨q2, hq2c, hq2t, hq2r, he2⟩ := configure_ok_eq hal1 dev s1 1 cfg1 hc1 (by rw [h2])
  rw [h2] at he2
  obtain ⟨b1, b2, b3, b4⟩ := configured_idle_record (s1.ch 1) cfg1 ((cfg1.data % 256) &&& 0x0F)
    s1c1
  generalize stm32_pwm_configure_record (s1.ch 1) cfg1 ((cfg1.data % 256) &&& 0x0F) = rec1
    at he2 b1 b2 b3 b4
  have hs2 : s2 = (stm32_pwm_update_channels (q2.setCh 1 rec1) false).2 := by rw [← he2]
  have hP2 : (q2.setCh 1 rec1).ch 0 = rec0 := by
    rw [setCh_ch_other _ _ _ _ (by decide), hq2c, s1c0]
  obtain ⟨n2, k2⟩ := commit_no_restart (q2.setCh 1 rec1) false 0 hm0
    (by rw [hP2]; exact a1) (Or.inl (by rw [hP2]; exact a2))
  have r2 : restart_calls s2.trace = restart_calls pwm.trace := by
    rw [hs2, n2, setCh_trace, hq2r, r1]
  have c2 : s2.timx.CR1_CEN = false := by
    rw [hs2, k2, setCh_timx, hq2t, c1]
  have s2c0 : s2.ch 0 = rec0 := by
    rw [hs2, commit_ch _ _ 0 hm0, hP2, a4]
  have s2c1 : s2.ch 1 = rec1 := by
    rw [hs2, commit_ch _ _ 1 hm1, setCh_ch_same, b4]
  -- first enable call
  have he3 := enable_eq dev s2 0 d0 hc0
  rw [s2c0] at he3
  have hP3 : (s2.setCh 0 (((rec0.set_duty d0).set_update 1).set_enabled 1)).ch 1 = rec1 := by
    rw [setCh_ch_other _ _ _ _ (by decide), s2c1]
  obtain ⟨n3, k3⟩ := commit_no_restart
    (s2.setCh 0 (((rec0.set_duty d0).set_update 1).set_enabled 1)) false 1 hm1
    (by rw [hP3]; exact b1) (Or.inl (by rw [hP3]; exact b2))
  obtain ⟨x1, x2, x3⟩ := enabled_committed_record rec0 d0
  have s3c0 : (stm32_pwm_enable_duty_cycle dev s2 0 d0).2.ch 0 =
      commit_record false (enable_record rec0 d0) := by
    rw [he3, commit_ch _ _ 0 hm0, setCh_ch_same]
    rfl
  have s3c1 : (stm32_pwm_enable_duty_cycle dev s2 0 d0).2.ch 1 = rec1 := by
    rw [he3, commit_ch _ _ 1 hm1, hP3, b4]
  have r3 : restart_calls (stm32_pwm_enable_duty_cycle dev s2 0 d0).2.trace =
      restart_calls pwm.trace := by
    rw [he3, n3, setCh_trace, r2]
  have c3 : (stm32_pwm_enable_duty_cycle dev s2 0 d0).2.timx.CR1_CEN = false := by
    rw [he3, k3, setCh_timx, c2]
  have o3 : (stm32_pwm_enable_duty_cycle dev s2 0 d0).1 = Rc.ok := by
    rw [he3]
    exact update_channels_rc _ _
  generalize hE3 : stm32_pwm_enable_duty_cycle dev s2 0 d0 = e3 at s3c0 s3c1 r3 c3 o3
  obtain ⟨rc3, s3⟩ := e3
  simp only at s3c0 s3c1 r3 c3 o3
  subst o3
  -- second enable call
  have he4 := enable_eq dev s3 1 d1 hc1
  rw [s3c1] at he4
  have hP4 : (s3.setCh 1 (((rec1.set_duty d1).set_update 1).set_enabled 1)).ch 0 =
      commit_record false (enable_record rec0 d0) := by
    rw [setCh_ch_other _ _ _ _ (by decide), s3c0]
  obtain ⟨n4, k4⟩ := commit_no_restart
    (s3.setCh 1 (((rec1.set_duty d1).set_update 1).set_enabled 1)) false 0 hm0
    (by rw [hP4]; exact enabled_ne_disabled _ (by rw [x1]; decide))
    (Or.inr (by rw [hP4]; exact x3))
  obtain ⟨y1, y2, y3⟩ := enabled_committed_record rec1 d1
  have hidle : commit_record false (commit_record false (enable_record rec0 d0)) =
      commit_record false (enable_record rec0 d0) :=
    (commit_record_flags false _).2 (fun hh => by
      rcases hh.2 with h | h
      · exact absurd h (by decide)
      · exact h x2)
  have s4c0 : (stm32_pwm_enable_duty_cycle dev s3 1 d1).2.ch 0 =
      commit_record false (enable_record rec0 d0) := by
    rw [he4, commit_ch _ _ 0 hm0, hP4, hidle]
  have s4c1 : (stm32_pwm_enable_duty_cycle dev s3 1 d1).2.ch 1 =
      commit_record false (enable_record rec1 d1) := by
    rw [he4, commit_ch _ _ 1 hm1, setCh_ch_same]
    rfl
  have r4 : restart_calls (stm32_pwm_enable_duty_cycle dev s3 1 d1).2.trace =
      restart_calls pwm.trace := by
    rw [he4, n4, setCh_trace, r3]
  have c4 : (stm32_pwm_enable_duty_cycle dev s3 1 d1).2.timx.CR1_CEN = false := by
    rw [he4, k4, setCh_timx, c3]
  have o4 : (stm32_pwm_enable_duty_cycle dev s3 1 d1).1 = Rc.ok := by
    rw [he4]
    exact update_channels_rc _ _
  generalize hE4 : stm32_pwm_enable_duty_cycle dev s3 1 d1 = e4 at s4c0 s4c1 r4 c4 o4
  obtain ⟨rc4, s4⟩ := e4
  simp only at s4c0 s4c1 r4 c4 o4
  subst o4
  -- the frequency call
  obtain ⟨p, hpc, hpk, hpr, he5⟩ := set_frequency_ok_eq clock s4 freq hf1 hf2
  obtain ⟨n5, k5⟩ := commit_no_restart p true 0 hm0
    (by rw [hpc, s4c0]; exact enabled_ne_disabled _ (by rw [x1]; decide))
    (Or.inr (by rw [hpc, s4c0]; exact x3))
  refine ⟨s3, s4, (stm32_pwm_set_frequency clock s4 freq).2, rfl, hE4, ?_, ?_, ?_, ?_, ?_⟩
  · exact Prod.ext (by rw [he5]; exact update_channels_rc _ _) rfl
  · rw [s4c0]
    exact ⟨by rw [x1]; decide, x2, x3⟩
  · rw [s4c1]
    exact ⟨by rw [y1]; decide, y2, y3⟩
  · exact ⟨r1, r2, r3, r4, by rw [he5, n5, hpr, r4]⟩
  · exact ⟨c1, c2, c3, c4, by rw [he5, k5, hpk, c4]⟩

theorem C20_witness :
    (dev4.pwm_chan_count = 4 ∧
      (∀ i, i < STM32_PWM_CH_MAX → (stm32_pwm_dev_fresh.ch i).config = STM32_PWM_CH_DISABLED) ∧
      stm32_pwm_dev_fresh.timx.CR1_CEN = false ∧
      stm32_pwm_configure_channel hal_ok dev4 stm32_pwm_dev_fresh 0 demo_cfg =
        (Rc.ok, demo_configured) ∧
      stm32_pwm_configure_channel hal_ok dev4 demo_configured 1 demo_cfg_cb =
        (Rc.ok, (stm32_pwm_configure_channel hal_ok dev4 demo_configured 1 demo_cfg_cb).2) ∧
      1 ≤ 1000 ∧ 1000 ≤ 72000000) ∧
    (∃ s3 s4 s5 : stm32_pwm_dev_t,
      stm32_pwm_enable_duty_cycle dev4
        (stm32_pwm_configure_channel hal_ok dev4 demo_configured 1 demo_cfg_cb).2 0 100 =
        (Rc.ok, s3) ∧
      stm32_pwm_enable_duty_cycle dev4 s3 1 200 = (Rc.ok, s4) ∧
      stm32_pwm_set_frequency 72000000 s4 1000 = (Rc.ok, s5) ∧
      ((s4.ch 0).enabled ≠ 0 ∧ (s4.ch 0).update = 0 ∧ (s4.ch 0).configure = 0) ∧
      ((s4.ch 1).enabled ≠ 0 ∧ (s4.ch 1).update = 0 ∧ (s4.ch 1).configure = 0) ∧
      (restart_calls demo_configured.trace = restart_calls stm32_pwm_dev_fresh.trace ∧
        restart_calls (stm32_pwm_configure_channel hal_ok dev4 demo_configured 1
          demo_cfg_cb).2.trace = restart_calls stm32_pwm_dev_fresh.trace ∧
        restart_calls s3.trace = restart_calls stm32_pwm_dev_fresh.trace ∧
        restart_calls s4.trace = restart_calls stm32_pwm_dev_fresh.trace ∧
        restart_calls s5.trace = restart_calls stm32_pwm_dev_fresh.trace) ∧
      (demo_configured.timx.CR1_CEN = false ∧
        (stm32_pwm_configure_channel hal_ok dev4 demo_configured 1
          demo_cfg_cb).2.timx.CR1_CEN = false ∧
        s3.timx.CR1_CEN = false ∧ s4.timx.CR1_CEN = false ∧ s5.timx.CR1_CEN = false)) :=
  ⟨⟨rfl, by decide, by decide, Prod.ext (by decide) rfl, Prod.ext (by decide) rfl,
      by decide, by decide⟩,
    C20_enabled_counter_never_started hal_ok hal_ok dev4 stm32_pwm_dev_fresh demo_configured
      (stm32_pwm_configure_channel hal_ok dev4 demo_configured 1 demo_cfg_cb).2
      demo_cfg demo_cfg_cb 100 200 72000000 1000
      rfl (by decide) (by decide) (Prod.ext (by decide) rfl) (Prod.ext (by decide) rfl)
      (by decide) (by decide)⟩

end PwmStm32
